import Mathlib

set_option maxHeartbeats 1000000

/-!
Verification of the DAT recipe-tracking and version-inference subsystem
(dat/vistrail_data.py): the annotation codec between recipes / port maps and
delimited annotation text, the per-document metadata store, and the
parent-walking inference engine.

Python 2 byte strings are modelled as lists of characters, one per byte;
dicts are modelled as association lists (a dict is presented canonically as a
list of key-value pairs with strictly increasing keys where equality matters);
raised exceptions are modelled with an explicit error type threaded next to
the mutated state, so that mutations performed before a raise are kept.
-/

/-- Byte strings of the Python 2 runtime: a list of characters, one per byte. -/
abbrev Str := List Char

/-- Shorthand turning a Lean string literal into the byte-list representation. -/
def str (s : String) : Str := s.data

/-! ## Character splitting and joining (Python str.split / str.join) -/

/-- Core of single-character splitting: first segment plus remaining segments. -/
def splitC1 (c : Char) : Str → Str × List Str
  | [] => ([], [])
  | x :: xs =>
    let r := splitC1 c xs
    if x = c then ([], r.1 :: r.2) else (x :: r.1, r.2)

/-- Python s.split(c) for a one-character separator: always a nonempty list. -/
def splitC (c : Char) (s : Str) : List Str := (splitC1 c s).1 :: (splitC1 c s).2

/-- Python c.join(l) for a one-character separator. -/
def joinC (c : Char) : List Str → Str
  | [] => []
  | [x] => x
  | x :: y :: xs => x ++ c :: joinC c (y :: xs)

theorem splitC1_no_sep (c : Char) : ∀ (s : Str), c ∉ s → splitC1 c s = (s, [])
  | [], _ => rfl
  | x :: xs, h => by
    have hx : ¬ x = c := fun e => h (e ▸ List.mem_cons_self x xs)
    simp only [splitC1, splitC1_no_sep c xs (fun m => h (List.mem_cons_of_mem x m)), hx,
      if_false]

theorem splitC1_sep_cons (c : Char) (s : Str) :
    splitC1 c (c :: s) = ([], (splitC1 c s).1 :: (splitC1 c s).2) := by
  simp [splitC1]

theorem splitC1_append (c : Char) : ∀ (a b : Str), c ∉ a →
    splitC1 c (a ++ b) = (a ++ (splitC1 c b).1, (splitC1 c b).2)
  | [], b, _ => rfl
  | x :: xs, b, h => by
    have hx : ¬ x = c := fun e => h (e ▸ List.mem_cons_self x xs)
    have ih := splitC1_append c xs b (fun m => h (List.mem_cons_of_mem x m))
    simp only [List.cons_append, splitC1, List.append_eq, hx, if_false]
    rw [ih]

theorem splitC_no_sep (c : Char) (s : Str) (h : c ∉ s) : splitC c s = [s] := by
  simp [splitC, splitC1_no_sep c s h]

theorem splitC_joinC (c : Char) : ∀ (l : List Str), l ≠ [] → (∀ s ∈ l, c ∉ s) →
    splitC c (joinC c l) = l
  | [], hne, _ => absurd rfl hne
  | [x], _, h => splitC_no_sep c x (h x (List.mem_singleton.mpr rfl))
  | x :: y :: xs, _, h => by
    have hx : c ∉ x := h x (List.mem_cons_self x (y :: xs))
    have ih : splitC c (joinC c (y :: xs)) = y :: xs :=
      splitC_joinC c (y :: xs) (by simp) (fun s hs => h s (List.mem_cons_of_mem x hs))
    simp only [joinC, splitC] at ih ⊢
    rw [splitC1_append c x (c :: joinC c (y :: xs)) hx, splitC1_sep_cons]
    simpa using ih

/-! ## Decimal integers (Python int() and the %d format) -/

/-- Character for a decimal digit value below ten. -/
def digitCh (n : Nat) : Char := Char.ofNat (48 + n)

/-- Fuelled little-endian decimal digit list of a natural number. -/
def natDigitsRevF : Nat → Nat → Str
  | 0, _ => []
  | f + 1, n => if n = 0 then [] else digitCh (n % 10) :: natDigitsRevF f (n / 10)

/-- Decimal text of a natural number, as the %d format prints it. -/
def natToStr (n : Nat) : Str := if n = 0 then [digitCh 0] else (natDigitsRevF n n).reverse

/-- Decimal text of an integer, as the %d format prints it. -/
def intToStr (i : Int) : Str :=
  if i < 0 then '-' :: natToStr i.natAbs else natToStr i.natAbs

/-- Decimal digit test, as Python int() accepts digits. -/
def isDigitCh (c : Char) : Bool := 48 ≤ c.toNat && c.toNat ≤ 57

/-- Value of a decimal digit character. -/
def digitChVal (c : Char) : Nat := c.toNat - 48

/-- Big-endian accumulation of decimal digit values. -/
def natOfDigits (s : Str) : Nat := s.foldl (fun acc c => 10 * acc + digitChVal c) 0

/-- Strips surrounding spaces the way Python int() does. -/
def pyStrip (s : Str) : Str :=
  ((s.dropWhile (· = ' ')).reverse.dropWhile (· = ' ')).reverse

/-- Python int(s): optional surrounding spaces, optional sign, a nonempty run of
decimal digits; anything else raises ValueError, modelled as none. -/
def pyIntCore (t : Str) : Option Nat :=
  if t ≠ [] ∧ t.all isDigitCh then some (natOfDigits t) else none

/-- Python int(s) continued: dispatch on an optional leading sign after the
surrounding spaces are stripped. -/
def pyInt (s0 : Str) : Option Int :=
  match pyStrip s0 with
  | '-' :: t => (pyIntCore t).map (fun n => -(n : Int))
  | '+' :: t => (pyIntCore t).map (fun n => (n : Int))
  | t => (pyIntCore t).map (fun n => (n : Int))

/-- Little-endian value of a decimal digit list. -/
def valRevD (s : Str) : Nat := s.foldr (fun c acc => 10 * acc + digitChVal c) 0

theorem digitCh_table : ∀ m : Fin 10,
    digitChVal (digitCh m.val) = m.val ∧ isDigitCh (digitCh m.val) = true := by decide

theorem natDigitsRevF_spec : ∀ (f n : Nat), n ≤ f →
    valRevD (natDigitsRevF f n) = n ∧ ∀ c ∈ natDigitsRevF f n, isDigitCh c = true
  | 0, n, h => by
    have : n = 0 := Nat.le_zero.mp h
    subst this
    exact ⟨rfl, by simp [natDigitsRevF]⟩
  | f + 1, n, h => by
    by_cases h0 : n = 0
    · subst h0; simp [natDigitsRevF, valRevD]
    · have hdiv : n / 10 ≤ f := by
        have : n / 10 < n := Nat.div_lt_self (Nat.pos_of_ne_zero h0) (by norm_num)
        omega
      have ih := natDigitsRevF_spec f (n / 10) hdiv
      have htab1 : digitChVal (digitCh (n % 10)) = n % 10 :=
        (digitCh_table ⟨n % 10, Nat.mod_lt n (by norm_num)⟩).1
      have htab2 : isDigitCh (digitCh (n % 10)) = true :=
        (digitCh_table ⟨n % 10, Nat.mod_lt n (by norm_num)⟩).2
      constructor
      · simp only [natDigitsRevF, h0, if_false, valRevD, List.foldr_cons]
        have hv : valRevD (natDigitsRevF f (n / 10)) = n / 10 := ih.1
        simp only [valRevD] at hv
        rw [hv, htab1]
        omega
      · intro c hc
        simp only [natDigitsRevF, h0, if_false, List.mem_cons] at hc
        rcases hc with rfl | hc
        · exact htab2
        · exact ih.2 c hc

theorem natToStr_digits (n : Nat) : ∀ c ∈ natToStr n, isDigitCh c = true := by
  intro c hc
  by_cases h0 : n = 0
  · subst h0
    have he : natToStr 0 = [digitCh 0] := rfl
    rw [he, List.mem_singleton] at hc
    subst hc; decide
  · simp only [natToStr, h0, if_false, List.mem_reverse] at hc
    exact (natDigitsRevF_spec n n (Nat.le_refl n)).2 c hc

theorem natToStr_ne_nil (n : Nat) : natToStr n ≠ [] := by
  by_cases h0 : n = 0
  · subst h0; simp [natToStr]
  · simp only [natToStr, h0, if_false]
    intro h
    have := (natDigitsRevF_spec n n (Nat.le_refl n)).1
    rw [List.reverse_eq_nil_iff.mp h] at this
    exact h0 (by simpa [valRevD] using this.symm)

theorem natOfDigits_natToStr (n : Nat) : natOfDigits (natToStr n) = n := by
  by_cases h0 : n = 0
  · subst h0; decide
  · simp only [natToStr, h0, if_false, natOfDigits, List.foldl_reverse]
    exact (natDigitsRevF_spec n n (Nat.le_refl n)).1

theorem dropWhile_eq_self_of_forall {p : Char → Bool} :
    ∀ s : Str, (∀ c ∈ s, p c = false) → s.dropWhile p = s
  | [], _ => rfl
  | c :: t, h => by
    simp [List.dropWhile_cons, h c (List.mem_cons_self c t)]

theorem pyStrip_eq_self (s : Str) (h : ∀ c ∈ s, (c = ' ') = False) : pyStrip s = s := by
  have hb : ∀ c ∈ s, (decide (c = ' ')) = false := by
    intro c hc; simpa using h c hc
  unfold pyStrip
  rw [dropWhile_eq_self_of_forall s hb,
    dropWhile_eq_self_of_forall s.reverse (fun c hc => hb c (List.mem_reverse.mp hc)),
    List.reverse_reverse]

theorem pyInt_digits (t : Str) (hne : t ≠ []) (hd : ∀ c ∈ t, isDigitCh c = true) :
    pyInt t = some ((natOfDigits t : Nat) : Int) := by
  have hs : pyStrip t = t := pyStrip_eq_self t (fun c hc => by
    have h1 := hd c hc
    simp only [eq_iff_iff, iff_false]
    intro he; subst he; simp [isDigitCh] at h1)
  unfold pyInt
  rw [hs]
  split
  · rename_i t1
    have h1 := hd '-' (List.mem_cons_self '-' t1)
    simp [isDigitCh] at h1
  · rename_i t1
    have h1 := hd '+' (List.mem_cons_self '+' t1)
    simp [isDigitCh] at h1
  · simp [pyIntCore, hne, List.all_eq_true.mpr hd]

theorem pyInt_neg_digits (t : Str) (hne : t ≠ []) (hd : ∀ c ∈ t, isDigitCh c = true) :
    pyInt ('-' :: t) = some (-((natOfDigits t : Nat) : Int)) := by
  have hs : pyStrip ('-' :: t) = '-' :: t := pyStrip_eq_self _ (fun c hc => by
    rcases List.mem_cons.mp hc with rfl | hc
    · simp
    · have h1 := hd c hc
      simp only [eq_iff_iff, iff_false]
      intro he; subst he; simp [isDigitCh] at h1)
  unfold pyInt
  rw [hs]
  split
  · rename_i t1 he
    obtain ⟨-, rfl⟩ := List.cons.inj he
    simp [pyIntCore, hne, List.all_eq_true.mpr hd]
  · rename_i t1 he
    exact absurd (List.cons.inj he).1 (by decide)
  · rename_i hno _
    exact absurd rfl (hno t)

theorem pyInt_intToStr (i : Int) : pyInt (intToStr i) = some i := by
  by_cases hneg : i < 0
  · simp only [intToStr, if_pos hneg]
    rw [pyInt_neg_digits _ (natToStr_ne_nil _) (natToStr_digits _), natOfDigits_natToStr]
    congr 1
    omega
  · simp only [intToStr, if_neg hneg]
    rw [pyInt_digits _ (natToStr_ne_nil _) (natToStr_digits _), natOfDigits_natToStr]
    congr 1
    omega

theorem intToStr_chars (i : Int) : ∀ c ∈ intToStr i, c = '-' ∨ isDigitCh c = true := by
  intro c hc
  by_cases hneg : i < 0
  · simp only [intToStr, if_pos hneg, List.mem_cons] at hc
    rcases hc with rfl | hc
    · exact Or.inl rfl
    · exact Or.inr (natToStr_digits _ c hc)
  · simp only [intToStr, if_neg hneg] at hc
    exact Or.inr (natToStr_digits _ c hc)

/-! ## Percent escaping (urllib quote / unquote on byte strings) -/

/-- Characters quote never escapes: letters, digits, underscore, dot, dash. -/
def isSafeCh (c : Char) : Bool :=
  c.isAlpha || c.isDigit || c = '_' || c = '.' || c = '-'

/-- Uppercase hexadecimal digit character for a value below sixteen. -/
def hexCh (n : Nat) : Char := if n < 10 then digitCh n else Char.ofNat (55 + n)

/-- Fuelled little-endian uppercase hexadecimal digit list. -/
def hexDigitsRevF : Nat → Nat → Str
  | 0, _ => []
  | f + 1, n => if n = 0 then [] else hexCh (n % 16) :: hexDigitsRevF f (n / 16)

/-- The %02X format: at least two uppercase hexadecimal digits. -/
def hexPad2 (n : Nat) : Str :=
  if n < 16 then ['0', hexCh n] else (hexDigitsRevF n n).reverse

/-- Percent-escaping of a single byte, following quote with an empty safe set. -/
def quoteChar (c : Char) : Str :=
  if isSafeCh c then [c] else '%' :: hexPad2 c.toNat

/-- urllib2.quote(s, safe=''), byte for byte. -/
def pyQuote : Str → Str
  | [] => []
  | c :: s => quoteChar c ++ pyQuote s

/-- Hexadecimal digit test as int(x, 16) accepts digits. -/
def isHexCh (c : Char) : Bool :=
  isDigitCh c || (65 ≤ c.toNat && c.toNat ≤ 70) || (97 ≤ c.toNat && c.toNat ≤ 102)

/-- Value of one hexadecimal digit character. -/
def hexChVal (c : Char) : Nat :=
  if isDigitCh c then c.toNat - 48
  else if c.toNat ≤ 70 then c.toNat - 55 else c.toNat - 87

/-- Modelled from the stdlib: handling of one percent-split item inside
urllib2.unquote. Two leading hexadecimal digits (or a single trailing one)
name a byte; otherwise the percent sign is kept literally. The int() tolerance
for a sign or spaces inside an escape is not modelled; it is never exercised
by quote output. -/
def unquoteItem : Str → Str
  | [] => ['%']
  | [a] => if isHexCh a then [Char.ofNat (hexChVal a)] else ['%', a]
  | a :: b :: rest =>
    if isHexCh a && isHexCh b then Char.ofNat (16 * hexChVal a + hexChVal b) :: rest
    else '%' :: a :: b :: rest

/-- urllib2.unquote: split on percent signs and decode each following item. -/
def pyUnquote (s : Str) : Str :=
  (splitC1 '%' s).1 ++ ((splitC1 '%' s).2.map unquoteItem).flatten

theorem hexCh_table : ∀ m : Fin 16,
    hexChVal (hexCh m.val) = m.val ∧ isHexCh (hexCh m.val) = true ∧
      ¬ hexCh m.val = '%' := by decide

theorem hexDigitsRevF_two (f n : Nat) (h1 : 16 ≤ n) (h2 : n < 256) (hf : 2 ≤ f) :
    hexDigitsRevF f n = [hexCh (n % 16), hexCh (n / 16)] := by
  obtain ⟨f2, rfl⟩ : ∃ f2, f = f2 + 2 := ⟨f - 2, by omega⟩
  have hn0 : ¬ n = 0 := by omega
  have hq0 : ¬ n / 16 = 0 := by omega
  have hqq : n / 16 / 16 = 0 := by omega
  have hmod : n / 16 % 16 = n / 16 := Nat.mod_eq_of_lt (by omega)
  have hz : ∀ g, hexDigitsRevF g 0 = [] := fun g => by cases g <;> simp [hexDigitsRevF]
  simp [hexDigitsRevF, hn0, hq0, hqq, hmod, hz]

theorem hexPad2_byte (n : Nat) (h : n < 256) :
    hexPad2 n = [hexCh (n / 16), hexCh (n % 16)] := by
  by_cases hs : n < 16
  · have hd : n / 16 = 0 := Nat.div_eq_of_lt hs
    have hm : n % 16 = n := Nat.mod_eq_of_lt hs
    have h0 : hexCh 0 = '0' := by decide
    simp [hexPad2, hs, hd, hm, h0]
  · have h16 : 16 ≤ n := Nat.le_of_not_lt hs
    simp only [hexPad2, hs, if_false]
    rw [hexDigitsRevF_two n n h16 h (by omega)]
    rfl

theorem pyUnquote_pyQuote : ∀ (s : Str), (∀ c ∈ s, c.toNat < 256) →
    pyUnquote (pyQuote s) = s
  | [], _ => rfl
  | c :: s, h => by
    have ih := pyUnquote_pyQuote s (fun d hd => h d (List.mem_cons_of_mem c hd))
    by_cases hsafe : isSafeCh c = true
    · have hne : ¬ c = '%' := fun e => by rw [e] at hsafe; simp [isSafeCh] at hsafe
      have hq : pyQuote (c :: s) = c :: pyQuote s := by
        simp [pyQuote, quoteChar, hsafe]
      rw [hq]
      unfold pyUnquote at ih ⊢
      simp only [splitC1, hne, if_false]
      rw [List.cons_append, ih]
    · have hb : c.toNat < 256 := h c (List.mem_cons_self c s)
      have hdiv : c.toNat / 16 < 16 := by omega
      have hmod : c.toNat % 16 < 16 := by omega
      have t1 := hexCh_table ⟨c.toNat / 16, hdiv⟩
      have t2 := hexCh_table ⟨c.toNat % 16, hmod⟩
      have hq : pyQuote (c :: s) =
          '%' :: hexCh (c.toNat / 16) :: hexCh (c.toNat % 16) :: pyQuote s := by
        simp [pyQuote, quoteChar, hsafe, hexPad2_byte c.toNat hb]
      rw [hq]
      unfold pyUnquote at ih ⊢
      rw [splitC1_sep_cons]
      simp only [splitC1, t1.2.2, t2.2.2, if_false, List.map_cons, List.flatten_cons,
        List.nil_append]
      have hu : unquoteItem (hexCh (c.toNat / 16) :: hexCh (c.toNat % 16) ::
          (splitC1 '%' (pyQuote s)).1) = c :: (splitC1 '%' (pyQuote s)).1 := by
        simp only [unquoteItem, t1.2.1, t2.2.1, Bool.and_self, if_true, t1.1, t2.1]
        have harith : 16 * (c.toNat / 16) + c.toNat % 16 = c.toNat := by omega
        rw [harith, Char.ofNat_toNat]
      rw [hu, List.cons_append, ih]

theorem hexDigitsRevF_chars : ∀ (f n : Nat), ∀ d ∈ hexDigitsRevF f n,
    ∃ m : Fin 16, d = hexCh m.val
  | 0, n, d, hd => absurd hd (List.not_mem_nil d)
  | f + 1, n, d, hd => by
    by_cases h0 : n = 0
    · subst h0; simp [hexDigitsRevF] at hd
    · simp only [hexDigitsRevF, h0, if_false, List.mem_cons] at hd
      rcases hd with rfl | hd
      · exact ⟨⟨n % 16, Nat.mod_lt n (by omega)⟩, rfl⟩
      · exact hexDigitsRevF_chars f (n / 16) d hd

theorem hexPad2_chars (n : Nat) : ∀ d ∈ hexPad2 n, isHexCh d = true := by
  intro d hd
  by_cases hs : n < 16
  · simp only [hexPad2, hs, if_true, List.mem_cons, List.not_mem_nil, or_false] at hd
    rcases hd with rfl | rfl
    · decide
    · exact (hexCh_table ⟨n, hs⟩).2.1
  · simp only [hexPad2, hs, if_false, List.mem_reverse] at hd
    obtain ⟨m, rfl⟩ := hexDigitsRevF_chars n n d hd
    exact (hexCh_table m).2.1

theorem pyQuote_chars : ∀ (s : Str), ∀ d ∈ pyQuote s,
    isSafeCh d = true ∨ d = '%' ∨ isHexCh d = true
  | [], d, hd => absurd hd (List.not_mem_nil d)
  | c :: s, d, hd => by
    rcases List.mem_append.mp (by simpa [pyQuote] using hd) with hq | hq
    · by_cases hsafe : isSafeCh c = true
      · simp only [quoteChar, hsafe, if_true, List.mem_singleton] at hq
        exact Or.inl (hq ▸ hsafe)
      · have hf : isSafeCh c = false := by simpa using hsafe
        simp only [quoteChar, hf, Bool.false_eq_true, if_false, List.mem_cons] at hq
        rcases hq with rfl | hq
        · exact Or.inr (Or.inl rfl)
        · exact Or.inr (Or.inr (hexPad2_chars c.toNat d hq))
    · exact pyQuote_chars s d hq

/-! ## Lexicographic byte-string order and sorting (Python sorted) -/

/-- Byte-wise lexicographic strict order on byte strings. -/
def ltStr : Str → Str → Bool
  | [], [] => false
  | [], _ :: _ => true
  | _ :: _, [] => false
  | a :: as, b :: bs =>
    if a.toNat < b.toNat then true
    else if b.toNat < a.toNat then false
    else ltStr as bs

/-- Nonstrict comparison used by insertion: not strictly greater. -/
def leKey (a b : Str) : Bool := ! ltStr b a

theorem ltStr_asymm : ∀ a b : Str, ltStr a b = true → ltStr b a = false
  | [], [], h => by simp [ltStr] at h
  | [], _ :: _, _ => rfl
  | _ :: _, [], h => by simp [ltStr] at h
  | a :: as, b :: bs, h => by
    by_cases hab : a.toNat < b.toNat
    · simp [ltStr, hab, Nat.lt_asymm hab]
    · by_cases hba : b.toNat < a.toNat
      · simp [ltStr, hab, hba] at h
      · simp only [ltStr, hab, hba, if_false] at h ⊢
        exact ltStr_asymm as bs h

/-- Ordered insertion of one key-value pair. -/
def insSorted {α : Type} (p : Str × α) : List (Str × α) → List (Str × α)
  | [] => [p]
  | q :: l => if leKey p.1 q.1 then p :: q :: l else q :: insSorted p l

/-- Insertion sort by key, modelling sorted(d.iteritems()) on distinct keys. -/
def sortByKey {α : Type} (l : List (Str × α)) : List (Str × α) := l.foldr insSorted []

/-- Strictly increasing keys: the canonical presentation of a Python dict. -/
def KeysSorted {α : Type} (l : List (Str × α)) : Prop :=
  List.Pairwise (fun p q => ltStr p.1 q.1 = true) l

theorem sortByKey_eq_self {α : Type} : ∀ l : List (Str × α), KeysSorted l → sortByKey l = l
  | [], _ => rfl
  | p :: l, h => by
    have ih := sortByKey_eq_self l ((List.pairwise_cons.mp h).2)
    show insSorted p (sortByKey l) = p :: l
    rw [ih]
    cases l with
    | nil => rfl
    | cons q t =>
      have hlt : ltStr p.1 q.1 = true :=
        (List.pairwise_cons.mp h).1 q (List.mem_cons_self q t)
      have hle : leKey p.1 q.1 = true := by
        simp [leKey, ltStr_asymm p.1 q.1 hlt]
      simp [insSorted, hle]

theorem insSorted_mem {α : Type} (x p : Str × α) :
    ∀ l : List (Str × α), x ∈ insSorted p l ↔ x = p ∨ x ∈ l
  | [] => by simp [insSorted]
  | q :: l => by
    by_cases hle : leKey p.1 q.1 = true
    · simp [insSorted, hle]
    · have hf : leKey p.1 q.1 = false := by simpa using hle
      simp only [insSorted, hf, Bool.false_eq_true, if_false, List.mem_cons,
        insSorted_mem x p l]
      tauto

theorem sortByKey_mem {α : Type} (x : Str × α) :
    ∀ l : List (Str × α), x ∈ sortByKey l ↔ x ∈ l
  | [] => Iff.rfl
  | p :: l => by
    show x ∈ insSorted p (sortByKey l) ↔ _
    rw [insSorted_mem, sortByKey_mem x l, List.mem_cons]

/-! ## Association lists for Python dicts -/

/-- Python dict lookup returning an option. -/
def alookup {κ α : Type} [DecidableEq κ] (k : κ) : List (κ × α) → Option α
  | [] => none
  | (k1, v) :: l => if k = k1 then some v else alookup k l

/-- Python dict item assignment: replace in place or append. -/
def aset {κ α : Type} [DecidableEq κ] (k : κ) (v : α) : List (κ × α) → List (κ × α)
  | [] => [(k, v)]
  | (k1, v1) :: l => if k = k1 then (k, v) :: l else (k1, v1) :: aset k v l

/-- Python dict item deletion (del is only applied to present keys here). -/
def adel {κ α : Type} [DecidableEq κ] (k : κ) (l : List (κ × α)) : List (κ × α) :=
  l.filter (fun e => ¬ e.1 = k)

/-! ## Data model (dat/__init__.py and the spec data model) -/

/-- A plot as resolved through the global catalog, identified within it by
package identifier and name. -/
structure Plot where
  package_identifier : Str
  name : Str
deriving DecidableEq

/-- Modelled from the spec: the VariableInformation record the store keeps per
materialized variable; the class body is absent from these sources, and per the
data model only its name (plus a type read from the pipeline) matters here. -/
structure VarInfo where
  name : Str
  type : Str
deriving DecidableEq

/-- Modelled from the spec: a recipe parameter value, a tagged immutable record
that is either a literal constant string or a reference to a named variable
with an optional typecast operation name; the RecipeParameterValue class
imported by the store is absent from these sources. -/
inductive RecipeParameterValue where
  | constant (value : Str)
  | varRef (var : VarInfo) (typecast : Option Str)
deriving DecidableEq

/-- The type tag of a parameter value (the .type attribute). -/
def RecipeParameterValue.isConstant : RecipeParameterValue → Bool
  | .constant _ => true
  | .varRef _ _ => false

/-- Modelled from the spec: a recipe pairs a plot with a mapping from parameter
name to the ordered sequence of values bound to it; equality is over plot and
parameters (the mapping is kept as an association list; where dict equality
matters it is presented canonically with strictly sorted keys). -/
structure DATRecipe where
  plot : Plot
  parameters : List (Str × List RecipeParameterValue)
deriving DecidableEq

/-- Connection map: for each parameter, one tuple of connection ids per bound
value, positionally aligned with the recipe parameter values. -/
abbrev ConnMap := List (Str × List (List Int))

/-- Port map: for each parameter, the plot-side module id and input port name
pairs accepting its values. -/
abbrev PortMap := List (Str × List (Int × Str))

/-- Modelled from the spec: a pipeline record associating a version with a
recipe, a connection map and a port map; the port map is none between the two
loading passes of the store constructor. -/
structure PipelineInformation where
  version : Nat
  recipe : DATRecipe
  conn_map : ConnMap
  port_map : Option PortMap
deriving DecidableEq

/-- Python exceptions escaping the modelled code paths. -/
inductive PyErr where
  | valueError
  | keyError
  | attributeError
deriving DecidableEq

/-- Option-valued map over a list failing as a whole when one element fails,
modelling a Python loop whose body may raise inside a try block. -/
def mapO {α β : Type} (f : α → Option β) : List α → Option (List β)
  | [] => some []
  | x :: l =>
    match f x with
    | none => none
    | some y => (mapO f l).map (fun ys => y :: ys)

/-! ## Annotation codec (VistrailData static methods) -/

/-- One encoded value item: the constant or variable text, a colon, and the
comma-joined connection ids (inner loop body of _build_recipe_annotation). -/
def buildItem : RecipeParameterValue × List Int → Str
  | (.constant c, conns) => pyQuote c ++ ':' :: joinC ',' (conns.map intToStr)
  | (.varRef v tc, conns) =>
    (v.name ++ match tc with | none => [] | some t => ',' :: t) ++
      ':' :: joinC ',' (conns.map intToStr)

/-- Loop body of _build_recipe_annotation: one parameter entry appended to the
accumulated text; an empty value list is skipped, several constants raise
ValueError, and the conn_map subscript raises KeyError when the key is
missing. -/
def buildParamFold (cm : ConnMap) (acc : Str) :
    Str × List RecipeParameterValue → Except PyErr Str
  | (_, []) => Except.ok acc
  | (param, v0 :: vs) =>
    if v0.isConstant = true ∧ vs ≠ [] then Except.error PyErr.valueError
    else
      match alookup param cm with
      | none => Except.error PyErr.keyError
      | some conns =>
        Except.ok (acc ++ ';' :: param ++ '=' ::
          (if v0.isConstant then 'c' else 'v') :: '=' ::
          joinC '|' (((v0 :: vs).zip conns).map buildItem))

/-- The parameter loop of _build_recipe_annotation: a raise aborts the loop. -/
def buildParamsLoop (cm : ConnMap) (acc : Str) :
    List (Str × List RecipeParameterValue) → Except PyErr Str
  | [] => Except.ok acc
  | pv :: rest =>
    match buildParamFold cm acc pv with
    | Except.error e => Except.error e
    | Except.ok acc2 => buildParamsLoop cm acc2 rest

/-- Builds the recipe annotation value from the recipe and conn_map
(_build_recipe_annotation): the plot identifier followed by the parameter
entries in sorted order. -/
def build_recipe_ann (r : DATRecipe) (cm : ConnMap) : Except PyErr Str :=
  buildParamsLoop cm (r.plot.package_identifier ++ ',' :: r.plot.name)
    (sortByKey r.parameters)

/-- Parses one comma-joined connection id list (read_connlist). -/
def read_connlist (s : Str) : Option (List Int) := mapO pyInt (splitC ',' s)

/-- Parses one value item of a parameter segment: text before the colon is a
quoted constant or a variable name with optional typecast resolved through the
store variables; text after it is the connection list. -/
def parseItem (vars : List (Str × VarInfo)) (isconst : Bool) (item : Str) :
    Option (RecipeParameterValue × List Int) :=
  match splitC ':' item with
  | [v0, cl] =>
    match read_connlist cl with
    | none => none
    | some conns =>
      if isconst then some (.constant (pyUnquote v0), conns)
      else
        match splitC ',' v0 with
        | [vn] => (alookup vn vars).map (fun vi => (.varRef vi none, conns))
        | [vn, tc] => (alookup vn vars).map (fun vi => (.varRef vi (some tc), conns))
        | _ => none
  | _ => none

/-- Parses one parameter segment name=tag=items of the recipe annotation. -/
def parseParamSeg (vars : List (Str × VarInfo)) (seg : Str) :
    Option (Str × List RecipeParameterValue × List (List Int)) :=
  match splitC '=' seg with
  | [param, t, pvals] =>
    if t = str "c" ∨ t = str "v" then
      match mapO (parseItem vars (t = str "c")) (splitC '|' pvals) with
      | none => none
      | some items => some (param, items.map Prod.fst, items.map Prod.snd)
    else none
  | _ => none

/-- Reads (recipe, conn_map) from an annotation value
(_read_recipe_annotation); every raised KeyError, ValueError or TypeError is
caught and turned into none, and an unresolvable plot or variable fails the
whole decode. -/
def read_recipe_ann (catalog : List ((Str × Str) × Plot))
    (vars : List (Str × VarInfo)) (value : Str) : Option (DATRecipe × ConnMap) :=
  match splitC ';' value with
  | [] => none
  | plotSeg :: rest =>
    match splitC ',' plotSeg with
    | [pkg, pname] =>
      match alookup (pkg, pname) catalog with
      | none => none
      | some plot =>
        match mapO (parseParamSeg vars) rest with
        | none => none
        | some entries =>
          some (⟨plot, entries.foldl (fun d e => aset e.1 e.2.1 d) []⟩,
                entries.foldl (fun d e => aset e.1 e.2.2 d) [])
    | _ => none

/-- The module id and port name text of one port. -/
def portStr (p : Int × Str) : Str := intToStr p.1 ++ ',' :: p.2

/-- The text of one port map parameter entry. -/
def portSegStr (e : Str × List (Int × Str)) : Str :=
  e.1 ++ '=' :: joinC ':' (e.2.map portStr)

/-- Builds the port_map annotation value (_build_portmap_annotation):
parameters in sorted order, empty port lists skipped. -/
def build_portmap_ann (pm : PortMap) : Str :=
  joinC ';' (((sortByKey pm).filter (fun e => ¬ e.2 = [])).map portSegStr)

/-- Parses one parameter segment of the port map annotation; an empty right
hand side is an empty port list. -/
def parsePortSeg (seg : Str) : Option (Str × List (Int × Str)) :=
  match splitC '=' seg with
  | [param, ports] =>
    if ports = [] then some (param, [])
    else
      match mapO (fun port =>
          match splitC ',' port with
          | [mid, pname] => (pyInt mid).map (fun i => (i, pname))
          | _ => none) (splitC ':' ports) with
      | none => none
      | some l => some (param, l)
  | _ => none

/-- Reads a port map from an annotation value (_read_portmap_annotation);
raised ValueError or TypeError is caught and turned into none. -/
def read_portmap_ann (value : Str) : Option PortMap :=
  (mapO parsePortSeg (splitC ';' value)).map
    (fun entries => entries.foldl (fun d e => aset e.1 e.2 d) [])

/-! ## General lemmas for the round-trip proofs -/

theorem mapO_eq_some_of {α β : Type} (f : α → Option β) (g : α → β) :
    ∀ l : List α, (∀ x ∈ l, f x = some (g x)) → mapO f l = some (l.map g)
  | [], _ => rfl
  | x :: l, h => by
    have hx := h x (List.mem_cons_self x l)
    have ih := mapO_eq_some_of f g l (fun y hy => h y (List.mem_cons_of_mem x hy))
    simp [mapO, hx, ih]

theorem mapO_eq_none_of_mem {α β : Type} (f : α → Option β) (x : α) :
    ∀ l : List α, x ∈ l → f x = none → mapO f l = none
  | y :: l, hm, hx => by
    rcases List.mem_cons.mp hm with rfl | hm
    · simp [mapO, hx]
    · cases hy : f y with
      | none => simp [mapO, hy]
      | some v => simp [mapO, hy, mapO_eq_none_of_mem f x l hm hx]

theorem mapO_mem_of_eq_some {α β : Type} (f : α → Option β) :
    ∀ {l : List α} {r : List β}, mapO f l = some r → ∀ y ∈ r, ∃ x ∈ l, f x = some y
  | [], r, h, y, hy => by
    simp only [mapO, Option.some.injEq] at h
    subst h
    exact absurd hy (List.not_mem_nil y)
  | x :: l, r, h, y, hy => by
    simp only [mapO] at h
    cases hx : f x with
    | none => rw [hx] at h; exact absurd h (by simp)
    | some v =>
      rw [hx] at h
      cases hrest : mapO f l with
      | none => rw [hrest] at h; exact absurd h (by simp)
      | some vs =>
        rw [hrest] at h
        simp only [Option.map_some', Option.some.injEq] at h
        subst h
        rcases List.mem_cons.mp hy with rfl | hy
        · exact ⟨x, List.mem_cons_self x l, hx⟩
        · obtain ⟨z, hz, hfz⟩ := mapO_mem_of_eq_some f hrest y hy
          exact ⟨z, List.mem_cons_of_mem x hz, hfz⟩

theorem joinC_chars (c : Char) : ∀ (l : List Str), ∀ d ∈ joinC c l,
    d = c ∨ ∃ s ∈ l, d ∈ s
  | [], d, hd => absurd hd (List.not_mem_nil d)
  | [x], d, hd => Or.inr ⟨x, List.mem_singleton.mpr rfl, hd⟩
  | x :: y :: xs, d, hd => by
    have hd2 : d ∈ x ++ c :: joinC c (y :: xs) := hd
    rcases List.mem_append.mp hd2 with hx | hx
    · exact Or.inr ⟨x, List.mem_cons_self x (y :: xs), hx⟩
    · rcases List.mem_cons.mp hx with rfl | hx
      · exact Or.inl rfl
      · rcases joinC_chars c (y :: xs) d hx with h | ⟨s, hs, hds⟩
        · exact Or.inl h
        · exact Or.inr ⟨s, List.mem_cons_of_mem x hs, hds⟩

theorem ltStr_irrefl (a : Str) : ltStr a a = false := by
  cases h : ltStr a a with
  | false => rfl
  | true => rw [← h]; exact ltStr_asymm a a h

theorem ne_of_ltStr {a b : Str} (h : ltStr a b = true) : a ≠ b := by
  intro e
  subst e
  rw [ltStr_irrefl a] at h
  exact Bool.false_ne_true h

theorem zip_fst_eq_snd_fst {α β : Type} :
    ∀ (ps : List (Str × α)) (qs : List (Str × β)),
      ps.map Prod.fst = qs.map Prod.fst →
      ∀ pe ∈ ps.zip qs, pe.1.1 = pe.2.1
  | [], _, _, pe, hm => absurd hm (List.not_mem_nil pe)
  | _ :: _, [], _, pe, hm => absurd hm (List.not_mem_nil pe)
  | p :: ps, q :: qs, h, pe, hm => by
    simp only [List.map_cons, List.cons.injEq] at h
    rcases List.mem_cons.mp hm with rfl | hm
    · exact h.1
    · exact zip_fst_eq_snd_fst ps qs h.2 pe hm

theorem alookup_aligned {α β : Type} :
    ∀ (ps : List (Str × α)) (qs : List (Str × β)),
      ps.map Prod.fst = qs.map Prod.fst → KeysSorted ps →
      ∀ pe ∈ ps.zip qs, alookup pe.1.1 qs = some pe.2.2
  | [], _, _, _, pe, hm => absurd hm (List.not_mem_nil pe)
  | _ :: _, [], _, _, pe, hm => absurd hm (List.not_mem_nil pe)
  | p :: ps, q :: qs, h, hs, pe, hm => by
    simp only [List.map_cons, List.cons.injEq] at h
    rcases List.mem_cons.mp hm with rfl | hm
    · simp [alookup, h.1]
    · have hlt : ltStr p.1 pe.1.1 = true :=
        (List.pairwise_cons.mp hs).1 pe.1 (List.of_mem_zip hm).1
      have hne : ¬ pe.1.1 = q.1 := by
        rw [← h.1]
        exact fun e => ne_of_ltStr hlt e.symm
      simp only [alookup, hne, if_false]
      exact alookup_aligned ps qs h.2 ((List.pairwise_cons.mp hs).2) pe hm

theorem aset_append_of_not_mem {κ α : Type} [DecidableEq κ] (k : κ) (v : α) :
    ∀ l : List (κ × α), k ∉ l.map Prod.fst → aset k v l = l ++ [(k, v)]
  | [], _ => rfl
  | (k1, v1) :: l, h => by
    have hne : ¬ k = k1 := fun e => h (by simp [e])
    simp only [aset, hne, if_false, List.cons_append, List.cons.injEq, true_and]
    exact aset_append_of_not_mem k v l (fun m => h (List.mem_cons_of_mem _ m))

theorem foldl_aset_of_distinct {κ α : Type} [DecidableEq κ] :
    ∀ (es : List (κ × α)) (acc : List (κ × α)),
      (∀ e ∈ es, e.1 ∉ acc.map Prod.fst) →
      List.Pairwise (fun a b => a.1 ≠ b.1) es →
      es.foldl (fun d e => aset e.1 e.2 d) acc = acc ++ es
  | [], acc, _, _ => by simp
  | e :: es, acc, hd, hp => by
    have h1 : aset e.1 e.2 acc = acc ++ [e] := by
      rw [aset_append_of_not_mem e.1 e.2 acc (hd e (List.mem_cons_self e es))]
    simp only [List.foldl_cons, h1]
    rw [foldl_aset_of_distinct es (acc ++ [e])
      (fun x hx => by
        simp only [List.map_append, List.mem_append, List.map_cons, List.map_nil,
          List.mem_singleton]
        rintro (hm | hm)
        · exact hd x (List.mem_cons_of_mem e hx) hm
        · exact ((List.pairwise_cons.mp hp).1 x hx) hm.symm)
      ((List.pairwise_cons.mp hp).2)]
    simp

/-! ## Legality of recipes and connection maps (the grammar side conditions) -/

/-- No recipe grammar delimiter occurs in the string. -/
def noDelims (s : Str) : Bool :=
  s.all (fun c => !(c = ';' || c = '=' || c = '|' || c = ':' || c = ','))

/-- Neither a semicolon nor an equals sign occurs (parameter names). -/
def noSemiEq (s : Str) : Bool := s.all (fun c => !(c = ';' || c = '='))

/-- Neither a semicolon nor a comma occurs (plot identifier fields). -/
def noSemiComma (s : Str) : Bool := s.all (fun c => !(c = ';' || c = ','))

/-- Every character is one byte (a Python 2 str). -/
def byteStr (s : Str) : Bool := s.all (fun c => c.toNat < 256)

theorem noDelims_spec {s : Str} (h : noDelims s = true) :
    ∀ c ∈ s, ¬(c = ';' ∨ c = '=' ∨ c = '|' ∨ c = ':' ∨ c = ',') := by
  intro c hc hcon
  have hz := List.all_eq_true.mp h c hc
  rcases hcon with rfl | rfl | rfl | rfl | rfl <;> revert hz <;> decide

theorem noSemiEq_spec {s : Str} (h : noSemiEq s = true) :
    ∀ c ∈ s, ¬(c = ';' ∨ c = '=') := by
  intro c hc hcon
  have hz := List.all_eq_true.mp h c hc
  rcases hcon with rfl | rfl <;> revert hz <;> decide

theorem noSemiComma_spec {s : Str} (h : noSemiComma s = true) :
    ∀ c ∈ s, ¬(c = ';' ∨ c = ',') := by
  intro c hc hcon
  have hz := List.all_eq_true.mp h c hc
  rcases hcon with rfl | rfl <;> revert hz <;> decide

theorem byteStr_spec {s : Str} (h : byteStr s = true) : ∀ c ∈ s, c.toNat < 256 :=
  fun c hc => of_decide_eq_true (List.all_eq_true.mp h c hc)

/-- Legality of one parameter value: constants are byte strings, variable and
typecast names are delimiter free, and the variable resolves to itself in the
store. -/
def LegalValue (vars : List (Str × VarInfo)) : RecipeParameterValue → Prop
  | .constant c => byteStr c = true
  | .varRef v tc => noDelims v.name = true ∧ alookup v.name vars = some v ∧
      match tc with
      | none => True
      | some t => noDelims t = true

/-- Legality of one parameter binding together with its connection lists:
nonempty, positionally aligned, nonempty connection tuples, legal values of one
shared kind, and a constant bound at most once (the grammar admits one). -/
def LegalParamEntry (vars : List (Str × VarInfo))
    (vals : List RecipeParameterValue) (conns : List (List Int)) : Prop :=
  vals ≠ [] ∧ conns.length = vals.length ∧ (∀ cl ∈ conns, cl ≠ []) ∧
  (∀ v ∈ vals, LegalValue vars v) ∧
  ((∀ v ∈ vals, v.isConstant = true) ∨ (∀ v ∈ vals, v.isConstant = false)) ∧
  (match vals.head? with
   | none => True
   | some v0 => v0.isConstant = true → vals.length = 1)

/-- Legality of a recipe and connection map pair: canonically sorted parameter
keys, a resolvable plot with clean identifier fields, an aligned connection
map, and legal entries throughout. -/
def LegalRecipeConn (catalog : List ((Str × Str) × Plot))
    (vars : List (Str × VarInfo)) (r : DATRecipe) (cm : ConnMap) : Prop :=
  KeysSorted r.parameters ∧
  noSemiComma r.plot.package_identifier = true ∧
  noSemiComma r.plot.name = true ∧
  alookup (r.plot.package_identifier, r.plot.name) catalog = some r.plot ∧
  cm.map Prod.fst = r.parameters.map Prod.fst ∧
  ∀ pe ∈ r.parameters.zip cm,
    noSemiEq pe.1.1 = true ∧ LegalParamEntry vars pe.1.2 pe.2.2

/-! ## Character facts about encoded fragments -/

theorem pyQuote_no_delim (s : Str) : ∀ d ∈ pyQuote s,
    ¬(d = ';' ∨ d = '=' ∨ d = '|' ∨ d = ':' ∨ d = ',') := by
  intro d hd hcon
  have h := pyQuote_chars s d hd
  rcases hcon with rfl | rfl | rfl | rfl | rfl <;> revert h <;> decide

theorem intToStr_no_delim (i : Int) : ∀ d ∈ intToStr i,
    ¬(d = ';' ∨ d = '=' ∨ d = '|' ∨ d = ':' ∨ d = ',') := by
  intro d hd hcon
  have h := intToStr_chars i d hd
  rcases hcon with rfl | rfl | rfl | rfl | rfl <;> revert h <;> decide

theorem connStr_no (cl : List Int) : ∀ d ∈ joinC ',' (cl.map intToStr),
    ¬(d = ';' ∨ d = '=' ∨ d = '|' ∨ d = ':') := by
  intro d hd hcon
  rcases joinC_chars ',' _ d hd with rfl | ⟨s, hs, hds⟩
  · revert hcon; decide
  · obtain ⟨i, _, rfl⟩ := List.mem_map.mp hs
    exact intToStr_no_delim i d hds (by tauto)

theorem buildItem_no (vars : List (Str × VarInfo)) (v : RecipeParameterValue)
    (cl : List Int) (hv : LegalValue vars v) : ∀ d ∈ buildItem (v, cl),
    ¬(d = ';' ∨ d = '=' ∨ d = '|') := by
  intro d hd hcon
  cases v with
  | constant c =>
    have hd2 : d ∈ pyQuote c ∨ d = ':' ∨ d ∈ joinC ',' (List.map intToStr cl) := by
      simpa [buildItem] using hd
    rcases hd2 with hq | rfl | hq
    · exact pyQuote_no_delim c d hq (by tauto)
    · revert hcon; decide
    · exact connStr_no cl d hq (by tauto)
  | varRef vi tc =>
    have hname := noDelims_spec hv.1
    have hd2 : d ∈ vi.name ∨
        (d ∈ match tc with | none => ([] : Str) | some t => ',' :: t) ∨
        d = ':' ∨ d ∈ joinC ',' (List.map intToStr cl) := by
      simpa [buildItem] using hd
    rcases hd2 with hn | hm | rfl | hq
    · exact hname d hn (by tauto)
    · cases tc with
      | none => exact absurd hm (List.not_mem_nil d)
      | some t =>
        rcases List.mem_cons.mp hm with rfl | hn
        · revert hcon; decide
        · exact noDelims_spec (show noDelims t = true from hv.2.2) d hn (by tauto)
    · revert hcon; decide
    · exact connStr_no cl d hq (by tauto)

theorem splitC_pair (c : Char) (a b : Str) (ha : c ∉ a) (hb : c ∉ b) :
    splitC c (a ++ c :: b) = [a, b] := by
  unfold splitC
  rw [splitC1_append c a (c :: b) ha, splitC1_sep_cons, splitC1_no_sep c b hb]
  simp

theorem mapO_map {α β γ : Type} (f : β → Option γ) (g : α → β) :
    ∀ l : List α, mapO f (l.map g) = mapO (fun a => f (g a)) l
  | [] => rfl
  | x :: l => by
    cases hfx : f (g x) <;> simp [mapO, hfx, mapO_map f g l]

theorem read_connlist_join (cl : List Int) (h : cl ≠ []) :
    read_connlist (joinC ',' (cl.map intToStr)) = some cl := by
  unfold read_connlist
  rw [splitC_joinC ',' (cl.map intToStr) (by simpa using h)
      (fun s hs hm => by
        obtain ⟨i, _, rfl⟩ := List.mem_map.mp hs
        exact intToStr_no_delim i ',' hm (by tauto)),
    mapO_map, mapO_eq_some_of _ id cl (fun i _ => pyInt_intToStr i)]
  simp

theorem parseItem_buildItem (vars : List (Str × VarInfo))
    (v : RecipeParameterValue) (cl : List Int) (hv : LegalValue vars v)
    (hcl : cl ≠ []) :
    parseItem vars v.isConstant (buildItem (v, cl)) = some (v, cl) := by
  cases v with
  | constant c =>
    have hsplit : splitC ':' (buildItem (.constant c, cl)) =
        [pyQuote c, joinC ',' (cl.map intToStr)] :=
      splitC_pair ':' _ _ (fun hm => pyQuote_no_delim c ':' hm (by tauto))
        (fun hm => connStr_no cl ':' hm (by tauto))
    simp [parseItem, hsplit, read_connlist_join cl hcl,
      RecipeParameterValue.isConstant, pyUnquote_pyQuote c (byteStr_spec hv)]
  | varRef vi tc =>
    have hname := noDelims_spec hv.1
    cases tc with
    | none =>
      have hb : buildItem (.varRef vi none, cl) =
          vi.name ++ ':' :: joinC ',' (cl.map intToStr) := by
        simp [buildItem]
      have hsplit : splitC ':' (buildItem (.varRef vi none, cl)) =
          [vi.name, joinC ',' (cl.map intToStr)] := by
        rw [hb]
        exact splitC_pair ':' _ _ (fun hm => hname ':' hm (by tauto))
          (fun hm => connStr_no cl ':' hm (by tauto))
      have hcomma : splitC ',' vi.name = [vi.name] :=
        splitC_no_sep ',' vi.name (fun hm => hname ',' hm (by tauto))
      simp [parseItem, hsplit, read_connlist_join cl hcl,
        RecipeParameterValue.isConstant, hcomma, hv.2.1]
    | some t =>
      have htc := noDelims_spec (show noDelims t = true from hv.2.2)
      have hb : buildItem (.varRef vi (some t), cl) =
          (vi.name ++ ',' :: t) ++ ':' :: joinC ',' (cl.map intToStr) := by
        simp [buildItem]
      have hsplit : splitC ':' (buildItem (.varRef vi (some t), cl)) =
          [vi.name ++ ',' :: t, joinC ',' (cl.map intToStr)] := by
        rw [hb]
        refine splitC_pair ':' _ _ (fun hm => ?_)
          (fun hm => connStr_no cl ':' hm (by tauto))
        rcases List.mem_append.mp hm with hn | hn
        · exact hname ':' hn (by tauto)
        · rcases List.mem_cons.mp hn with he | hn
          · exact absurd he (by decide)
          · exact htc ':' hn (by tauto)
      have hcomma : splitC ',' (vi.name ++ ',' :: t) = [vi.name, t] :=
        splitC_pair ',' _ _ (fun hm => hname ',' hm (by tauto))
          (fun hm => htc ',' hm (by tauto))
      simp [parseItem, hsplit, read_connlist_join cl hcl,
        RecipeParameterValue.isConstant, hcomma, hv.2.1]

/-- The text of one parameter entry, excluding the leading semicolon. -/
def encSeg (param : Str) (vals : List RecipeParameterValue)
    (conns : List (List Int)) : Str :=
  param ++ '=' ::
    (if (vals.headD (.constant [])).isConstant then 'c' else 'v') :: '=' ::
    joinC '|' ((vals.zip conns).map buildItem)

theorem splitC_triple (c : Char) (a : Str) (t : Char) (b : Str)
    (ha : c ∉ a) (ht : ¬ t = c) (hb : c ∉ b) :
    splitC c (a ++ c :: t :: c :: b) = [a, [t], b] := by
  have h1 : splitC1 c (t :: c :: b) = ([t], [b]) := by
    simp [splitC1, ht, splitC1_no_sep c b hb]
  unfold splitC
  rw [splitC1_append c a _ ha, splitC1_sep_cons, h1]
  simp

theorem parseParamSeg_encSeg (vars : List (Str × VarInfo)) (param : Str)
    (vals : List RecipeParameterValue) (conns : List (List Int))
    (hp : noSemiEq param = true) (he : LegalParamEntry vars vals conns) :
    parseParamSeg vars (encSeg param vals conns) = some (param, vals, conns) := by
  obtain ⟨hne, hlen, hcl, hlv, hkind, hconst⟩ := he
  obtain ⟨v0, vs, rfl⟩ := List.exists_cons_of_ne_nil hne
  have hsame : ∀ v ∈ v0 :: vs, v.isConstant = v0.isConstant := by
    rcases hkind with h | h <;>
      { intro v hv
        rw [h v hv, h v0 (List.mem_cons_self v0 vs)] }
  have hitems : ∀ it ∈ ((v0 :: vs).zip conns).map buildItem, '|' ∉ it := by
    intro it hit hm
    obtain ⟨⟨v, cl⟩, hmem, rfl⟩ := List.mem_map.mp hit
    exact buildItem_no vars v cl (hlv v (List.of_mem_zip hmem).1) '|' hm (by tauto)
  have hzip_ne : ((v0 :: vs).zip conns).map buildItem ≠ [] := by
    cases conns with
    | nil => simp at hlen
    | cons q qs => simp [List.zip_cons_cons]
  have hbody : '=' ∉ joinC '|' (((v0 :: vs).zip conns).map buildItem) := by
    intro hm
    rcases joinC_chars '|' _ '=' hm with he | ⟨s2, hs, hds⟩
    · exact absurd he (by decide)
    · obtain ⟨⟨v, cl⟩, hmem, rfl⟩ := List.mem_map.mp hs
      exact buildItem_no vars v cl (hlv v (List.of_mem_zip hmem).1) '=' hds (by tauto)
  have hpa : '=' ∉ param := fun hm => noSemiEq_spec hp '=' hm (Or.inr rfl)
  have hsplit0 : splitC '|' (joinC '|' (((v0 :: vs).zip conns).map buildItem)) =
      ((v0 :: vs).zip conns).map buildItem :=
    splitC_joinC '|' _ hzip_ne (fun s2 hs hm => hitems s2 hs hm)
  have hmap : ∀ fl : Bool, fl = v0.isConstant →
      mapO (parseItem vars fl) (((v0 :: vs).zip conns).map buildItem) =
        some ((v0 :: vs).zip conns) := by
    intro fl hfl
    rw [mapO_map]
    have h2 := mapO_eq_some_of
      (fun pe : RecipeParameterValue × List Int => parseItem vars fl (buildItem pe))
      id ((v0 :: vs).zip conns) (fun pe hpe => by
        have hz := List.of_mem_zip hpe
        rw [hfl, ← hsame pe.1 hz.1]
        have h3 := parseItem_buildItem vars pe.1 pe.2 (hlv pe.1 hz.1)
          (hcl pe.2 hz.2)
        simpa using h3)
    simpa using h2
  have hmfz := List.map_fst_zip (v0 :: vs) conns (le_of_eq hlen.symm)
  have hmsz := List.map_snd_zip (v0 :: vs) conns (le_of_eq hlen)
  by_cases hc : v0.isConstant = true
  · have hsplit : splitC '=' (encSeg param (v0 :: vs) conns) =
        [param, ['c'], joinC '|' (((v0 :: vs).zip conns).map buildItem)] := by
      unfold encSeg
      simp only [List.headD_cons, hc, if_true]
      exact splitC_triple '=' param 'c' _ hpa (by decide) hbody
    have hfl : (decide (['c'] = str "c")) = true := by decide
    simp only [parseParamSeg, hsplit]
    rw [if_pos (Or.inl rfl : ['c'] = str "c" ∨ ['c'] = str "v")]
    simp only [hfl, hsplit0, hmap true hc.symm]
    simp [hmfz, hmsz]
  · have hcf : v0.isConstant = false := by simpa using hc
    have hsplit : splitC '=' (encSeg param (v0 :: vs) conns) =
        [param, ['v'], joinC '|' (((v0 :: vs).zip conns).map buildItem)] := by
      unfold encSeg
      simp only [List.headD_cons, hcf, Bool.false_eq_true, if_false]
      exact splitC_triple '=' param 'v' _ hpa (by decide) hbody
    have hfl : (decide (['v'] = str "c")) = false := by decide
    simp only [parseParamSeg, hsplit]
    rw [if_pos (Or.inr rfl : ['v'] = str "c" ∨ ['v'] = str "v")]
    simp only [hfl, hsplit0, hmap false hcf.symm]
    simp [hmfz, hmsz]

theorem joinC_cons_flatten (c : Char) : ∀ (x : Str) (l : List Str),
    joinC c (x :: l) = x ++ (l.map (fun s => c :: s)).flatten
  | _, [] => by simp [joinC]
  | x, y :: l => by
    have ih := joinC_cons_flatten c y l
    simp only [joinC] at ih ⊢
    rw [ih]
    simp

theorem build_fold_ok (cm : ConnMap) :
    ∀ (l : List ((Str × List RecipeParameterValue) × (Str × List (List Int))))
      (acc : Str),
      (∀ pe ∈ l, pe.1.2 ≠ []) →
      (∀ pe ∈ l, alookup pe.1.1 cm = some pe.2.2) →
      (∀ pe ∈ l, match pe.1.2.head? with
        | none => True
        | some w => w.isConstant = true → pe.1.2.length = 1) →
      buildParamsLoop cm acc (l.map Prod.fst) =
        Except.ok (acc ++
          (l.map (fun pe => ';' :: encSeg pe.1.1 pe.1.2 pe.2.2)).flatten)
  | [], acc, _, _, _ => by simp [buildParamsLoop]
  | pe :: l, acc, h1, h2, h3 => by
    obtain ⟨⟨param, vals⟩, ⟨param2, conns2⟩⟩ := pe
    obtain ⟨v0, vs, rfl⟩ :=
      List.exists_cons_of_ne_nil (h1 _ (List.mem_cons_self _ l))
    have hno : ¬ (v0.isConstant = true ∧ vs ≠ []) := by
      rintro ⟨hc, hvs⟩
      have h4 := h3 _ (List.mem_cons_self _ l)
      simp only [List.head?_cons] at h4
      have := h4 hc
      simp at this
      exact hvs this
    have hlk : alookup param cm = some conns2 := by
      simpa using h2 _ (List.mem_cons_self _ l)
    have hstep : buildParamFold cm acc (param, v0 :: vs) =
        Except.ok (acc ++ ';' :: param ++ '=' ::
          (if v0.isConstant then 'c' else 'v') :: '=' ::
          joinC '|' (((v0 :: vs).zip conns2).map buildItem)) := by
      simp only [buildParamFold, hno, if_false, hlk]
    have ih := build_fold_ok cm l
      (acc ++ ';' :: param ++ '=' ::
        (if v0.isConstant then 'c' else 'v') :: '=' ::
        joinC '|' (((v0 :: vs).zip conns2).map buildItem))
      (fun x hx => h1 x (List.mem_cons_of_mem _ hx))
      (fun x hx => h2 x (List.mem_cons_of_mem _ hx))
      (fun x hx => h3 x (List.mem_cons_of_mem _ hx))
    simp only [List.map_cons, buildParamsLoop, hstep]
    rw [ih]
    simp [encSeg, List.headD_cons]

theorem build_recipe_ann_legal (catalog : List ((Str × Str) × Plot))
    (vars : List (Str × VarInfo)) (r : DATRecipe) (cm : ConnMap)
    (h : LegalRecipeConn catalog vars r cm) :
    build_recipe_ann r cm = Except.ok (joinC ';'
      ((r.plot.package_identifier ++ ',' :: r.plot.name) ::
       (r.parameters.zip cm).map (fun pe => encSeg pe.1.1 pe.1.2 pe.2.2))) := by
  obtain ⟨hsort, hpkg, hname, hplot, halign, hent⟩ := h
  have hlen : r.parameters.length ≤ cm.length := by
    have h2 := congrArg List.length halign
    simp only [List.length_map] at h2
    omega
  have hfst : (r.parameters.zip cm).map Prod.fst = r.parameters :=
    List.map_fst_zip _ _ hlen
  unfold build_recipe_ann
  rw [sortByKey_eq_self _ hsort]
  conv_lhs => rw [← hfst]
  rw [build_fold_ok cm (r.parameters.zip cm) _
    (fun pe hpe => (hent pe hpe).2.1)
    (alookup_aligned r.parameters cm halign.symm hsort)
    (fun pe hpe => (hent pe hpe).2.2.2.2.2.2)]
  rw [joinC_cons_flatten]
  simp [List.map_map, Function.comp_def]

theorem encSeg_no_semi (vars : List (Str × VarInfo)) (param : Str)
    (vals : List RecipeParameterValue) (conns : List (List Int))
    (hp : noSemiEq param = true) (hlv : ∀ v ∈ vals, LegalValue vars v) :
    ';' ∉ encSeg param vals conns := by
  intro hm
  have hbody : ';' ∉ joinC '|' ((vals.zip conns).map buildItem) := by
    intro hm2
    rcases joinC_chars '|' _ ';' hm2 with he | ⟨s2, hs, hds⟩
    · exact absurd he (by decide)
    · obtain ⟨⟨v, cl⟩, hmem, rfl⟩ := List.mem_map.mp hs
      exact buildItem_no vars v cl (hlv v (List.of_mem_zip hmem).1) ';' hds
        (by tauto)
  cases hco : (vals.headD (RecipeParameterValue.constant [])).isConstant with
  | true =>
    rw [encSeg, hco, if_pos rfl] at hm
    rcases List.mem_append.mp hm with hm | hm
    · exact noSemiEq_spec hp ';' hm (Or.inl rfl)
    · rcases List.mem_cons.mp hm with he | hm
      · exact absurd he (by decide)
      · rcases List.mem_cons.mp hm with he | hm
        · exact absurd he (by decide)
        · rcases List.mem_cons.mp hm with he | hm
          · exact absurd he (by decide)
          · exact hbody hm
  | false =>
    rw [encSeg, hco] at hm
    simp only [Bool.false_eq_true, if_false] at hm
    rcases List.mem_append.mp hm with hm | hm
    · exact noSemiEq_spec hp ';' hm (Or.inl rfl)
    · rcases List.mem_cons.mp hm with he | hm
      · exact absurd he (by decide)
      · rcases List.mem_cons.mp hm with he | hm
        · exact absurd he (by decide)
        · rcases List.mem_cons.mp hm with he | hm
          · exact absurd he (by decide)
          · exact hbody hm

theorem foldl_aset_proj {κ α β : Type} [DecidableEq κ] (f : β → κ × α) :
    ∀ (es : List β) (acc : List (κ × α)),
      (∀ e ∈ es, (f e).1 ∉ acc.map Prod.fst) →
      List.Pairwise (fun a b => (f a).1 ≠ (f b).1) es →
      es.foldl (fun d e => aset (f e).1 (f e).2 d) acc = acc ++ es.map f
  | [], acc, _, _ => by simp
  | e :: es, acc, hd, hp => by
    have h1 : aset (f e).1 (f e).2 acc = acc ++ [f e] := by
      rw [aset_append_of_not_mem _ _ acc (hd e (List.mem_cons_self e es))]
    simp only [List.foldl_cons, h1]
    rw [foldl_aset_proj f es (acc ++ [f e])
      (fun x hx => by
        simp only [List.map_append, List.mem_append, List.map_cons, List.map_nil,
          List.mem_singleton]
        rintro (hm | hm)
        · exact hd x (List.mem_cons_of_mem e hx) hm
        · exact ((List.pairwise_cons.mp hp).1 x hx) hm.symm)
      ((List.pairwise_cons.mp hp).2)]
    simp

theorem read_recipe_ann_enc (catalog : List ((Str × Str) × Plot))
    (vars : List (Str × VarInfo)) (r : DATRecipe) (cm : ConnMap)
    (h : LegalRecipeConn catalog vars r cm) :
    read_recipe_ann catalog vars (joinC ';'
      ((r.plot.package_identifier ++ ',' :: r.plot.name) ::
       (r.parameters.zip cm).map (fun pe => encSeg pe.1.1 pe.1.2 pe.2.2))) =
      some (r, cm) := by
  obtain ⟨hsort, hpkg, hname, hplot, halign, hent⟩ := h
  have hlen : r.parameters.length ≤ cm.length := by
    have h2 := congrArg List.length halign
    simp only [List.length_map] at h2
    omega
  have hlen2 : cm.length ≤ r.parameters.length := by
    have h2 := congrArg List.length halign
    simp only [List.length_map] at h2
    omega
  have hfst : (r.parameters.zip cm).map Prod.fst = r.parameters :=
    List.map_fst_zip _ _ hlen
  have hplotseg : ';' ∉ r.plot.package_identifier ++ ',' :: r.plot.name := by
    intro hm
    rcases List.mem_append.mp hm with hm | hm
    · exact noSemiComma_spec hpkg ';' hm (Or.inl rfl)
    · rcases List.mem_cons.mp hm with he | hm
      · exact absurd he (by decide)
      · exact noSemiComma_spec hname ';' hm (Or.inl rfl)
  have hsplit : splitC ';' (joinC ';'
      ((r.plot.package_identifier ++ ',' :: r.plot.name) ::
       (r.parameters.zip cm).map (fun pe => encSeg pe.1.1 pe.1.2 pe.2.2))) =
      (r.plot.package_identifier ++ ',' :: r.plot.name) ::
       (r.parameters.zip cm).map (fun pe => encSeg pe.1.1 pe.1.2 pe.2.2) := by
    refine splitC_joinC ';' _ (by simp) ?_
    intro s2 hs
    rcases List.mem_cons.mp hs with rfl | hs
    · exact hplotseg
    · obtain ⟨pe, hpe, rfl⟩ := List.mem_map.mp hs
      exact encSeg_no_semi vars pe.1.1 pe.1.2 pe.2.2 (hent pe hpe).1
        (hent pe hpe).2.2.2.2.1
  have hcomma : splitC ',' (r.plot.package_identifier ++ ',' :: r.plot.name) =
      [r.plot.package_identifier, r.plot.name] :=
    splitC_pair ',' _ _
      (fun hm => noSemiComma_spec hpkg ',' hm (Or.inr rfl))
      (fun hm => noSemiComma_spec hname ',' hm (Or.inr rfl))
  have hmapO : mapO (parseParamSeg vars)
      ((r.parameters.zip cm).map (fun pe => encSeg pe.1.1 pe.1.2 pe.2.2)) =
      some ((r.parameters.zip cm).map (fun pe => (pe.1.1, pe.1.2, pe.2.2))) := by
    rw [mapO_map]
    exact mapO_eq_some_of _ (fun pe => (pe.1.1, pe.1.2, pe.2.2)) _
      (fun pe hpe => parseParamSeg_encSeg vars pe.1.1 pe.1.2 pe.2.2
        (hent pe hpe).1 (hent pe hpe).2)
  have hzp : List.Pairwise (fun a b => ltStr a.1.1 b.1.1 = true)
      (r.parameters.zip cm) := by
    have hs2 : KeysSorted ((r.parameters.zip cm).map Prod.fst) := by
      rw [hfst]; exact hsort
    exact (List.pairwise_map.mp hs2)
  have hzpne : List.Pairwise (fun (a b : (Str × List RecipeParameterValue) ×
      (Str × List (List Int))) => a.1.1 ≠ b.1.1) (r.parameters.zip cm) :=
    hzp.imp (fun hab => ne_of_ltStr hab)
  have hfold1 : ((r.parameters.zip cm).map (fun pe => (pe.1.1, pe.1.2, pe.2.2))).foldl
      (fun d e => aset e.1 e.2.1 d) [] = r.parameters := by
    rw [List.foldl_map]
    dsimp only
    have happ := foldl_aset_proj
      (fun pe : (Str × List RecipeParameterValue) × (Str × List (List Int)) =>
        (pe.1.1, pe.1.2)) (r.parameters.zip cm) [] (by simp) hzpne
    dsimp only at happ
    rw [happ]
    simp only [List.nil_append]
    have he2 : ((r.parameters.zip cm).map (fun pe => (pe.1.1, pe.1.2))) =
        (r.parameters.zip cm).map Prod.fst :=
      List.map_congr_left (fun pe _ => rfl)
    rw [he2, hfst]
  have hfold2 : ((r.parameters.zip cm).map (fun pe => (pe.1.1, pe.1.2, pe.2.2))).foldl
      (fun d e => aset e.1 e.2.2 d) [] = cm := by
    rw [List.foldl_map]
    dsimp only
    have happ := foldl_aset_proj
      (fun pe : (Str × List RecipeParameterValue) × (Str × List (List Int)) =>
        (pe.1.1, pe.2.2)) (r.parameters.zip cm) [] (by simp) hzpne
    dsimp only at happ
    rw [happ]
    simp only [List.nil_append]
    have he2 : ((r.parameters.zip cm).map (fun pe => (pe.1.1, pe.2.2))) =
        (r.parameters.zip cm).map Prod.snd := by
      refine List.map_congr_left (fun pe hpe => ?_)
      have hz := zip_fst_eq_snd_fst r.parameters cm halign.symm pe hpe
      rw [hz]
    rw [he2]
    exact List.map_snd_zip _ _ hlen2
  simp only [read_recipe_ann, hsplit, hcomma, hplot, hmapO, hfold1, hfold2]

/-! ## Port map round trip -/

/-- Legality of a port map: canonical key order, clean names, and no empty
port list (the encoder omits those). -/
def LegalPortMap (pm : PortMap) : Prop :=
  KeysSorted pm ∧
  ∀ e ∈ pm, noSemiEq e.1 = true ∧ e.2 ≠ [] ∧ ∀ p ∈ e.2, noDelims p.2 = true

theorem intToStr_ne_nil (i : Int) : intToStr i ≠ [] := by
  unfold intToStr
  split
  · simp
  · exact natToStr_ne_nil _

theorem portStr_no (p : Int × Str) (hn : noDelims p.2 = true) :
    ∀ d ∈ portStr p, ¬(d = ';' ∨ d = '=' ∨ d = ':') := by
  intro d hd hcon
  rcases List.mem_append.mp hd with hm | hm
  · exact intToStr_no_delim p.1 d hm (by tauto)
  · rcases List.mem_cons.mp hm with rfl | hm
    · revert hcon; decide
    · exact noDelims_spec hn d hm (by tauto)

theorem portsStr_no (ports : List (Int × Str))
    (hn : ∀ p ∈ ports, noDelims p.2 = true) :
    ∀ d ∈ joinC ':' (ports.map portStr), ¬(d = ';' ∨ d = '=') := by
  intro d hd hcon
  rcases joinC_chars ':' _ d hd with rfl | ⟨s2, hs, hds⟩
  · revert hcon; decide
  · obtain ⟨p, hp, rfl⟩ := List.mem_map.mp hs
    exact portStr_no p (hn p hp) d hds (by tauto)

theorem portsStr_ne_nil (ports : List (Int × Str)) (hne : ports ≠ []) :
    joinC ':' (ports.map portStr) ≠ [] := by
  obtain ⟨p, ps, rfl⟩ := List.exists_cons_of_ne_nil hne
  cases ps with
  | nil =>
    show portStr p ≠ []
    unfold portStr
    intro he
    exact intToStr_ne_nil p.1 (List.append_eq_nil.mp he).1
  | cons q qs =>
    show portStr p ++ ':' :: joinC ':' _ ≠ []
    intro he
    have := (List.append_eq_nil.mp he).2
    exact absurd this (by simp)

theorem parsePortSeg_enc (e : Str × List (Int × Str))
    (hp : noSemiEq e.1 = true) (hne : e.2 ≠ [])
    (hn : ∀ p ∈ e.2, noDelims p.2 = true) :
    parsePortSeg (portSegStr e) = some e := by
  have hsplit : splitC '=' (portSegStr e) = [e.1, joinC ':' (e.2.map portStr)] :=
    splitC_pair '=' _ _
      (fun hm => noSemiEq_spec hp '=' hm (Or.inr rfl))
      (fun hm => portsStr_no e.2 hn '=' hm (by tauto))
  have hsp2 : splitC ':' (joinC ':' (e.2.map portStr)) = e.2.map portStr :=
    splitC_joinC ':' _ (by simpa using hne)
      (fun s2 hs hm => by
        obtain ⟨p, hp2, rfl⟩ := List.mem_map.mp hs
        exact portStr_no p (hn p hp2) ':' hm (by tauto))
  have hmapO : mapO (fun port =>
      match splitC ',' port with
      | [mid, pname] => (pyInt mid).map (fun i => (i, pname))
      | _ => none) (e.2.map portStr) = some e.2 := by
    rw [mapO_map]
    have h2 := mapO_eq_some_of _ id e.2 (fun p hp2 => by
      have hcsplit : splitC ',' (portStr p) = [intToStr p.1, p.2] :=
        splitC_pair ',' _ _
          (fun hm => intToStr_no_delim p.1 ',' hm (by tauto))
          (fun hm => noDelims_spec (hn p hp2) ',' hm (by tauto))
      show (match splitC ',' (portStr p) with
        | [mid, pname] => (pyInt mid).map (fun i => (i, pname))
        | _ => none) = some (id p)
      rw [hcsplit]
      simp [pyInt_intToStr])
    simpa using h2
  simp only [parsePortSeg, hsplit]
  rw [if_neg (by simpa using portsStr_ne_nil e.2 hne)]
  simp only [hsp2, hmapO]

theorem read_portmap_ann_enc (pm : PortMap) (hne : pm ≠ [])
    (h : LegalPortMap pm) :
    read_portmap_ann (build_portmap_ann pm) = some pm := by
  obtain ⟨hsort, hent⟩ := h
  have hb : build_portmap_ann pm = joinC ';' (pm.map portSegStr) := by
    unfold build_portmap_ann
    rw [sortByKey_eq_self pm hsort, List.filter_eq_self.mpr
      (fun e he => by simpa using (hent e he).2.1)]
  have hsplit : splitC ';' (joinC ';' (pm.map portSegStr)) = pm.map portSegStr := by
    refine splitC_joinC ';' _ (by simpa using hne) ?_
    intro s2 hs hm
    obtain ⟨e, he, rfl⟩ := List.mem_map.mp hs
    have hl := hent e he
    rcases List.mem_append.mp hm with hm | hm
    · exact noSemiEq_spec hl.1 ';' hm (Or.inl rfl)
    · rcases List.mem_cons.mp hm with hq | hm
      · exact absurd hq (by decide)
      · exact portsStr_no e.2 hl.2.2 ';' hm (by tauto)
  have hmapO : mapO parsePortSeg (pm.map portSegStr) = some pm := by
    rw [mapO_map]
    have h2 := mapO_eq_some_of _ id pm (fun e he => by
      have hl := hent e he
      simpa using parsePortSeg_enc e hl.1 hl.2.1 hl.2.2)
    simpa using h2
  have hfold : pm.foldl (fun d e => aset e.1 e.2 d) [] = pm := by
    have h2 := foldl_aset_of_distinct pm [] (by simp)
      (hsort.imp (fun hab => ne_of_ltStr hab))
    simpa using h2
  rw [hb]
  simp only [read_portmap_ann, hsplit, hmapO, Option.map_some']
  rw [hfold]

instance LegalValue.decInst (vars : List (Str × VarInfo)) :
    ∀ v : RecipeParameterValue, Decidable (LegalValue vars v)
  | .constant c => inferInstanceAs (Decidable (byteStr c = true))
  | .varRef _ none => inferInstanceAs (Decidable (_ ∧ _ ∧ True))
  | .varRef _ (some _) => inferInstanceAs (Decidable (_ ∧ _ ∧ _ = true))

instance LegalParamEntry.decInst (vars : List (Str × VarInfo))
    (vals : List RecipeParameterValue) (conns : List (List Int)) :
    Decidable (LegalParamEntry vars vals conns) := by
  unfold LegalParamEntry
  cases vals.head? <;> exact inferInstance

instance LegalRecipeConn.decInst (catalog : List ((Str × Str) × Plot))
    (vars : List (Str × VarInfo)) (r : DATRecipe) (cm : ConnMap) :
    Decidable (LegalRecipeConn catalog vars r cm) := by
  unfold LegalRecipeConn KeysSorted
  exact inferInstance

instance LegalPortMap.decInst (pm : PortMap) : Decidable (LegalPortMap pm) := by
  unfold LegalPortMap KeysSorted
  exact inferInstance

/-! ## Witness fixtures -/

/-- Witness plot. -/
def plotW : Plot := ⟨str "pkg", str "scatter"⟩

/-- Witness variable. -/
def varW : VarInfo := ⟨str "myvar", str "T"⟩

/-- Witness plot catalog. -/
def catW : List ((Str × Str) × Plot) := [((str "pkg", str "scatter"), plotW)]

/-- Witness variable table. -/
def varsW : List (Str × VarInfo) := [(str "myvar", varW)]

/-- Witness recipe: one constant holding every delimiter character and one
parameter bound to two variable values, one typecast. -/
def recipeW : DATRecipe :=
  ⟨plotW, [(str "a", [.constant (str ";=|:,")]),
           (str "b", [.varRef varW none, .varRef varW (some (str "cast"))])]⟩

/-- Witness connection map aligned with recipeW. -/
def cmW : ConnMap := [(str "a", [[3]]), (str "b", [[1, 2], [4]])]

/-- Witness port map. -/
def pmW : PortMap := [(str "p", [(7, str "port")])]

/-- C1 counterexample: the round trip does not hold for every port map as the
claim states. The port map binding parameter a to an empty port list encodes
to the empty string, which decodes to none rather than back to the map. -/
theorem C1_portmap_roundtrip_counterexample :
    build_portmap_ann [(str "a", ([] : List (Int × Str)))] = [] ∧
    read_portmap_ann (build_portmap_ann
      [(str "a", ([] : List (Int × Str)))]) = none ∧
    read_portmap_ann (build_portmap_ann [(str "a", ([] : List (Int × Str)))]) ≠
      some [(str "a", ([] : List (Int × Str)))] := by
  refine ⟨by decide, by decide, by decide⟩

/-- C1 (amended): for every legal Recipe/ConnMap pair with kind-consistent
per-parameter values (constants byte strings, names delimiter free, sorted
keys, aligned nonempty connection lists, resolvable plot and variables),
decoding the encoded recipe annotation yields the originals; and the port map
round trip holds for every nonempty legal port map in which no parameter has
an empty port list. -/
theorem C1_recipe_portmap_roundtrip :
    (∀ (catalog : List ((Str × Str) × Plot)) (vars : List (Str × VarInfo))
        (r : DATRecipe) (cm : ConnMap), LegalRecipeConn catalog vars r cm →
        ∃ s, build_recipe_ann r cm = Except.ok s ∧
          read_recipe_ann catalog vars s = some (r, cm)) ∧
    (∀ pm : PortMap, pm ≠ [] → LegalPortMap pm →
        read_portmap_ann (build_portmap_ann pm) = some pm) := by
  constructor
  · intro catalog vars r cm h
    exact ⟨_, build_recipe_ann_legal catalog vars r cm h,
      read_recipe_ann_enc catalog vars r cm h⟩
  · intro pm hne h
    exact read_portmap_ann_enc pm hne h

/-- C1 witness: the round trip at a concrete recipe whose constant holds every
delimiter character, and at a concrete port map. -/
theorem C1_recipe_portmap_roundtrip_witness :
    (∃ s, build_recipe_ann recipeW cmW = Except.ok s ∧
      read_recipe_ann catW varsW s = some (recipeW, cmW)) ∧
    read_portmap_ann (build_portmap_ann pmW) = some pmW :=
  ⟨C1_recipe_portmap_roundtrip.1 catW varsW recipeW cmW (by decide),
   C1_recipe_portmap_roundtrip.2 pmW (by decide) (by decide)⟩

/-- C8 counterexample: a parameter with an empty port list is not encoded as
the entry a= followed by nothing; the encoder omits it, so the whole encoding
is the empty string. -/
theorem C8_empty_portlist_counterexample :
    build_portmap_ann [(str "a", ([] : List (Int × Str)))] = [] ∧
    build_portmap_ann [(str "a", ([] : List (Int × Str)))] ≠ str "a=" := by
  refine ⟨by decide, by decide⟩

/-- C8 (amended): encode_port_map omits parameters with empty port lists, so a
port map all of whose parameters have empty port lists encodes to the empty
string; conversely decode_port_map accepts the entry name= as that parameter
with an empty port list. -/
theorem C8_empty_portlist_omitted :
    (∀ pm : PortMap, (∀ e ∈ pm, e.2 = ([] : List (Int × Str))) →
      build_portmap_ann pm = []) ∧
    (∀ name : Str, noSemiEq name = true →
      read_portmap_ann (name ++ ['=']) = some [(name, [])]) := by
  constructor
  · intro pm hall
    unfold build_portmap_ann
    have hf : (sortByKey pm).filter (fun e => ¬ e.2 = []) = [] := by
      rw [List.filter_eq_nil_iff]
      intro e he
      have := hall e ((sortByKey_mem e pm).mp he)
      simp [this]
    rw [hf]
    rfl
  · intro name hp
    have hsplit : splitC ';' (name ++ ['=']) = [name ++ ['=']] := by
      refine splitC_no_sep ';' _ ?_
      intro hm
      rcases List.mem_append.mp hm with hm | hm
      · exact noSemiEq_spec hp ';' hm (Or.inl rfl)
      · rcases List.mem_cons.mp hm with he | hm
        · exact absurd he (by decide)
        · exact absurd hm (List.not_mem_nil ';')
    have hpair : splitC '=' (name ++ ['=']) = [name, []] :=
      splitC_pair '=' name []
        (fun hm => noSemiEq_spec hp '=' hm (Or.inr rfl))
        (List.not_mem_nil '=')
    have hseg : parsePortSeg (name ++ ['=']) = some (name, []) := by
      simp [parsePortSeg, hpair]
    unfold read_portmap_ann
    rw [hsplit]
    simp only [mapO, hseg, Option.map_some']
    rfl

/-- C8 witness: the general omission and acceptance facts at the parameter
name a. -/
theorem C8_empty_portlist_omitted_witness :
    build_portmap_ann [(str "b", ([] : List (Int × Str)))] = [] ∧
    read_portmap_ann (str "b" ++ ['=']) = some [(str "b", [])] :=
  ⟨C8_empty_portlist_omitted.1 [(str "b", [])] (by decide),
   C8_empty_portlist_omitted.2 (str "b") (by decide)⟩

/-- A parameter value list whose first value is a constant and which has at
least two entries: the shape whose encoding raises ValueError. -/
def multiConstant (vals : List RecipeParameterValue) : Bool :=
  match vals with
  | v0 :: _ :: _ => v0.isConstant
  | _ => false

theorem buildLoop_error_of_multi (cm : ConnMap) :
    ∀ (l : List (Str × List RecipeParameterValue)) (acc : Str),
      (∀ pe ∈ l, alookup pe.1 cm ≠ none) →
      (∃ pe ∈ l, multiConstant pe.2 = true) →
      buildParamsLoop cm acc l = Except.error PyErr.valueError
  | [], _, _, hex => by simp at hex
  | (param, vals) :: l, acc, hcov, hex => by
    by_cases hbad : multiConstant vals = true
    · cases vals with
      | nil => simp [multiConstant] at hbad
      | cons v0 vs =>
        cases vs with
        | nil => simp [multiConstant] at hbad
        | cons w ws =>
          have hc : v0.isConstant = true := by
            simpa [multiConstant] using hbad
          simp only [buildParamsLoop, buildParamFold]
          rw [if_pos ⟨hc, by simp⟩]
    · obtain ⟨pe0, hpe0, hm0⟩ := hex
      have hpe0t : pe0 ∈ l := by
        rcases List.mem_cons.mp hpe0 with rfl | h2
        · exact absurd hm0 hbad
        · exact h2
      have htail := buildLoop_error_of_multi cm l
      cases vals with
      | nil =>
        simp only [buildParamsLoop, buildParamFold]
        exact htail acc (fun x hx => hcov x (List.mem_cons_of_mem _ hx))
          ⟨pe0, hpe0t, hm0⟩
      | cons v0 vs =>
        have hno : ¬ (v0.isConstant = true ∧ vs ≠ []) := by
          rintro ⟨hc, hvs⟩
          obtain ⟨w, ws, rfl⟩ := List.exists_cons_of_ne_nil hvs
          exact hbad (by simpa [multiConstant] using hc)
        cases hlk : alookup param cm with
        | none =>
          exact absurd hlk (hcov (param, v0 :: vs) (List.mem_cons_self _ l))
        | some conns =>
          simp only [buildParamsLoop, buildParamFold, hno, if_false, hlk]
          exact htail _ (fun x hx => hcov x (List.mem_cons_of_mem _ hx))
            ⟨pe0, hpe0t, hm0⟩

theorem buildLoop_no_valueerror (cm : ConnMap) :
    ∀ (l : List (Str × List RecipeParameterValue)) (acc : Str),
      (∀ pe ∈ l, multiConstant pe.2 = false) →
      buildParamsLoop cm acc l ≠ Except.error PyErr.valueError
  | [], acc, _ => by simp [buildParamsLoop]
  | (param, vals) :: l, acc, hall => by
    have hhead := hall (param, vals) (List.mem_cons_self _ l)
    have htail := fun acc2 => buildLoop_no_valueerror cm l acc2
      (fun x hx => hall x (List.mem_cons_of_mem _ hx))
    cases vals with
    | nil =>
      simp only [buildParamsLoop, buildParamFold]
      exact htail acc
    | cons v0 vs =>
      have hno : ¬ (v0.isConstant = true ∧ vs ≠ []) := by
        rintro ⟨hc, hvs⟩
        obtain ⟨w, ws, rfl⟩ := List.exists_cons_of_ne_nil hvs
        simp [multiConstant, hc] at hhead
      cases hlk : alookup param cm with
      | none =>
        simp only [buildParamsLoop, buildParamFold, hno, if_false, hlk]
        intro he
        exact absurd (Except.error.inj he) (by decide)
      | some conns =>
        simp only [buildParamsLoop, buildParamFold, hno, if_false, hlk]
        exact htail _

/-- C10: encoding raises ValueError exactly when some parameter binds a
constant together with at least one further value: under connection map
coverage, a parameter whose first value is a constant among two or more bound
values makes the builder raise ValueError, while a recipe all of whose
parameters bind a single constant or only variable values never raises it. -/
theorem C10_multiconstant_valueerror :
    (∀ (r : DATRecipe) (cm : ConnMap),
      (∀ pe ∈ r.parameters, alookup pe.1 cm ≠ none) →
      (∃ pe ∈ r.parameters, multiConstant pe.2 = true) →
      build_recipe_ann r cm = Except.error PyErr.valueError) ∧
    (∀ (r : DATRecipe) (cm : ConnMap),
      (∀ pe ∈ r.parameters, multiConstant pe.2 = false) →
      build_recipe_ann r cm ≠ Except.error PyErr.valueError) := by
  constructor
  · intro r cm hcov hex
    unfold build_recipe_ann
    obtain ⟨pe0, hpe0, hm0⟩ := hex
    exact buildLoop_error_of_multi cm (sortByKey r.parameters) _
      (fun x hx => hcov x ((sortByKey_mem x r.parameters).mp hx))
      ⟨pe0, (sortByKey_mem pe0 r.parameters).mpr hpe0, hm0⟩
  · intro r cm hall
    unfold build_recipe_ann
    exact buildLoop_no_valueerror cm (sortByKey r.parameters) _
      (fun x hx => hall x ((sortByKey_mem x r.parameters).mp hx))

/-- C10 witness: a parameter bound to two constants raises ValueError at a
concrete recipe, and the concrete legal recipe with one constant and two
variable values does not. -/
theorem C10_multiconstant_valueerror_witness :
    build_recipe_ann
      ⟨plotW, [(str "a", [.constant (str "x"), .constant (str "y")])]⟩
      [(str "a", [[1], [2]])] = Except.error PyErr.valueError ∧
    build_recipe_ann recipeW cmW ≠ Except.error PyErr.valueError :=
  ⟨C10_multiconstant_valueerror.1
      ⟨plotW, [(str "a", [.constant (str "x"), .constant (str "y")])]⟩
      [(str "a", [[1], [2]])] (by decide) (by decide),
   C10_multiconstant_valueerror.2 recipeW cmW (by decide)⟩

/-! ## Completeness of a successful decode (claim C3 machinery) -/

/-- Two association lists built over the same keys whose values are pointwise
related. -/
def PairedBy {κ α β : Type} (P : α → β → Prop)
    (l1 : List (κ × α)) (l2 : List (κ × β)) : Prop :=
  l1.map Prod.fst = l2.map Prod.fst ∧ ∀ pe ∈ l1.zip l2, P pe.1.2 pe.2.2

theorem aset_pairedBy {κ α β : Type} [DecidableEq κ] (P : α → β → Prop)
    (k : κ) (a : α) (b : β) :
    ∀ (l1 : List (κ × α)) (l2 : List (κ × β)), PairedBy P l1 l2 → P a b →
      PairedBy P (aset k a l1) (aset k b l2)
  | [], [], _, hab => by
    constructor
    · rfl
    · intro pe hpe
      simp only [aset, List.zip_cons_cons, List.zip_nil_right,
        List.mem_singleton] at hpe
      subst hpe
      exact hab
  | [], (q :: l2), h, _ => by simp [PairedBy] at h
  | (p :: l1), [], h, _ => by simp [PairedBy] at h
  | (k1, a1) :: l1, (k2, b1) :: l2, h, hab => by
    obtain ⟨hfst, hval⟩ := h
    simp only [List.map_cons, List.cons.injEq] at hfst
    obtain ⟨hk, htl⟩ := hfst
    subst hk
    by_cases he : k = k1
    · simp only [aset, he, if_true]
      refine ⟨by simp [htl], ?_⟩
      intro pe hpe
      simp only [List.zip_cons_cons, List.mem_cons] at hpe
      rcases hpe with rfl | hpe
      · exact hab
      · exact hval pe (by simp [List.zip_cons_cons, hpe])
    · simp only [aset, he, if_false]
      have ih := aset_pairedBy P k a b l1 l2
        ⟨htl, fun pe hpe => hval pe (by simp [List.zip_cons_cons, hpe])⟩ hab
      refine ⟨by simp [ih.1], ?_⟩
      intro pe hpe
      simp only [List.zip_cons_cons, List.mem_cons] at hpe
      rcases hpe with rfl | hpe
      · exact hval ((k1, a1), (k1, b1)) (by simp [List.zip_cons_cons])
      · exact ih.2 pe hpe

theorem foldl_aset_pairedBy {κ α β γ : Type} [DecidableEq κ] (P : α → β → Prop)
    (f : γ → κ) (g : γ → α) (h : γ → β) :
    ∀ (es : List γ) (l1 : List (κ × α)) (l2 : List (κ × β)),
      PairedBy P l1 l2 → (∀ e ∈ es, P (g e) (h e)) →
      PairedBy P (es.foldl (fun d e => aset (f e) (g e) d) l1)
        (es.foldl (fun d e => aset (f e) (h e) d) l2)
  | [], l1, l2, hp, _ => hp
  | e :: es, l1, l2, hp, hP => by
    simp only [List.foldl_cons]
    exact foldl_aset_pairedBy P f g h es _ _
      (aset_pairedBy P (f e) (g e) (h e) l1 l2 hp (hP e (List.mem_cons_self e es)))
      (fun x hx => hP x (List.mem_cons_of_mem e hx))

theorem aset_mem {κ α : Type} [DecidableEq κ] (k : κ) (v : α) :
    ∀ (l : List (κ × α)) (x : κ × α), x ∈ aset k v l → x = (k, v) ∨ x ∈ l
  | [], x, hx => by simpa [aset] using hx
  | (k1, v1) :: l, x, hx => by
    by_cases he : k = k1
    · subst he
      rw [show aset k v ((k, v1) :: l) = (k, v) :: l from by simp [aset],
        List.mem_cons] at hx
      rcases hx with h2 | h2
      · exact Or.inl h2
      · exact Or.inr (List.mem_cons_of_mem _ h2)
    · simp only [aset, he, if_false, List.mem_cons] at hx
      rcases hx with rfl | hx
      · exact Or.inr (List.mem_cons_self _ l)
      · rcases aset_mem k v l x hx with h2 | h2
        · exact Or.inl h2
        · exact Or.inr (List.mem_cons_of_mem _ h2)

theorem foldl_aset_mem {κ α γ : Type} [DecidableEq κ] (f : γ → κ) (g : γ → α) :
    ∀ (es : List γ) (acc : List (κ × α)) (x : κ × α),
      x ∈ es.foldl (fun d e => aset (f e) (g e) d) acc →
      x ∈ acc ∨ ∃ e ∈ es, x.2 = g e
  | [], acc, x, hx => Or.inl hx
  | e :: es, acc, x, hx => by
    simp only [List.foldl_cons] at hx
    rcases foldl_aset_mem f g es _ x hx with h2 | ⟨e2, he2, hv⟩
    · rcases aset_mem (f e) (g e) acc x h2 with h3 | h3
      · exact Or.inr ⟨e, List.mem_cons_self e es, by rw [h3]⟩
      · exact Or.inl h3
    · exact Or.inr ⟨e2, List.mem_cons_of_mem e he2, hv⟩

/-- A parameter value resolvable through the variable table: constants always,
variable references when their record is some entry of the table. -/
def VarOK (vars : List (Str × VarInfo)) : RecipeParameterValue → Prop
  | .constant _ => True
  | .varRef vi _ => ∃ n, alookup n vars = some vi

theorem parseItem_some_varOK (vars : List (Str × VarInfo)) (b : Bool)
    (item : Str) (rpv : RecipeParameterValue) (cl : List Int)
    (h : parseItem vars b item = some (rpv, cl)) : VarOK vars rpv := by
  unfold parseItem at h
  split at h
  · rename_i v0 cl2
    split at h
    · exact absurd h (by simp)
    · rename_i conns hconns
      split at h
      · simp only [Option.some.injEq, Prod.mk.injEq] at h
        rw [← h.1]
        trivial
      · split at h
        · rename_i vn heq
          cases hlk : alookup vn vars with
          | none => rw [hlk] at h; exact absurd h (by simp)
          | some vi =>
            rw [hlk] at h
            simp only [Option.map_some', Option.some.injEq, Prod.mk.injEq] at h
            rw [← h.1]
            exact ⟨vn, hlk⟩
        · rename_i vn tc heq
          cases hlk : alookup vn vars with
          | none => rw [hlk] at h; exact absurd h (by simp)
          | some vi =>
            rw [hlk] at h
            simp only [Option.map_some', Option.some.injEq, Prod.mk.injEq] at h
            rw [← h.1]
            exact ⟨vn, hlk⟩
        · exact absurd h (by simp)
  · exact absurd h (by simp)

theorem parseParamSeg_some_props (vars : List (Str × VarInfo)) (seg : Str)
    (param : Str) (vals : List RecipeParameterValue) (conns : List (List Int))
    (h : parseParamSeg vars seg = some (param, vals, conns)) :
    vals.length = conns.length ∧ ∀ v ∈ vals, VarOK vars v := by
  unfold parseParamSeg at h
  split at h
  · rename_i p t pvals heq2
    split at h
    · rename_i htag
      cases hmo : mapO (parseItem vars (t = str "c")) (splitC '|' pvals) with
      | none => rw [hmo] at h; exact absurd h (by simp)
      | some items =>
        rw [hmo] at h
        simp only [Option.some.injEq, Prod.mk.injEq] at h
        obtain ⟨rfl, hv, hc⟩ := h
        constructor
        · rw [← hv, ← hc]
          simp
        · intro v hvm
          rw [← hv] at hvm
          obtain ⟨⟨rpv, cl⟩, hmem, rfl⟩ := List.mem_map.mp hvm
          obtain ⟨it, _, hit⟩ := mapO_mem_of_eq_some _ hmo (rpv, cl) hmem
          exact parseItem_some_varOK vars _ it rpv cl hit
    · exact absurd h (by simp)
  · exact absurd h (by simp)

theorem read_some_complete (catalog : List ((Str × Str) × Plot))
    (vars : List (Str × VarInfo)) (s : Str) (r : DATRecipe) (cmm : ConnMap)
    (h : read_recipe_ann catalog vars s = some (r, cmm)) :
    r.parameters.map Prod.fst = cmm.map Prod.fst ∧
    (∀ pe ∈ r.parameters.zip cmm, pe.1.2.length = pe.2.2.length) ∧
    (∃ k, alookup k catalog = some r.plot) ∧
    (∀ pe ∈ r.parameters, ∀ v ∈ pe.2, VarOK vars v) := by
  unfold read_recipe_ann at h
  simp only [splitC] at h
  split at h
  · rename_i pkg pname heq2
    cases hlk : alookup (pkg, pname) catalog with
    | none => rw [hlk] at h; exact absurd h (by simp)
    | some plot =>
      rw [hlk] at h
      cases hmo : mapO (parseParamSeg vars) ((splitC1 ';' s).2) with
      | none => rw [hmo] at h; exact absurd h (by simp)
      | some entries =>
        rw [hmo] at h
        simp only [Option.some.injEq, Prod.mk.injEq] at h
        obtain ⟨hr, hcm⟩ := h
        have hprops : ∀ e ∈ entries,
            e.2.1.length = e.2.2.length ∧ ∀ v ∈ e.2.1, VarOK vars v := by
          intro e he
          obtain ⟨seg, _, hseg⟩ := mapO_mem_of_eq_some _ hmo e he
          exact parseParamSeg_some_props vars seg e.1 e.2.1 e.2.2
            (by rw [hseg])
        have hpair := foldl_aset_pairedBy
          (fun (vals : List RecipeParameterValue) (conns : List (List Int)) =>
            vals.length = conns.length)
          (fun e => e.1) (fun e => e.2.1) (fun e => e.2.2) entries [] []
          ⟨rfl, by simp⟩ (fun e he => (hprops e he).1)
        subst hr
        subst hcm
        refine ⟨hpair.1, hpair.2, ⟨(pkg, pname), hlk⟩, ?_⟩
        intro pe hpe v hv
        rcases foldl_aset_mem (fun e => e.1) (fun e => e.2.1) entries [] pe hpe
          with h2 | ⟨e, he, hval⟩
        · exact absurd h2 (List.not_mem_nil pe)
        · rw [hval] at hv
          exact (hprops e he).2 v hv
  · exact absurd h (by simp)

/-! ## Malformed inputs decode to none (claim C3 machinery) -/

theorem parseParamSeg_none_of_fields (vars : List (Str × VarInfo)) (seg : Str)
    (h : (splitC '=' seg).length ≠ 3) : parseParamSeg vars seg = none := by
  unfold parseParamSeg
  split
  · rename_i p t pvals heq2
    rw [heq2] at h
    simp at h
  · rfl

theorem parseParamSeg_none_of_tag (vars : List (Str × VarInfo)) (seg : Str)
    (a t b : Str) (hsp : splitC '=' seg = [a, t, b])
    (hc : ¬ t = str "c") (hv : ¬ t = str "v") :
    parseParamSeg vars seg = none := by
  unfold parseParamSeg
  rw [hsp]
  have hcond : (t = str "c" ∨ t = str "v") = False :=
    eq_false (by tauto)
  simp [hcond]

theorem parseItem_none_of_var (vars : List (Str × VarInfo)) (item : Str)
    (w cl : Str) (hsp : splitC ':' item = [w, cl])
    (hlk : alookup ((splitC ',' w).headD []) vars = none) :
    parseItem vars false item = none := by
  unfold parseItem
  rw [hsp]
  cases hrc : read_connlist cl with
  | none => simp [hrc]
  | some conns =>
    cases hcw : splitC ',' w with
    | nil => simp [hrc, hcw]
    | cons x u =>
      rw [hcw] at hlk
      cases u with
      | nil =>
        simp only [List.headD_cons] at hlk
        simp [hrc, hcw, hlk]
      | cons y v =>
        cases v with
        | nil =>
          simp only [List.headD_cons] at hlk
          simp [hrc, hcw, hlk]
        | cons z w2 => simp [hrc, hcw]

theorem read_none_of_seg (catalog : List ((Str × Str) × Plot))
    (vars : List (Str × VarInfo)) (s seg : Str)
    (hm : seg ∈ (splitC ';' s).tail) (hseg : parseParamSeg vars seg = none) :
    read_recipe_ann catalog vars s = none := by
  unfold read_recipe_ann
  simp only [splitC] at hm ⊢
  simp only [List.tail_cons] at hm
  split
  · rename_i pkg pname heq2
    cases hlk : alookup (pkg, pname) catalog with
    | none => rfl
    | some plot =>
      rw [mapO_eq_none_of_mem (parseParamSeg vars) seg _ hm hseg]
  · rfl

theorem read_none_of_plotfields (catalog : List ((Str × Str) × Plot))
    (vars : List (Str × VarInfo)) (s : Str)
    (h : (splitC ',' ((splitC ';' s).headD [])).length ≠ 2) :
    read_recipe_ann catalog vars s = none := by
  unfold read_recipe_ann
  simp only [splitC] at h ⊢
  simp only [List.headD_cons] at h
  split
  · rename_i pkg pname heq2
    rw [heq2] at h
    simp at h
  · rfl

theorem read_none_of_plot (catalog : List ((Str × Str) × Plot))
    (vars : List (Str × VarInfo)) (s : Str) (pkg pname : Str)
    (hsp : splitC ',' ((splitC ';' s).headD []) = [pkg, pname])
    (hlk : alookup (pkg, pname) catalog = none) :
    read_recipe_ann catalog vars s = none := by
  unfold read_recipe_ann
  simp only [splitC] at hsp ⊢
  simp only [List.headD_cons] at hsp
  rw [hsp]
  simp [hlk]

theorem parseParamSeg_none_of_varlookup (vars : List (Str × VarInfo))
    (seg a b item w cl : Str)
    (hsp : splitC '=' seg = [a, str "v", b]) (hit : item ∈ splitC '|' b)
    (hspi : splitC ':' item = [w, cl])
    (hlk : alookup ((splitC ',' w).headD []) vars = none) :
    parseParamSeg vars seg = none := by
  unfold parseParamSeg
  rw [hsp]
  have hpi : parseItem vars (decide (str "v" = str "c")) item = none := by
    rw [show (decide (str "v" = str "c")) = false from by decide]
    exact parseItem_none_of_var vars item w cl hspi hlk
  have hcond : (str "v" = str "c" ∨ str "v" = str "v") = True :=
    eq_true (Or.inr rfl)
  simp [hcond, mapO_eq_none_of_mem _ item _ hit hpi]

/-- C3: decode_recipe is total with an all-or-nothing result. A successful
decode is complete: the connection map carries exactly the recipe parameter
keys with positionally aligned lengths, the plot is a catalog entry and every
variable reference is an entry of the variable table. Conversely a malformed
plot segment (wrong comma count), an unresolvable plot id, a parameter segment
with the wrong field count, an unknown type tag, or an unresolvable variable
name each make the whole decode return none; no exception escapes, as the
decoder is a total function into an option. -/
theorem C3_decode_all_or_nothing :
    (∀ (catalog : List ((Str × Str) × Plot)) (vars : List (Str × VarInfo))
        (s : Str),
      read_recipe_ann catalog vars s = none ∨
      ∃ r cmm, read_recipe_ann catalog vars s = some (r, cmm) ∧
        r.parameters.map Prod.fst = cmm.map Prod.fst ∧
        (∀ pe ∈ r.parameters.zip cmm, pe.1.2.length = pe.2.2.length) ∧
        (∃ k, alookup k catalog = some r.plot) ∧
        (∀ pe ∈ r.parameters, ∀ v ∈ pe.2, VarOK vars v)) ∧
    (∀ (catalog : List ((Str × Str) × Plot)) (vars : List (Str × VarInfo))
        (s : Str), (splitC ',' ((splitC ';' s).headD [])).length ≠ 2 →
      read_recipe_ann catalog vars s = none) ∧
    (∀ (catalog : List ((Str × Str) × Plot)) (vars : List (Str × VarInfo))
        (s pkg pname : Str),
      splitC ',' ((splitC ';' s).headD []) = [pkg, pname] →
      alookup (pkg, pname) catalog = none →
      read_recipe_ann catalog vars s = none) ∧
    (∀ (catalog : List ((Str × Str) × Plot)) (vars : List (Str × VarInfo))
        (s seg : Str), seg ∈ (splitC ';' s).tail →
      (splitC '=' seg).length ≠ 3 →
      read_recipe_ann catalog vars s = none) ∧
    (∀ (catalog : List ((Str × Str) × Plot)) (vars : List (Str × VarInfo))
        (s seg a t b : Str), seg ∈ (splitC ';' s).tail →
      splitC '=' seg = [a, t, b] → ¬ t = str "c" → ¬ t = str "v" →
      read_recipe_ann catalog vars s = none) ∧
    (∀ (catalog : List ((Str × Str) × Plot)) (vars : List (Str × VarInfo))
        (s seg a b item w cl : Str), seg ∈ (splitC ';' s).tail →
      splitC '=' seg = [a, str "v", b] → item ∈ splitC '|' b →
      splitC ':' item = [w, cl] →
      alookup ((splitC ',' w).headD []) vars = none →
      read_recipe_ann catalog vars s = none) := by
  refine ⟨?_, ?_, ?_, ?_, ?_, ?_⟩
  · intro catalog vars s
    cases h : read_recipe_ann catalog vars s with
    | none => exact Or.inl rfl
    | some rc =>
      obtain ⟨r, cmm⟩ := rc
      exact Or.inr ⟨r, cmm, rfl, read_some_complete catalog vars s r cmm h⟩
  · intro catalog vars s h
    exact read_none_of_plotfields catalog vars s h
  · intro catalog vars s pkg pname hsp hlk
    exact read_none_of_plot catalog vars s pkg pname hsp hlk
  · intro catalog vars s seg hm hf
    exact read_none_of_seg catalog vars s seg hm
      (parseParamSeg_none_of_fields vars seg hf)
  · intro catalog vars s seg a t b hm hsp hc hv
    exact read_none_of_seg catalog vars s seg hm
      (parseParamSeg_none_of_tag vars seg a t b hsp hc hv)
  · intro catalog vars s seg a b item w cl hm hsp hit hspi hlk
    exact read_none_of_seg catalog vars s seg hm
      (parseParamSeg_none_of_varlookup vars seg a b item w cl hsp hit hspi hlk)

/-- C3 witness: concrete malformed annotations of each kind decode to none. -/
theorem C3_decode_all_or_nothing_witness :
    read_recipe_ann catW varsW (str "pkg") = none ∧
    read_recipe_ann catW varsW (str "nope,x") = none ∧
    read_recipe_ann catW varsW (str "pkg,scatter;bogus") = none ∧
    read_recipe_ann catW varsW (str "pkg,scatter;x=z=1") = none ∧
    read_recipe_ann catW varsW (str "pkg,scatter;x=v=unknown:1") = none :=
  ⟨C3_decode_all_or_nothing.2.1 catW varsW (str "pkg") (by decide),
   C3_decode_all_or_nothing.2.2.1 catW varsW (str "nope,x") (str "nope")
     (str "x") (by decide) (by decide),
   C3_decode_all_or_nothing.2.2.2.1 catW varsW (str "pkg,scatter;bogus")
     (str "bogus") (by decide) (by decide),
   C3_decode_all_or_nothing.2.2.2.2.1 catW varsW (str "pkg,scatter;x=z=1")
     (str "x=z=1") (str "x") (str "z") (str "1") (by decide) (by decide)
     (by decide) (by decide),
   C3_decode_all_or_nothing.2.2.2.2.2 catW varsW
     (str "pkg,scatter;x=v=unknown:1") (str "x=v=unknown:1") (str "x")
     (str "unknown:1") (str "unknown:1") (str "unknown") (str "1")
     (by decide) (by decide) (by decide) (by decide) (by decide)⟩

/-! ## The version metadata store (VistrailData) -/

/-- A spreadsheet cell location (the CellInformation role, by row and column). -/
abbrev Cell := Nat × Nat

/-- The external collaborators of one store: the version graph with parent
pointers, per-version module and connection id sets, the plot catalog, the tag
table, type reading for variable pipelines and cell locations of pipelines. -/
structure VistrailEnv where
  actionMap : List (Nat × Nat)
  modules : Nat → List Int
  connections : Nat → List Int
  catalog : List ((Str × Str) × Plot)
  tagMap : List (Nat × Str)
  readType : Nat → Option Str
  hasDatVars : Bool
  locOf : Nat → Option Cell

/-- The annotation key of recipes. -/
def RECIPE_KEY : Str := str "dat-recipe"

/-- The annotation key of port maps. -/
def PORTMAP_KEY : Str := str "dat-ports"

/-- The mutable state of one VistrailData: the five maps it owns, the document
annotation table it writes through set_action_annotation, and a count of
warnings emitted so far. -/
structure StoreState where
  varTable : List (Str × VarInfo)
  cell_to_version : List (Cell × Nat)
  version_to_pipeline : List (Nat × PipelineInformation)
  cell_to_pipeline : List (Cell × PipelineInformation)
  failed_infer_calls : List Nat
  anns : List (Nat × Str × Str)
  warnings : Nat
deriving DecidableEq

instance exceptDecEq {e a : Type} [DecidableEq e] [DecidableEq a] :
    DecidableEq (Except e a) := fun x y =>
  match x, y with
  | Except.error u, Except.error v =>
    decidable_of_iff (u = v)
      (Iff.intro (fun h => by rw [h]) (fun h => by cases h; rfl))
  | Except.ok u, Except.ok v =>
    decidable_of_iff (u = v)
      (Iff.intro (fun h => by rw [h]) (fun h => by cases h; rfl))
  | Except.error _, Except.ok _ => isFalse (fun h => by cases h)
  | Except.ok _, Except.error _ => isFalse (fun h => by cases h)

/-- set_action_annotation: drop any annotation under the same version and key,
then add the new value when one is given (none deletes). -/
def setAnn (version : Nat) (key : Str) (val : Option Str)
    (anns : List (Nat × Str × Str)) : List (Nat × Str × Str) :=
  let rest := anns.filter (fun e => ¬(e.1 = version ∧ e.2.1 = key))
  match val with
  | none => rest
  | some w => rest ++ [(version, key, w)]

/-- Reads the annotation stored under a version and key. -/
def getAnn (version : Nat) (key : Str) (anns : List (Nat × Str × Str)) :
    Option Str :=
  (anns.find? (fun e => e.1 = version ∧ e.2.1 = key)).map (fun e => e.2.2)

/-- Records an inference failure (set add). -/
def addFailed (s : StoreState) (version : Nat) : StoreState :=
  if version ∈ s.failed_infer_calls then s
  else ⟨s.varTable, s.cell_to_version, s.version_to_pipeline,
    s.cell_to_pipeline, version :: s.failed_infer_calls, s.anns, s.warnings⟩

/-- The unconditional tail of created_pipeline: update the three maps, then
persist the two annotations; building the recipe annotation may raise, and a
missing port map raises AttributeError, in both cases after the maps were
already updated. -/
def createdProceed (s : StoreState) (cell : Cell)
    (pipeline : PipelineInformation) : Except PyErr Unit × StoreState :=
  let s1 : StoreState := ⟨s.varTable,
    aset cell pipeline.version s.cell_to_version,
    aset pipeline.version pipeline s.version_to_pipeline,
    aset cell pipeline s.cell_to_pipeline,
    s.failed_infer_calls, s.anns, s.warnings⟩
  match build_recipe_ann pipeline.recipe pipeline.conn_map with
  | Except.error e => (Except.error e, s1)
  | Except.ok rs =>
    let s2 : StoreState := ⟨s1.varTable, s1.cell_to_version,
      s1.version_to_pipeline, s1.cell_to_pipeline, s1.failed_infer_calls,
      setAnn pipeline.version RECIPE_KEY (some rs) s1.anns, s1.warnings⟩
    match pipeline.port_map with
    | none => (Except.error PyErr.attributeError, s2)
    | some pm =>
      (Except.ok (), ⟨s2.varTable, s2.cell_to_version, s2.version_to_pipeline,
        s2.cell_to_pipeline, s2.failed_infer_calls,
        setAnn pipeline.version PORTMAP_KEY (some (build_portmap_ann pm)) s2.anns,
        s2.warnings⟩)

/-- created_pipeline: an identical record for the version returns silently; a
different record warns about the conflict; in both the different and the new
case the record replaces the stored one and both annotations are persisted. -/
def created_pipeline (s : StoreState) (cell : Cell)
    (pipeline : PipelineInformation) : Except PyErr Unit × StoreState :=
  match alookup pipeline.version s.version_to_pipeline with
  | some p =>
    if p = pipeline then (Except.ok (), s)
    else
      createdProceed ⟨s.varTable, s.cell_to_version, s.version_to_pipeline,
        s.cell_to_pipeline, s.failed_infer_calls, s.anns, s.warnings + 1⟩
        cell pipeline
  | none => createdProceed s cell pipeline

/-- The surviving values of one parameter: those whose whole connection id
tuple still exists in the version's structure, in order. -/
def keptPairs (env : VistrailEnv) (version : Nat)
    (plist : List RecipeParameterValue) (conn_list : List (List Int)) :
    List (RecipeParameterValue × List Int) :=
  (plist.zip conn_list).filter
    (fun pc => pc.2.all (fun cid => (env.connections version).contains cid))

/-- The parameter loop of _infer_pipelineinfo: for every parameter of the
parent recipe keep the surviving values; a parameter missing from the parent
conn_map raises KeyError (none). -/
def connLoopA (env : VistrailEnv) (version : Nat) (cm : ConnMap)
    (acc : List (Str × List RecipeParameterValue) × ConnMap) :
    List (Str × List RecipeParameterValue) →
    Option (List (Str × List RecipeParameterValue) × ConnMap)
  | [] => some acc
  | (name, plist) :: rest =>
    match alookup name cm with
    | none => none
    | some conn_list =>
      let kept := keptPairs env version plist conn_list
      connLoopA env version cm
        (aset name (kept.map Prod.fst) acc.1, aset name (kept.map Prod.snd) acc.2)
        rest

/-- One inference attempt, parameterized by the recursive get_pipeline call
(_infer_pipelineinfo): memo check, parent lookup, recursive parent record,
plot module survival, parameter filtering, then created_pipeline. -/
def infer_step (env : VistrailEnv)
    (rec : StoreState → Nat ⊕ Cell → Option Cell →
      (Except PyErr (Option PipelineInformation)) × StoreState)
    (s : StoreState) (version : Nat) (cell : Cell) :
    (Except PyErr (Option PipelineInformation)) × StoreState :=
  if version ∈ s.failed_infer_calls then (Except.ok none, s)
  else
    match alookup version env.actionMap with
    | none => (Except.ok none, addFailed s version)
    | some parentId =>
      match rec s (Sum.inl parentId) (some cell) with
      | (Except.error e, s1) => (Except.error e, s1)
      | (Except.ok none, s1) => (Except.ok none, addFailed s1 version)
      | (Except.ok (some parentInfo), s1) =>
        match parentInfo.port_map with
        | none => (Except.error PyErr.attributeError, s1)
        | some pmap =>
          if pmap.any (fun e =>
              e.2.any (fun p => ¬ (env.modules version).contains p.1)) then
            (Except.ok none, addFailed s1 version)
          else
            match connLoopA env version parentInfo.conn_map ([], [])
                parentInfo.recipe.parameters with
            | none => (Except.error PyErr.keyError, s1)
            | some nc =>
              let pi : PipelineInformation :=
                ⟨version, ⟨parentInfo.recipe.plot, nc.1⟩, nc.2,
                  parentInfo.port_map⟩
              match created_pipeline s1 cell pi with
              | (Except.error e, s2) => (Except.error e, s2)
              | (Except.ok _, s2) => (Except.ok (some pi), s2)

/-- get_pipeline with an explicit recursion bound: a version key answers from
the store, then infers when a cell was supplied; a cell key is a plain lookup
and never infers. The bound only limits the parent chain walk. -/
def get_pipelineF (env : VistrailEnv) :
    Nat → StoreState → Nat ⊕ Cell → Option Cell →
    (Except PyErr (Option PipelineInformation)) × StoreState
  | _, s, Sum.inr cell, _ => (Except.ok (alookup cell s.cell_to_pipeline), s)
  | fuel, s, Sum.inl version, infer_for_cell =>
    match alookup version s.version_to_pipeline with
    | some pi => (Except.ok (some pi), s)
    | none =>
      match infer_for_cell with
      | none => (Except.ok none, s)
      | some cell =>
        match fuel with
        | 0 => (Except.ok none, s)
        | fuel2 + 1 =>
          infer_step env
            (fun s2 k2 ic2 => get_pipelineF env fuel2 s2 k2 ic2) s version cell

/-- Python truthiness of a pipeline record object: a class without bool or len
support is always truthy, which makes the orphan purge branch of the
constructor unreachable. -/
def pyTruthy (_ : PipelineInformation) : Bool := true

/-- Variable loading of the constructor: each dat-var- tag resolves its type
from the tagged pipeline; an unreadable type warns and is skipped. -/
def loadVariables (env : VistrailEnv) : List (Str × VarInfo) × Nat :=
  if env.hasDatVars then
    env.tagMap.foldl
      (fun acc vt =>
        if (str "dat-var-").isPrefixOf vt.2 then
          let varname := vt.2.drop 8
          match env.readType vt.1 with
          | none => (acc.1, acc.2 + 1)
          | some ty => (aset varname ⟨varname, ty⟩ acc.1, acc.2)
        else acc)
      ([], 0)
  else ([], 0)

/-- First annotation pass of the constructor: decode every recipe annotation
into a record with no port map yet; failed decodes are skipped. -/
def loadRecipes (env : VistrailEnv) (vars : List (Str × VarInfo))
    (anns0 : List (Nat × Str × Str)) : List (Nat × PipelineInformation) :=
  anns0.foldl
    (fun v2p an =>
      if an.2.1 = RECIPE_KEY then
        match read_recipe_ann env.catalog vars an.2.2 with
        | none => v2p
        | some rc => aset an.1 ⟨an.1, rc.1, rc.2, none⟩ v2p
      else v2p)
    []

/-- Second annotation pass of the constructor: attach each port map to the
record of its version. The subscript raises KeyError when no record exists for
the version, before the truthiness test that guards the intended orphan purge,
so that purge branch is dead code. -/
def loadPortmaps : List (Nat × Str × Str) →
    List (Nat × PipelineInformation) → List (Nat × Str × Str) → Nat →
    (Except PyErr Unit) ×
      (List (Nat × PipelineInformation) × List (Nat × Str × Str) × Nat)
  | [], v2p, anns, warn => (Except.ok (), (v2p, anns, warn))
  | an :: rest, v2p, anns, warn =>
    if an.2.1 = PORTMAP_KEY then
      match alookup an.1 v2p with
      | none => (Except.error PyErr.keyError, (v2p, anns, warn))
      | some pipeline =>
        if pyTruthy pipeline = false then
          loadPortmaps rest v2p (setAnn an.1 an.2.1 none anns) (warn + 1)
        else
          match read_portmap_ann an.2.2 with
          | none => loadPortmaps rest v2p anns warn
          | some pm =>
            loadPortmaps rest
              (aset an.1 ⟨pipeline.version, pipeline.recipe,
                pipeline.conn_map, some pm⟩ v2p)
              anns warn
    else loadPortmaps rest v2p anns warn

/-- The VistrailData constructor: load tagged variables, then the two
annotation passes; a KeyError from the second pass escapes and construction
fails. -/
def store_init (env : VistrailEnv) (anns0 : List (Nat × Str × Str)) :
    (Except PyErr Unit) × StoreState :=
  let lv := loadVariables env
  let v2p1 := loadRecipes env lv.1 anns0
  let r := loadPortmaps anns0 v2p1 anns0 lv.2
  (r.1, ⟨lv.1, [], r.2.1, [], [], r.2.2.1, r.2.2.2⟩)

/-- Does a recipe reference a variable of the given name. -/
def recipeUsesVar (varname : Str) (r : DATRecipe) : Bool :=
  r.parameters.any (fun pv => pv.2.any (fun p =>
    match p with
    | RecipeParameterValue.varRef vi _ => vi.name = varname
    | RecipeParameterValue.constant _ => false))

/-- remove_variable: delete every record whose recipe references the variable
together with its two annotations, unmap the affected cells, warn once when
any pipeline was affected, and drop the variable from the table. -/
def remove_variable_model (s : StoreState) (varname : Str) : StoreState :=
  let to_remove := (s.version_to_pipeline.filter
    (fun e => recipeUsesVar varname e.2.recipe)).map Prod.fst
  let warn2 := if to_remove = [] then s.warnings else s.warnings + 1
  let v2p := s.version_to_pipeline.filter (fun e => ¬ to_remove.contains e.1)
  let anns2 := to_remove.foldl
    (fun a v => setAnn v PORTMAP_KEY none (setAnn v RECIPE_KEY none a)) s.anns
  let cells_removed := (s.cell_to_version.filter
    (fun e => to_remove.contains e.2)).map Prod.fst
  let c2v := s.cell_to_version.filter (fun e => ¬ to_remove.contains e.2)
  let c2p := s.cell_to_pipeline.filter
    (fun e => ¬ cells_removed.contains e.1)
  ⟨s.varTable.filter (fun e => ¬ e.1 = varname), c2v, v2p, c2p,
    s.failed_infer_calls, anns2, warn2⟩

/-- Renaming inside one parameter value through the shared variable object. -/
def renameVal (old new : Str) (ty : Str) : RecipeParameterValue →
    RecipeParameterValue
  | RecipeParameterValue.constant c => RecipeParameterValue.constant c
  | RecipeParameterValue.varRef vi tc =>
    if vi.name = old then RecipeParameterValue.varRef ⟨new, ty⟩ tc
    else RecipeParameterValue.varRef vi tc

/-- Renaming inside one record through the shared variable object. -/
def renamePi (old new : Str) (ty : Str) (pi : PipelineInformation) :
    PipelineInformation :=
  ⟨pi.version,
    ⟨pi.recipe.plot, pi.recipe.parameters.map
      (fun pv => (pv.1, pv.2.map (renameVal old new ty)))⟩,
    pi.conn_map, pi.port_map⟩

/-- rename_variable: move the table entry, rename the shared variable object
(which updates every record referencing it), then re-encode the recipe
annotation of every affected record; a failing re-encode aborts the loop. -/
def rename_variable_model (s : StoreState) (old new : Str) : StoreState :=
  match alookup old s.varTable with
  | none => s
  | some vi =>
    let vars2 := aset new ⟨new, vi.type⟩
      (s.varTable.filter (fun e => ¬ e.1 = old))
    let v2p := s.version_to_pipeline.map
      (fun e => (e.1, renamePi old new vi.type e.2))
    let c2p := s.cell_to_pipeline.map
      (fun e => (e.1, renamePi old new vi.type e.2))
    let anns2 := (v2p.foldl
      (fun (acc : List (Nat × Str × Str) × Bool) e =>
        if acc.2 then acc
        else if recipeUsesVar new e.2.recipe then
          match build_recipe_ann e.2.recipe e.2.conn_map with
          | Except.error _ => (acc.1, true)
          | Except.ok rs => (setAnn e.1 RECIPE_KEY (some rs) acc.1, false)
        else acc)
      (s.anns, false)).1
    ⟨vars2, s.cell_to_version, v2p, c2p, s.failed_infer_calls, anns2,
      s.warnings⟩

/-- _discover_cell_pipelines: per cell location keep the record with the
highest version, then fill both cell maps from the same record. -/
def discover_cells_model (env : VistrailEnv) (s : StoreState) : StoreState :=
  let cells := s.version_to_pipeline.foldl
    (fun (acc : List (Cell × PipelineInformation)) e =>
      match env.locOf e.1 with
      | none => acc
      | some rc =>
        match alookup rc acc with
        | none => aset rc e.2 acc
        | some p => if p.version < e.2.version then aset rc e.2 acc else acc)
    []
  ⟨s.varTable,
    cells.foldl (fun m e => aset e.1 e.2.version m) s.cell_to_version,
    s.version_to_pipeline,
    cells.foldl (fun m e => aset e.1 e.2 m) s.cell_to_pipeline,
    s.failed_infer_calls, s.anns, s.warnings⟩

/-- The store operations of the claims: registration, removal, rename, lookup
with inference, and cell discovery. -/
inductive StoreOp where
  | createdPipelineOp (cell : Cell) (pi : PipelineInformation)
  | removeVariableOp (varname : Str)
  | renameVariableOp (old new : Str)
  | getPipelineOp (fuel : Nat) (k : Nat ⊕ Cell) (c : Option Cell)
  | discoverCellsOp

/-- Applies one operation, keeping the threaded state also when the operation
raised. -/
def applyOp (env : VistrailEnv) (s : StoreState) : StoreOp → StoreState
  | StoreOp.createdPipelineOp cell pi => (created_pipeline s cell pi).2
  | StoreOp.removeVariableOp varname => remove_variable_model s varname
  | StoreOp.renameVariableOp old new => rename_variable_model s old new
  | StoreOp.getPipelineOp fuel k c => (get_pipelineF env fuel s k c).2
  | StoreOp.discoverCellsOp => discover_cells_model env s

/-! ## Small association list facts -/

theorem alookup_aset_self {κ α : Type} [DecidableEq κ] (k : κ) (v : α) :
    ∀ l : List (κ × α), alookup k (aset k v l) = some v
  | [] => by simp [aset, alookup]
  | (k1, v1) :: l => by
    by_cases he : k = k1
    · subst he
      rw [show aset k v ((k, v1) :: l) = (k, v) :: l from by simp [aset]]
      simp [alookup]
    · rw [show aset k v ((k1, v1) :: l) = (k1, v1) :: aset k v l from by
        simp [aset, he]]
      simp only [alookup, he, if_false]
      exact alookup_aset_self k v l

theorem alookup_aset_ne {κ α : Type} [DecidableEq κ] (k k2 : κ) (v : α)
    (hne : ¬ k2 = k) : ∀ l : List (κ × α), alookup k2 (aset k v l) = alookup k2 l
  | [] => by simp [aset, alookup, hne]
  | (k1, v1) :: l => by
    by_cases he : k = k1
    · subst he
      rw [show aset k v ((k, v1) :: l) = (k, v) :: l from by simp [aset]]
      simp [alookup, hne]
    · rw [show aset k v ((k1, v1) :: l) = (k1, v1) :: aset k v l from by
        simp [aset, he]]
      by_cases h2 : k2 = k1
      · subst h2; simp [alookup]
      · simp only [alookup, h2, if_false]
        exact alookup_aset_ne k k2 v hne l

theorem alookup_isSome_of_mem {κ α : Type} [DecidableEq κ] :
    ∀ (l : List (κ × α)) (e : κ × α), e ∈ l → (alookup e.1 l).isSome = true
  | [], e, he => absurd he (List.not_mem_nil e)
  | (k1, v1) :: l, e, he => by
    by_cases h2 : e.1 = k1
    · simp [alookup, h2]
    · simp only [alookup, h2, if_false]
      rcases List.mem_cons.mp he with h3 | h3
      · exact absurd (congrArg Prod.fst h3) h2
      · exact alookup_isSome_of_mem l e h3

theorem alookup_some_mem {κ α : Type} [DecidableEq κ] :
    ∀ (l : List (κ × α)) (k : κ) (v : α), alookup k l = some v → (k, v) ∈ l
  | [], k, v, h => by simp [alookup] at h
  | (k1, v1) :: l, k, v, h => by
    by_cases h2 : k = k1
    · subst h2
      rw [show alookup k ((k, v1) :: l) = some v1 from by simp [alookup]] at h
      rw [Option.some.injEq] at h
      subst h
      exact List.mem_cons_self _ l
    · simp only [alookup, h2, if_false] at h
      exact List.mem_cons_of_mem _ (alookup_some_mem l k v h)

theorem alookup_map_values {κ α β : Type} [DecidableEq κ] (f : α → β) :
    ∀ (l : List (κ × α)) (k : κ),
      alookup k (l.map (fun e => (e.1, f e.2))) = (alookup k l).map f
  | [], _ => rfl
  | (k1, v1) :: l, k => by
    by_cases h2 : k = k1
    · subst h2; simp [alookup]
    · simp only [List.map_cons, alookup, h2, if_false]
      exact alookup_map_values f l k

theorem alookup_filter_keypred {κ α : Type} [DecidableEq κ] (p : κ → Bool) :
    ∀ (l : List (κ × α)) (k : κ), p k = true →
      alookup k (l.filter (fun e => p e.1)) = alookup k l
  | [], _, _ => rfl
  | (k1, v1) :: l, k, hp => by
    by_cases h2 : k = k1
    · subst h2
      simp [List.filter_cons, hp, alookup]
    · by_cases h3 : p k1 = true
      · simp only [List.filter_cons, h3, if_true, alookup, h2, if_false]
        exact alookup_filter_keypred p l k hp
      · rw [show List.filter (fun e => p e.1) ((k1, v1) :: l) =
            List.filter (fun e => p e.1) l from by simp [List.filter_cons, h3]]
        rw [show alookup k ((k1, v1) :: l) = alookup k l from by
          simp [alookup, h2]]
        exact alookup_filter_keypred p l k hp

/-! ## Claim C2: the orphan port map branch is dead code and raises -/

theorem loadPortmaps_ok_covers :
    ∀ (l : List (Nat × Str × Str)) (v2p : List (Nat × PipelineInformation))
      (anns : List (Nat × Str × Str)) (warn : Nat),
      (loadPortmaps l v2p anns warn).1 = Except.ok () →
      ∀ an ∈ l, an.2.1 = PORTMAP_KEY → (alookup an.1 v2p).isSome = true
  | [], _, _, _, _, an, hm, _ => absurd hm (List.not_mem_nil an)
  | an0 :: l, v2p, anns, warn, hok, an, hm, hk => by
    rcases List.mem_cons.mp hm with rfl | hm
    · simp only [loadPortmaps, hk, if_true] at hok
      cases hlk : alookup an.1 v2p with
      | none => rw [hlk] at hok; exact absurd hok (by simp)
      | some p => simp
    · by_cases hk0 : an0.2.1 = PORTMAP_KEY
      · simp only [loadPortmaps, hk0, if_true] at hok
        cases hlk : alookup an0.1 v2p with
        | none => rw [hlk] at hok; exact absurd hok (by simp)
        | some p =>
          rw [hlk] at hok
          simp only [show pyTruthy p = false ↔ False from by
            simp [pyTruthy], if_false] at hok
          have hkeys : ∀ v2p2 : List (Nat × PipelineInformation),
              alookup an.1 v2p2 = alookup an.1 v2p →
              (alookup an.1 v2p2).isSome = true →
              (alookup an.1 v2p).isSome = true := by
            intro v2p2 he hs
            rw [← he]
            exact hs
          cases hrp : read_portmap_ann an0.2.2 with
          | none =>
            rw [hrp] at hok
            exact loadPortmaps_ok_covers l v2p _ _ hok an hm hk
          | some pm =>
            rw [hrp] at hok
            have h2 := loadPortmaps_ok_covers l _ _ _ hok an hm hk
            by_cases hsame : an.1 = an0.1
            · rw [hsame, hlk]
              simp
            · rw [alookup_aset_ne an0.1 an.1 _ hsame v2p] at h2
              exact h2
      · simp only [loadPortmaps, hk0] at hok
        rw [if_neg (by simp [hk0])] at hok
        exact loadPortmaps_ok_covers l v2p anns warn hok an hm hk

theorem loadPortmaps_error_shape :
    ∀ (l : List (Nat × Str × Str)) (v2p : List (Nat × PipelineInformation))
      (anns : List (Nat × Str × Str)) (warn : Nat),
      (loadPortmaps l v2p anns warn).1 = Except.ok () ∨
      (loadPortmaps l v2p anns warn).1 = Except.error PyErr.keyError
  | [], _, _, _ => Or.inl rfl
  | an0 :: l, v2p, anns, warn => by
    by_cases hk0 : an0.2.1 = PORTMAP_KEY
    · simp only [loadPortmaps, hk0, if_true]
      cases hlk : alookup an0.1 v2p with
      | none => exact Or.inr rfl
      | some p =>
        simp only [show pyTruthy p = false ↔ False from by simp [pyTruthy],
          if_false]
        cases hrp : read_portmap_ann an0.2.2 with
        | none => exact loadPortmaps_error_shape l v2p anns warn
        | some pm => exact loadPortmaps_error_shape l _ anns warn
    · simp only [loadPortmaps]
      rw [if_neg (by simpa using hk0)]
      exact loadPortmaps_error_shape l v2p anns warn

theorem loadRecipes_key_from_ann (env : VistrailEnv)
    (vars : List (Str × VarInfo)) :
    ∀ (l : List (Nat × Str × Str)) (acc : List (Nat × PipelineInformation))
      (V : Nat),
      (alookup V (l.foldl (fun v2p an =>
        if an.2.1 = RECIPE_KEY then
          match read_recipe_ann env.catalog vars an.2.2 with
          | none => v2p
          | some rc => aset an.1 ⟨an.1, rc.1, rc.2, none⟩ v2p
        else v2p) acc)).isSome = true →
      (alookup V acc).isSome = true ∨ ∃ w, (V, RECIPE_KEY, w) ∈ l
  | [], acc, V, h => Or.inl h
  | an0 :: l, acc, V, h => by
    simp only [List.foldl_cons] at h
    by_cases hk0 : an0.2.1 = RECIPE_KEY
    · rw [if_pos hk0] at h
      cases hrd : read_recipe_ann env.catalog vars an0.2.2 with
      | none =>
        rw [hrd] at h
        rcases loadRecipes_key_from_ann env vars l acc V h with h2 | ⟨w, hw⟩
        · exact Or.inl h2
        · exact Or.inr ⟨w, List.mem_cons_of_mem _ hw⟩
      | some rc =>
        rw [hrd] at h
        rcases loadRecipes_key_from_ann env vars l _ V h with h2 | ⟨w, hw⟩
        · by_cases hsame : V = an0.1
          · subst hsame
            refine Or.inr ⟨an0.2.2, ?_⟩
            have : an0 = (an0.1, RECIPE_KEY, an0.2.2) := by
              obtain ⟨a, b, c⟩ := an0
              simp only at hk0
              rw [hk0]
            rw [← this]
            exact List.mem_cons_self an0 l
          · rw [alookup_aset_ne an0.1 V _ hsame acc] at h2
            exact Or.inl h2
        · exact Or.inr ⟨w, List.mem_cons_of_mem _ hw⟩
    · rw [if_neg hk0] at h
      rcases loadRecipes_key_from_ann env vars l acc V h with h2 | ⟨w, hw⟩
      · exact Or.inl h2
      · exact Or.inr ⟨w, List.mem_cons_of_mem _ hw⟩

/-- C2 (code divergence): a document with a dat-ports annotation at a version
having no dat-recipe annotation makes Store construction raise KeyError. The
intended orphan purge (warn and delete) is dead code: the record subscript in
the second pass raises before the truthiness test, and the pipeline record is
always truthy. -/
theorem C2_orphan_portmap_raises (env : VistrailEnv)
    (anns0 : List (Nat × Str × Str)) (V : Nat) (x : Str)
    (hm : (V, PORTMAP_KEY, x) ∈ anns0)
    (hnr : ∀ w, (V, RECIPE_KEY, w) ∉ anns0) :
    (store_init env anns0).1 = Except.error PyErr.keyError := by
  unfold store_init
  rcases loadPortmaps_error_shape anns0
    (loadRecipes env (loadVariables env).1 anns0) anns0 (loadVariables env).2
    with hok | herr
  · exfalso
    have hcov := loadPortmaps_ok_covers anns0 _ anns0 _ hok (V, PORTMAP_KEY, x)
      hm rfl
    rcases loadRecipes_key_from_ann env (loadVariables env).1 anns0 [] V hcov
      with h2 | ⟨w, hw⟩
    · simp [alookup] at h2
    · exact hnr w hw
  · exact herr

/-- Environment of the C2 witness: an empty document. -/
def envC2 : VistrailEnv :=
  ⟨[], fun _ => [], fun _ => [], [], [], fun _ => none, false, fun _ => none⟩

/-- C2 witness: the concrete lone dat-ports annotation makes construction
raise KeyError. -/
theorem C2_orphan_portmap_raises_witness :
    (store_init envC2 [(5, PORTMAP_KEY, str "a=1,p")]).1 =
      Except.error PyErr.keyError :=
  C2_orphan_portmap_raises envC2 [(5, PORTMAP_KEY, str "a=1,p")] 5
    (str "a=1,p") (by decide)
    (by
      intro w hw
      have h2 := List.mem_singleton.mp hw
      have h3 : RECIPE_KEY = PORTMAP_KEY := congrArg (fun e => e.2.1) h2
      exact absurd h3 (by decide))

/-! ## Claim C7: conflict overwrite in created_pipeline -/

theorem find?_filter_keep {α : Type} (p q : α → Bool)
    (himp : ∀ e, p e = true → q e = true) :
    ∀ l : List α, (l.filter q).find? p = l.find? p
  | [] => rfl
  | e :: l => by
    by_cases hp : p e = true
    · rw [List.filter_cons, if_pos (himp e hp)]
      simp [List.find?_cons, hp, find?_filter_keep p q himp l]
    · by_cases hq : q e = true
      · rw [List.filter_cons, if_pos hq]
        simp only [List.find?_cons]
        rw [show p e = false from by simpa using hp]
        rw [show (List.find? p l : Option α) = (l.filter q).find? p from
          (find?_filter_keep p q himp l).symm]
      · rw [List.filter_cons, if_neg (by simpa using hq)]
        simp only [List.find?_cons]
        rw [show p e = false from by simpa using hp]
        exact find?_filter_keep p q himp l

theorem getAnn_setAnn_self (version : Nat) (key : Str) (w : Str)
    (anns : List (Nat × Str × Str)) :
    getAnn version key (setAnn version key (some w) anns) = some w := by
  unfold getAnn setAnn
  rw [List.find?_append]
  rw [List.find?_eq_none.mpr (fun e he => by
    have h2 := List.of_mem_filter he
    simp only [decide_eq_true_eq] at h2 ⊢
    tauto)]
  simp

theorem getAnn_setAnn_other (version : Nat) (key key2 : Str) (w : Str)
    (anns : List (Nat × Str × Str)) (hne : ¬ key = key2) :
    getAnn version key (setAnn version key2 (some w) anns) =
      getAnn version key anns := by
  unfold getAnn setAnn
  rw [List.find?_append]
  rw [find?_filter_keep _ _ (fun e he => by
    simp only [decide_eq_true_eq] at he ⊢
    rintro ⟨h1, h2⟩
    exact hne (he.2.symm.trans h2))]
  cases hf : anns.find? (fun e => decide (e.1 = version ∧ e.2.1 = key)) with
  | some e => rfl
  | none =>
    show Option.map _ (Option.none.or _) = _
    simp only [Option.none_or]
    rw [List.find?_cons]
    rw [show (decide ((version, key2, w).1 = version ∧
        (version, key2, w).2.1 = key)) = false from by
      simp only [decide_eq_false_iff_not, not_and]
      exact fun _ h2 => hne h2.symm]
    simp [List.find?_nil]

/-- The recipe annotation text of recipeW with cmW. -/
def annW : Str := str "pkg,scatter;a=c=%3B%3D%7C%3A%2C:3;b=v=myvar:1,2|myvar,cast:4"

/-- A pipeline record over recipeW at version 5 with conn map cmW and port
map pmW. -/
def piW : PipelineInformation := ⟨5, recipeW, cmW, some pmW⟩

/-- A conflicting record previously stored at version 5: same plot, no
parameters. -/
def piOldW : PipelineInformation := ⟨5, ⟨plotW, []⟩, [], none⟩

/-- A store already holding piOldW at version 5. -/
def storeW : StoreState := ⟨varsW, [], [(5, piOldW)], [], [], [], 0⟩

/-- C7: for every store, calling created_pipeline for a version that already
has a different recorded record (and whose recipe annotation builds and whose
port map is present) returns without raising, increments the warning count by
exactly one, replaces the stored record for that version and for the cell with
the new one, and persists both the recipe annotation and the port-map
annotation for that version. -/
theorem C7_conflict_overwrite (s : StoreState) (cell : Cell)
    (pipeline p : PipelineInformation) (pm : PortMap) (rs : Str)
    (hold : alookup pipeline.version s.version_to_pipeline = some p)
    (hdiff : ¬ p = pipeline)
    (hpm : pipeline.port_map = some pm)
    (hok : build_recipe_ann pipeline.recipe pipeline.conn_map = Except.ok rs) :
    (created_pipeline s cell pipeline).1 = Except.ok () ∧
    (created_pipeline s cell pipeline).2.warnings = s.warnings + 1 ∧
    alookup pipeline.version
      (created_pipeline s cell pipeline).2.version_to_pipeline
      = some pipeline ∧
    alookup cell (created_pipeline s cell pipeline).2.cell_to_pipeline
      = some pipeline ∧
    getAnn pipeline.version RECIPE_KEY
      (created_pipeline s cell pipeline).2.anns = some rs ∧
    getAnn pipeline.version PORTMAP_KEY
      (created_pipeline s cell pipeline).2.anns
      = some (build_portmap_ann pm) := by
  have hred : created_pipeline s cell pipeline =
      (Except.ok (), ⟨s.varTable,
        aset cell pipeline.version s.cell_to_version,
        aset pipeline.version pipeline s.version_to_pipeline,
        aset cell pipeline s.cell_to_pipeline,
        s.failed_infer_calls,
        setAnn pipeline.version PORTMAP_KEY (some (build_portmap_ann pm))
          (setAnn pipeline.version RECIPE_KEY (some rs) s.anns),
        s.warnings + 1⟩) := by
    simp only [created_pipeline, createdProceed, hold, if_neg hdiff, hok, hpm]
  rw [hred]
  refine ⟨rfl, rfl, alookup_aset_self _ _ _, alookup_aset_self _ _ _, ?_, ?_⟩
  · rw [getAnn_setAnn_other _ _ _ _ _ (by decide)]
    exact getAnn_setAnn_self _ _ _ _
  · exact getAnn_setAnn_self _ _ _ _

/-- C7 witness: creating piW in storeW, which holds the different piOldW at
version 5, succeeds, bumps warnings to 1, overwrites the maps, and stores
both annotations. -/
theorem C7_conflict_overwrite_witness :
    alookup piW.version storeW.version_to_pipeline = some piOldW ∧
    ¬ piOldW = piW ∧
    piW.port_map = some pmW ∧
    build_recipe_ann piW.recipe piW.conn_map = Except.ok annW ∧
    ((created_pipeline storeW (0, 0) piW).1 = Except.ok () ∧
     (created_pipeline storeW (0, 0) piW).2.warnings = storeW.warnings + 1 ∧
     alookup piW.version
       (created_pipeline storeW (0, 0) piW).2.version_to_pipeline
       = some piW ∧
     alookup (0, 0) (created_pipeline storeW (0, 0) piW).2.cell_to_pipeline
       = some piW ∧
     getAnn piW.version RECIPE_KEY
       (created_pipeline storeW (0, 0) piW).2.anns = some annW ∧
     getAnn piW.version PORTMAP_KEY
       (created_pipeline storeW (0, 0) piW).2.anns
       = some (build_portmap_ann pmW)) :=
  ⟨by decide, by decide, by decide, by decide,
   C7_conflict_overwrite storeW (0, 0) piW piOldW pmW annW
     (by decide) (by decide) (by decide) (by decide)⟩

/-! ## Claims C4 and C5: inference survival -/

theorem buildLoop_ok (cm : ConnMap) :
    ∀ (l : List (Str × List RecipeParameterValue)) (acc : Str),
      (∀ pe ∈ l, alookup pe.1 cm ≠ none ∧ multiConstant pe.2 = false) →
      ∃ rs, buildParamsLoop cm acc l = Except.ok rs
  | [], acc, _ => ⟨acc, rfl⟩
  | (param, vals) :: l, acc, hall => by
    have hh := hall (param, vals) (List.mem_cons_self _ l)
    have htail := fun acc2 => buildLoop_ok cm l acc2
      (fun x hx => hall x (List.mem_cons_of_mem _ hx))
    cases vals with
    | nil =>
      simp only [buildParamsLoop, buildParamFold]
      exact htail acc
    | cons v0 vs =>
      have hno : ¬ (v0.isConstant = true ∧ vs ≠ []) := by
        rintro ⟨hc, hvs⟩
        obtain ⟨w, ws, rfl⟩ := List.exists_cons_of_ne_nil hvs
        simp [multiConstant, hc] at hh
      cases hlk : alookup param cm with
      | none => exact absurd hlk hh.1
      | some conns =>
        simp only [buildParamsLoop, buildParamFold, hno, if_false, hlk]
        exact htail _

theorem build_recipe_ann_ok (r : DATRecipe) (cm : ConnMap)
    (h : ∀ pe ∈ r.parameters,
      alookup pe.1 cm ≠ none ∧ multiConstant pe.2 = false) :
    ∃ rs, build_recipe_ann r cm = Except.ok rs := by
  unfold build_recipe_ann
  exact buildLoop_ok cm (sortByKey r.parameters) _
    (fun x hx => h x ((sortByKey_mem x r.parameters).mp hx))

theorem alookup_map_keyed {κ α β : Type} [DecidableEq κ] (f : κ × α → β) :
    ∀ (l : List (κ × α)) (pe : κ × α),
      List.Pairwise (fun a b => a.1 ≠ b.1) l → pe ∈ l →
      alookup pe.1 (l.map (fun x => (x.1, f x))) = some (f pe)
  | [], pe, _, hm => absurd hm (List.not_mem_nil pe)
  | e :: l, pe, hp, hm => by
    rcases List.mem_cons.mp hm with rfl | hm2
    · simp [alookup]
    · have hne : ¬ pe.1 = e.1 :=
        fun heq => ((List.pairwise_cons.mp hp).1 pe hm2) heq.symm
      simp only [List.map_cons, alookup, hne, if_false]
      exact alookup_map_keyed f l pe (List.pairwise_cons.mp hp).2 hm2

/-- Full survival: when every connection id of the list still exists, the
filter keeps every zipped pair. -/
theorem keptPairs_all (env : VistrailEnv) (version : Nat)
    (plist : List RecipeParameterValue) (conn_list : List (List Int))
    (hall : ∀ conns ∈ conn_list, ∀ cid ∈ conns,
      (env.connections version).contains cid = true) :
    keptPairs env version plist conn_list = plist.zip conn_list := by
  unfold keptPairs
  apply List.filter_eq_self.mpr
  intro pc hpc
  have h2 := (List.of_mem_zip hpc).2
  simp only [List.all_eq_true]
  exact fun cid hcid => hall pc.2 h2 cid hcid

/-- The parameter loop on distinct fresh keys all covered by the parent conn
map appends one surviving entry per parameter, in order. -/
theorem connLoopA_spec (env : VistrailEnv) (version : Nat) (cm : ConnMap) :
    ∀ (params : List (Str × List RecipeParameterValue))
      (acc1 : List (Str × List RecipeParameterValue)) (acc2 : ConnMap),
      List.Pairwise (fun a b => a.1 ≠ b.1) params →
      (∀ pe ∈ params, pe.1 ∉ acc1.map Prod.fst) →
      (∀ pe ∈ params, pe.1 ∉ acc2.map Prod.fst) →
      (∀ pe ∈ params, alookup pe.1 cm ≠ none) →
      connLoopA env version cm (acc1, acc2) params =
        some (acc1 ++ params.map (fun pe => (pe.1,
                (keptPairs env version pe.2
                  ((alookup pe.1 cm).getD [])).map Prod.fst)),
              acc2 ++ params.map (fun pe => (pe.1,
                (keptPairs env version pe.2
                  ((alookup pe.1 cm).getD [])).map Prod.snd)))
  | [], acc1, acc2, _, _, _, _ => by simp [connLoopA]
  | (name, plist) :: rest, acc1, acc2, hp, h1, h2, hc => by
    cases hlk : alookup name cm with
    | none => exact absurd hlk (hc (name, plist) (List.mem_cons_self _ _))
    | some cl =>
      simp only [connLoopA, hlk]
      rw [aset_append_of_not_mem _ _ acc1
            (h1 (name, plist) (List.mem_cons_self _ _)),
          aset_append_of_not_mem _ _ acc2
            (h2 (name, plist) (List.mem_cons_self _ _))]
      rw [connLoopA_spec env version cm rest
          (acc1 ++ [(name,
            (keptPairs env version plist cl).map Prod.fst)])
          (acc2 ++ [(name,
            (keptPairs env version plist cl).map Prod.snd)])
          (List.pairwise_cons.mp hp).2
          (fun pe hpe => by
            simp only [List.map_append, List.mem_append, List.map_cons,
              List.map_nil, List.mem_singleton]
            rintro (hm | hm)
            · exact h1 pe (List.mem_cons_of_mem _ hpe) hm
            · exact (List.pairwise_cons.mp hp).1 pe hpe hm.symm)
          (fun pe hpe => by
            simp only [List.map_append, List.mem_append, List.map_cons,
              List.map_nil, List.mem_singleton]
            rintro (hm | hm)
            · exact h2 pe (List.mem_cons_of_mem _ hpe) hm
            · exact (List.pairwise_cons.mp hp).1 pe hpe hm.symm)
          (fun pe hpe => hc pe (List.mem_cons_of_mem _ hpe))]
      simp [hlk, List.append_assoc]

/-- One-step unfolding of get_pipelineF at a version key. -/
theorem get_pipelineF_inl (env : VistrailEnv) (fuel : Nat) (s : StoreState)
    (version : Nat) (ifc : Option Cell) :
    get_pipelineF env fuel s (Sum.inl version) ifc =
      match alookup version s.version_to_pipeline with
      | some pi => (Except.ok (some pi), s)
      | none =>
        match ifc with
        | none => (Except.ok none, s)
        | some cell =>
          match fuel with
          | 0 => (Except.ok none, s)
          | fuel2 + 1 =>
            infer_step env
              (fun s2 k2 ic2 => get_pipelineF env fuel2 s2 k2 ic2)
              s version cell := by
  cases hlk : alookup version s.version_to_pipeline with
  | some pi =>
    cases ifc with
    | none => simp [get_pipelineF, hlk]
    | some c =>
      cases fuel with
      | zero => simp [get_pipelineF, hlk]
      | succ f => simp [get_pipelineF, hlk]
  | none =>
    cases ifc with
    | none => simp [get_pipelineF, hlk]
    | some c =>
      cases fuel with
      | zero => simp [get_pipelineF, hlk]
      | succ f => simp [get_pipelineF, hlk]

theorem created_pipeline_fst (s : StoreState) (cell : Cell)
    (pi : PipelineInformation) (pm : PortMap) (rs : Str)
    (hnostore : alookup pi.version s.version_to_pipeline = none)
    (hok : build_recipe_ann pi.recipe pi.conn_map = Except.ok rs)
    (hpm : pi.port_map = some pm) :
    (created_pipeline s cell pi).1 = Except.ok () := by
  simp only [created_pipeline, createdProceed, hnostore, hok, hpm]

/-- C4: a version v with no record and no memoized failure, whose direct
parent has a stored record with a port map, all of whose port-map module ids
and connection-map edge ids still exist in the structure of v, infers
successfully to a record whose recipe is exactly the parent recipe, whose
port map is the parent port map unchanged, and whose version field is v. The
parent record is well formed: parameter names are distinct dict keys, its
conn map covers every parameter with a value list of matching length, and no
parameter binds a constant together with further values (else re-encoding the
inferred recipe would raise ValueError instead). -/
theorem C4_inference_preserves_recipe (env : VistrailEnv) (fuel : Nat)
    (s : StoreState) (v parentId : Nat) (cell : Cell)
    (parentInfo : PipelineInformation) (pmap : PortMap)
    (hnostore : alookup v s.version_to_pipeline = none)
    (hnofail : v ∉ s.failed_infer_calls)
    (hparent : alookup v env.actionMap = some parentId)
    (hpstore : alookup parentId s.version_to_pipeline = some parentInfo)
    (hpm : parentInfo.port_map = some pmap)
    (hmods : ∀ e ∈ pmap, ∀ p ∈ e.2, (env.modules v).contains p.1 = true)
    (hdist : List.Pairwise (fun a b => a.1 ≠ b.1)
      parentInfo.recipe.parameters)
    (hcover : ∀ pe ∈ parentInfo.recipe.parameters, ∃ cl,
      alookup pe.1 parentInfo.conn_map = some cl ∧
      cl.length = pe.2.length ∧
      ∀ conns ∈ cl, ∀ cid ∈ conns,
        (env.connections v).contains cid = true)
    (hnomulti : ∀ pe ∈ parentInfo.recipe.parameters,
      multiConstant pe.2 = false) :
    ∃ ncm, (get_pipelineF env (fuel + 1) s (Sum.inl v) (some cell)).1 =
      Except.ok (some ⟨v, parentInfo.recipe, ncm, parentInfo.port_map⟩) := by
  have hrec : get_pipelineF env fuel s (Sum.inl parentId) (some cell)
      = (Except.ok (some parentInfo), s) := by
    cases fuel with
    | zero => simp [get_pipelineF, hpstore]
    | succ f => simp [get_pipelineF, hpstore]
  have hanyf : (pmap.any (fun e =>
      e.2.any (fun p => ¬ (env.modules v).contains p.1))) = false := by
    simp only [List.any_eq_false, decide_eq_true_eq, Bool.not_eq_true]
    intro e he p hp
    simpa using hmods e he p hp
  have hloop := connLoopA_spec env v parentInfo.conn_map
    parentInfo.recipe.parameters [] [] hdist (by simp) (by simp)
    (fun pe hpe => by
      obtain ⟨cl, hlk, _, _⟩ := hcover pe hpe
      simp [hlk])
  have hP1 : parentInfo.recipe.parameters.map (fun pe => (pe.1,
      (keptPairs env v pe.2
        ((alookup pe.1 parentInfo.conn_map).getD [])).map Prod.fst))
      = parentInfo.recipe.parameters := by
    have hpt : ∀ pe ∈ parentInfo.recipe.parameters, ((pe.1,
        (keptPairs env v pe.2
          ((alookup pe.1 parentInfo.conn_map).getD [])).map Prod.fst) :
        Str × List RecipeParameterValue) = pe := by
      intro pe hpe
      obtain ⟨cl, hlk, hlen, hsur⟩ := hcover pe hpe
      rw [hlk]
      simp only [Option.getD_some]
      rw [keptPairs_all env v pe.2 cl hsur]
      rw [List.map_fst_zip pe.2 cl (le_of_eq hlen.symm)]
    exact (List.map_congr_left hpt).trans
      (List.map_id' parentInfo.recipe.parameters)
  refine ⟨parentInfo.recipe.parameters.map (fun pe => (pe.1,
      (keptPairs env v pe.2
        ((alookup pe.1 parentInfo.conn_map).getD [])).map Prod.snd)), ?_⟩
  have hbuild := build_recipe_ann_ok
    ⟨parentInfo.recipe.plot, parentInfo.recipe.parameters⟩
    (parentInfo.recipe.parameters.map (fun pe => (pe.1,
      (keptPairs env v pe.2
        ((alookup pe.1 parentInfo.conn_map).getD [])).map Prod.snd)))
    (fun pe hpe => by
      refine ⟨?_, hnomulti pe hpe⟩
      rw [alookup_map_keyed (fun x => (keptPairs env v x.2
        ((alookup x.1 parentInfo.conn_map).getD [])).map Prod.snd)
        parentInfo.recipe.parameters pe hdist hpe]
      exact Option.noConfusion)
  obtain ⟨rs, hrs⟩ := hbuild
  simp only [get_pipelineF, hnostore]
  simp only [infer_step, hnofail, if_false, hparent, hrec, hpm, hanyf,
    Bool.false_eq_true, if_false, hloop, List.nil_append, hP1]
  have pfst := created_pipeline_fst s cell
    ⟨v, ⟨parentInfo.recipe.plot, parentInfo.recipe.parameters⟩,
      parentInfo.recipe.parameters.map (fun pe => (pe.1,
        (keptPairs env v pe.2
          ((alookup pe.1 parentInfo.conn_map).getD [])).map Prod.snd)),
      some pmap⟩ pmap rs hnostore hrs rfl
  rcases hcc : created_pipeline s cell
    ⟨v, ⟨parentInfo.recipe.plot, parentInfo.recipe.parameters⟩,
      parentInfo.recipe.parameters.map (fun pe => (pe.1,
        (keptPairs env v pe.2
          ((alookup pe.1 parentInfo.conn_map).getD [])).map Prod.snd)),
      some pmap⟩ with ⟨res, s2⟩
  rw [hcc] at pfst
  simp only at pfst
  subst pfst
  rw [hcc]

/-- Environment of the C4 and C5 witnesses: versions 6 and 7 both descend
from version 5; the structure of version 6 keeps module 7 and all four
connections, while version 7 keeps module 7 but has lost connection 4. -/
def envC4 : VistrailEnv :=
  ⟨[(6, 5), (7, 5)], fun _ => [7],
   fun v => if v = 7 then [1, 2, 3] else [1, 2, 3, 4],
   catW, [], fun _ => none, false, fun _ => none⟩

/-- Store of the C4 and C5 witnesses: piW recorded at version 5. -/
def storeC4 : StoreState := ⟨varsW, [], [(5, piW)], [], [], [], 0⟩

/-- C4 witness: inferring version 6, whose structure kept every module and
connection of the record at its parent 5, yields the parent recipe and port
map at version 6. -/
theorem C4_inference_preserves_recipe_witness :
    ∃ ncm, (get_pipelineF envC4 (0 + 1) storeC4 (Sum.inl 6) (some (0, 0))).1 =
      Except.ok (some ⟨6, piW.recipe, ncm, piW.port_map⟩) :=
  C4_inference_preserves_recipe envC4 0 storeC4 6 5 (0, 0) piW pmW
    (by decide) (by decide) (by decide) (by decide) (by decide)
    (by decide) (by decide)
    (by
      intro pe hpe
      simp [piW, recipeW] at hpe
      rcases hpe with rfl | rfl
      · exact ⟨[[3]], by decide, by decide, by decide⟩
      · exact ⟨[[1, 2], [4]], by decide, by decide, by decide⟩)
    (by decide)

/-- C5: during inference, each parameter of the parent recipe keeps exactly
the values whose whole connection id tuple still exists in the structure of
v — keptPairs filters the zipped value/connection pairs in place, preserving
the original relative order — and the inferred record stores those filtered
value lists per parameter. Side conditions: the parent record is well formed
(distinct parameter names, conn map covering every parameter) and no
surviving value list binds a constant with further values (else re-encoding
the inferred recipe raises ValueError). -/
theorem C5_partial_survival (env : VistrailEnv) (fuel : Nat)
    (s : StoreState) (v parentId : Nat) (cell : Cell)
    (parentInfo : PipelineInformation) (pmap : PortMap)
    (hnostore : alookup v s.version_to_pipeline = none)
    (hnofail : v ∉ s.failed_infer_calls)
    (hparent : alookup v env.actionMap = some parentId)
    (hpstore : alookup parentId s.version_to_pipeline = some parentInfo)
    (hpm : parentInfo.port_map = some pmap)
    (hmods : ∀ e ∈ pmap, ∀ p ∈ e.2, (env.modules v).contains p.1 = true)
    (hdist : List.Pairwise (fun a b => a.1 ≠ b.1)
      parentInfo.recipe.parameters)
    (hcov : ∀ pe ∈ parentInfo.recipe.parameters,
      alookup pe.1 parentInfo.conn_map ≠ none)
    (hnomulti : ∀ pe ∈ parentInfo.recipe.parameters,
      multiConstant ((keptPairs env v pe.2
        ((alookup pe.1 parentInfo.conn_map).getD [])).map Prod.fst)
        = false) :
    ∃ ncm, (get_pipelineF env (fuel + 1) s (Sum.inl v) (some cell)).1 =
      Except.ok (some ⟨v,
        ⟨parentInfo.recipe.plot,
         parentInfo.recipe.parameters.map (fun pe => (pe.1,
           (keptPairs env v pe.2
             ((alookup pe.1 parentInfo.conn_map).getD [])).map Prod.fst))⟩,
        ncm, parentInfo.port_map⟩) := by
  have hrec : get_pipelineF env fuel s (Sum.inl parentId) (some cell)
      = (Except.ok (some parentInfo), s) := by
    cases fuel with
    | zero => simp [get_pipelineF, hpstore]
    | succ f => simp [get_pipelineF, hpstore]
  have hanyf : (pmap.any (fun e =>
      e.2.any (fun p => ¬ (env.modules v).contains p.1))) = false := by
    simp only [List.any_eq_false, decide_eq_true_eq, Bool.not_eq_true]
    intro e he p hp
    simpa using hmods e he p hp
  have hloop := connLoopA_spec env v parentInfo.conn_map
    parentInfo.recipe.parameters [] [] hdist (by simp) (by simp) hcov
  refine ⟨parentInfo.recipe.parameters.map (fun pe => (pe.1,
      (keptPairs env v pe.2
        ((alookup pe.1 parentInfo.conn_map).getD [])).map Prod.snd)), ?_⟩
  have hbuild := build_recipe_ann_ok
    ⟨parentInfo.recipe.plot,
     parentInfo.recipe.parameters.map (fun pe => (pe.1,
       (keptPairs env v pe.2
         ((alookup pe.1 parentInfo.conn_map).getD [])).map Prod.fst))⟩
    (parentInfo.recipe.parameters.map (fun pe => (pe.1,
      (keptPairs env v pe.2
        ((alookup pe.1 parentInfo.conn_map).getD [])).map Prod.snd)))
    (fun x hx => by
      obtain ⟨pe, hpe, rfl⟩ := List.mem_map.mp hx
      refine ⟨?_, hnomulti pe hpe⟩
      rw [alookup_map_keyed (fun x2 => (keptPairs env v x2.2
        ((alookup x2.1 parentInfo.conn_map).getD [])).map Prod.snd)
        parentInfo.recipe.parameters pe hdist hpe]
      exact Option.noConfusion)
  obtain ⟨rs, hrs⟩ := hbuild
  simp only [get_pipelineF, hnostore]
  simp only [infer_step, hnofail, if_false, hparent, hrec, hpm, hanyf,
    Bool.false_eq_true, if_false, hloop, List.nil_append]
  have pfst := created_pipeline_fst s cell
    ⟨v, ⟨parentInfo.recipe.plot,
       parentInfo.recipe.parameters.map (fun pe => (pe.1,
         (keptPairs env v pe.2
           ((alookup pe.1 parentInfo.conn_map).getD [])).map Prod.fst))⟩,
      parentInfo.recipe.parameters.map (fun pe => (pe.1,
        (keptPairs env v pe.2
          ((alookup pe.1 parentInfo.conn_map).getD [])).map Prod.snd)),
      some pmap⟩ pmap rs hnostore hrs rfl
  rcases hcc : created_pipeline s cell
    ⟨v, ⟨parentInfo.recipe.plot,
       parentInfo.recipe.parameters.map (fun pe => (pe.1,
         (keptPairs env v pe.2
           ((alookup pe.1 parentInfo.conn_map).getD [])).map Prod.fst))⟩,
      parentInfo.recipe.parameters.map (fun pe => (pe.1,
        (keptPairs env v pe.2
          ((alookup pe.1 parentInfo.conn_map).getD [])).map Prod.snd)),
      some pmap⟩ with ⟨res, s2⟩
  rw [hcc] at pfst
  simp only at pfst
  subst pfst
  rw [hcc]

/-- C5 witness: inferring version 7, whose structure lost connection 4,
keeps parameter a's constant and the first of parameter b's two bound values
(whose connections 1,2 survive) while dropping the second (connection 4),
in order. -/
theorem C5_partial_survival_witness :
    (∃ ncm,
      (get_pipelineF envC4 (0 + 1) storeC4 (Sum.inl 7) (some (0, 0))).1 =
        Except.ok (some ⟨7, ⟨piW.recipe.plot,
          piW.recipe.parameters.map (fun pe => (pe.1,
            (keptPairs envC4 7 pe.2
              ((alookup pe.1 piW.conn_map).getD [])).map Prod.fst))⟩,
          ncm, piW.port_map⟩)) ∧
    piW.recipe.parameters.map (fun pe => (pe.1,
      (keptPairs envC4 7 pe.2
        ((alookup pe.1 piW.conn_map).getD [])).map Prod.fst))
      = [(str "a", [.constant (str ";=|:,")]),
         (str "b", [.varRef varW none])] :=
  ⟨C5_partial_survival envC4 0 storeC4 7 5 (0, 0) piW pmW
     (by decide) (by decide) (by decide) (by decide) (by decide)
     (by decide) (by decide) (by decide) (by decide),
   by decide⟩

/-! ## Claim C6: memoization of inference -/

theorem createdProceed_v2p (s : StoreState) (cell : Cell)
    (pi : PipelineInformation) :
    (createdProceed s cell pi).2.version_to_pipeline
      = aset pi.version pi s.version_to_pipeline := by
  unfold createdProceed
  cases build_recipe_ann pi.recipe pi.conn_map with
  | error e => rfl
  | ok rs =>
    cases pi.port_map with
    | none => rfl
    | some pm => rfl

theorem createdProceed_failed (s : StoreState) (cell : Cell)
    (pi : PipelineInformation) :
    (createdProceed s cell pi).2.failed_infer_calls
      = s.failed_infer_calls := by
  unfold createdProceed
  cases build_recipe_ann pi.recipe pi.conn_map with
  | error e => rfl
  | ok rs =>
    cases pi.port_map with
    | none => rfl
    | some pm => rfl

/-- Every exit of created_pipeline leaves the new record stored under its
version (the identical-record exit finds it already there). -/
theorem created_pipeline_stores (s : StoreState) (cell : Cell)
    (pi : PipelineInformation) :
    alookup pi.version
      (created_pipeline s cell pi).2.version_to_pipeline = some pi := by
  unfold created_pipeline
  cases hlk : alookup pi.version s.version_to_pipeline with
  | none =>
    rw [createdProceed_v2p]
    exact alookup_aset_self _ _ _
  | some p =>
    by_cases he : p = pi
    · subst he
      simp only [if_pos rfl]
      exact hlk
    · simp only [if_neg he]
      rw [createdProceed_v2p]
      exact alookup_aset_self _ _ _

theorem created_pipeline_failed (s : StoreState) (cell : Cell)
    (pi : PipelineInformation) :
    (created_pipeline s cell pi).2.failed_infer_calls
      = s.failed_infer_calls := by
  unfold created_pipeline
  cases alookup pi.version s.version_to_pipeline with
  | none => exact createdProceed_failed s cell pi
  | some p =>
    by_cases he : p = pi
    · simp [he]
    · simp only [if_neg he]
      exact createdProceed_failed _ cell pi

theorem addFailed_mem (s : StoreState) (v : Nat) :
    v ∈ (addFailed s v).failed_infer_calls := by
  unfold addFailed
  by_cases h : v ∈ s.failed_infer_calls
  · simp [h]
  · simp [h]

theorem addFailed_mono (s : StoreState) (v w : Nat)
    (h : w ∈ s.failed_infer_calls) :
    w ∈ (addFailed s v).failed_infer_calls := by
  unfold addFailed
  by_cases hv : v ∈ s.failed_infer_calls
  · simp [hv, h]
  · simp only [if_neg hv]
    exact List.mem_cons_of_mem v h

/-- Every non-raising failure exit of one inference attempt memoizes the
version. -/
theorem infer_step_ok_none_mem (env : VistrailEnv)
    (rec : StoreState → Nat ⊕ Cell → Option Cell →
      (Except PyErr (Option PipelineInformation)) × StoreState)
    (s s1 : StoreState) (v : Nat) (cell : Cell)
    (h : infer_step env rec s v cell = (Except.ok none, s1)) :
    v ∈ s1.failed_infer_calls := by
  unfold infer_step at h
  by_cases hm : v ∈ s.failed_infer_calls
  · rw [if_pos hm] at h
    injection h with h1 h2
    exact h2 ▸ hm
  · rw [if_neg hm] at h
    cases hak : alookup v env.actionMap with
    | none =>
      rw [hak] at h
      simp only at h
      injection h with h1 h2
      exact h2 ▸ addFailed_mem s v
    | some parentId =>
      rw [hak] at h
      simp only at h
      rcases hr : rec s (Sum.inl parentId) (some cell) with ⟨res, s2⟩
      rw [hr] at h
      cases res with
      | error e => exact absurd (congrArg Prod.fst h) (by simp)
      | ok o =>
        cases o with
        | none =>
          injection h with h1 h2
          exact h2 ▸ addFailed_mem s2 v
        | some parentInfo =>
          simp only at h
          cases hpm : parentInfo.port_map with
          | none =>
            rw [hpm] at h
            simp only at h
            exact absurd (congrArg Prod.fst h) (by simp)
          | some pmap =>
            rw [hpm] at h
            simp only at h
            by_cases hany : (pmap.any (fun e =>
                e.2.any (fun p => ¬ (env.modules v).contains p.1))) = true
            · rw [if_pos hany] at h
              injection h with h1 h2
              exact h2 ▸ addFailed_mem s2 v
            · rw [if_neg hany] at h
              cases hcl : connLoopA env v parentInfo.conn_map ([], [])
                  parentInfo.recipe.parameters with
              | none =>
                rw [hcl] at h
                exact absurd (congrArg Prod.fst h) (by simp)
              | some nc =>
                rw [hcl] at h
                simp only at h
                rcases hcp : created_pipeline s2 cell
                    ⟨v, ⟨parentInfo.recipe.plot, nc.1⟩, nc.2,
                      some pmap⟩ with ⟨res2, s3⟩
                rw [hcp] at h
                cases res2 with
                | error e => exact absurd (congrArg Prod.fst h) (by simp)
                | ok u => exact absurd (congrArg Prod.fst h) (by simp)

/-- A successful inference attempt leaves the produced record stored under
the version. -/
theorem infer_step_ok_some_stored (env : VistrailEnv)
    (rec : StoreState → Nat ⊕ Cell → Option Cell →
      (Except PyErr (Option PipelineInformation)) × StoreState)
    (s s1 : StoreState) (v : Nat) (cell : Cell) (r : PipelineInformation)
    (h : infer_step env rec s v cell = (Except.ok (some r), s1)) :
    alookup v s1.version_to_pipeline = some r := by
  unfold infer_step at h
  by_cases hm : v ∈ s.failed_infer_calls
  · rw [if_pos hm] at h
    exact absurd (congrArg Prod.fst h) (by simp)
  · rw [if_neg hm] at h
    cases hak : alookup v env.actionMap with
    | none =>
      rw [hak] at h
      simp only at h
      exact absurd (congrArg Prod.fst h) (by simp)
    | some parentId =>
      rw [hak] at h
      simp only at h
      rcases hr : rec s (Sum.inl parentId) (some cell) with ⟨res, s2⟩
      rw [hr] at h
      cases res with
      | error e => exact absurd (congrArg Prod.fst h) (by simp)
      | ok o =>
        cases o with
        | none => exact absurd (congrArg Prod.fst h) (by simp)
        | some parentInfo =>
          simp only at h
          cases hpm : parentInfo.port_map with
          | none =>
            rw [hpm] at h
            simp only at h
            exact absurd (congrArg Prod.fst h) (by simp)
          | some pmap =>
            rw [hpm] at h
            simp only at h
            by_cases hany : (pmap.any (fun e =>
                e.2.any (fun p => ¬ (env.modules v).contains p.1))) = true
            · rw [if_pos hany] at h
              exact absurd (congrArg Prod.fst h) (by simp)
            · rw [if_neg hany] at h
              cases hcl : connLoopA env v parentInfo.conn_map ([], [])
                  parentInfo.recipe.parameters with
              | none =>
                rw [hcl] at h
                exact absurd (congrArg Prod.fst h) (by simp)
              | some nc =>
                rw [hcl] at h
                simp only at h
                rcases hcp : created_pipeline s2 cell
                    ⟨v, ⟨parentInfo.recipe.plot, nc.1⟩, nc.2,
                      some pmap⟩ with ⟨res2, s3⟩
                rw [hcp] at h
                cases res2 with
                | error e => exact absurd (congrArg Prod.fst h) (by simp)
                | ok u =>
                  injection h with h1 h2
                  injection h1 with h1b
                  injection h1b with h1c
                  have hst := created_pipeline_stores s2 cell
                    ⟨v, ⟨parentInfo.recipe.plot, nc.1⟩, nc.2, some pmap⟩
                  rw [hcp] at hst
                  rw [← h2, ← h1c]
                  exact hst

/-- One inference attempt never removes a memoized failure, whatever its
recursive call does to the state, provided that call does not either. -/
theorem infer_step_failed_mono (env : VistrailEnv)
    (rec : StoreState → Nat ⊕ Cell → Option Cell →
      (Except PyErr (Option PipelineInformation)) × StoreState)
    (s : StoreState) (v : Nat) (cell : Cell) (w : Nat)
    (hw : w ∈ s.failed_infer_calls)
    (hrec : ∀ s2 k2 ic2, w ∈ s2.failed_infer_calls →
      w ∈ (rec s2 k2 ic2).2.failed_infer_calls) :
    w ∈ (infer_step env rec s v cell).2.failed_infer_calls := by
  unfold infer_step
  by_cases hm : v ∈ s.failed_infer_calls
  · rw [if_pos hm]
    exact hw
  · rw [if_neg hm]
    cases hak : alookup v env.actionMap with
    | none =>
      simp only
      exact addFailed_mono s v w hw
    | some parentId =>
      simp only
      rcases hr : rec s (Sum.inl parentId) (some cell) with ⟨res, s2⟩
      have hw2 : w ∈ s2.failed_infer_calls := by
        have h3 := hrec s (Sum.inl parentId) (some cell) hw
        rwa [hr] at h3
      cases res with
      | error e => exact hw2
      | ok o =>
        cases o with
        | none => exact addFailed_mono s2 v w hw2
        | some parentInfo =>
          simp only
          cases hpm : parentInfo.port_map with
          | none => exact hw2
          | some pmap =>
            simp only
            by_cases hany : (pmap.any (fun e =>
                e.2.any (fun p => ¬ (env.modules v).contains p.1))) = true
            · rw [if_pos hany]
              exact addFailed_mono s2 v w hw2
            · rw [if_neg hany]
              cases hcl : connLoopA env v parentInfo.conn_map ([], [])
                  parentInfo.recipe.parameters with
              | none => exact hw2
              | some nc =>
                simp only
                rcases hcp : created_pipeline s2 cell
                    ⟨v, ⟨parentInfo.recipe.plot, nc.1⟩, nc.2,
                      some pmap⟩ with ⟨res2, s3⟩
                have h4 : s3.failed_infer_calls = s2.failed_infer_calls := by
                  have h5 := created_pipeline_failed s2 cell
                    ⟨v, ⟨parentInfo.recipe.plot, nc.1⟩, nc.2, some pmap⟩
                  rwa [hcp] at h5
                cases res2 with
                | error e => exact h4 ▸ hw2
                | ok u => exact h4 ▸ hw2

/-- get_pipeline never removes a memoized failure. -/
theorem getF_failed_mono (env : VistrailEnv) :
    ∀ (fuel : Nat) (s : StoreState) (k : Nat ⊕ Cell) (ifc : Option Cell)
      (w : Nat), w ∈ s.failed_infer_calls →
      w ∈ (get_pipelineF env fuel s k ifc).2.failed_infer_calls
  | fuel, s, Sum.inr c, ifc, w, hw => by
    simp only [get_pipelineF]
    exact hw
  | 0, s, Sum.inl v, ifc, w, hw => by
    rw [get_pipelineF_inl]
    cases hlk : alookup v s.version_to_pipeline with
    | some pi => exact hw
    | none =>
      cases ifc with
      | none => exact hw
      | some c => exact hw
  | fuel + 1, s, Sum.inl v, ifc, w, hw => by
    rw [get_pipelineF_inl]
    cases hlk : alookup v s.version_to_pipeline with
    | some pi => exact hw
    | none =>
      cases ifc with
      | none => exact hw
      | some c =>
        exact infer_step_failed_mono env _ s v c w hw
          (fun s2 k2 ic2 hw2 => getF_failed_mono env fuel s2 k2 ic2 w hw2)

/-- C6: inference is memoized in both directions. (1) A version with a
memoized failure and no stored record makes get_pipeline return null
immediately with the store untouched — the graph is not walked. (2) A failed
inference (null result through the inference path) always leaves the version
in the failure memo. (3) No store operation — registration, removal, rename,
lookup with inference, cell discovery — ever removes a memoized failure.
(4) A successful call leaves the record stored under the version, and every
later call returns that stored record with the store unchanged. -/
theorem C6_inference_memoized (env : VistrailEnv) :
    (∀ (fuel : Nat) (s : StoreState) (v : Nat) (c : Cell),
      v ∈ s.failed_infer_calls → alookup v s.version_to_pipeline = none →
      get_pipelineF env fuel s (Sum.inl v) (some c) = (Except.ok none, s)) ∧
    (∀ (fuel : Nat) (s s1 : StoreState) (v : Nat) (c : Cell),
      alookup v s.version_to_pipeline = none →
      get_pipelineF env (fuel + 1) s (Sum.inl v) (some c)
        = (Except.ok none, s1) →
      v ∈ s1.failed_infer_calls) ∧
    (∀ (s : StoreState) (op : StoreOp) (w : Nat),
      w ∈ s.failed_infer_calls →
      w ∈ (applyOp env s op).failed_infer_calls) ∧
    (∀ (fuel : Nat) (s s1 : StoreState) (v : Nat) (ifc : Option Cell)
      (r : PipelineInformation),
      get_pipelineF env fuel s (Sum.inl v) ifc = (Except.ok (some r), s1) →
      alookup v s1.version_to_pipeline = some r ∧
      ∀ (fuel2 : Nat) (ifc2 : Option Cell),
        get_pipelineF env fuel2 s1 (Sum.inl v) ifc2
          = (Except.ok (some r), s1)) := by
  refine ⟨?_, ?_, ?_, ?_⟩
  · intro fuel s v c hmem hlk
    rw [get_pipelineF_inl, hlk]
    cases fuel with
    | zero => rfl
    | succ f =>
      simp only
      unfold infer_step
      rw [if_pos hmem]
  · intro fuel s s1 v c hlk h
    rw [get_pipelineF_inl, hlk] at h
    simp only at h
    exact infer_step_ok_none_mem env _ s s1 v c h
  · intro s op w hw
    cases op with
    | createdPipelineOp cell pi =>
      simp only [applyOp]
      rw [created_pipeline_failed]
      exact hw
    | removeVariableOp varname =>
      simp only [applyOp, remove_variable_model]
      exact hw
    | renameVariableOp old new =>
      simp only [applyOp]
      unfold rename_variable_model
      cases alookup old s.varTable with
      | none => exact hw
      | some vi => exact hw
    | getPipelineOp fuel k c => exact getF_failed_mono env fuel s k c w hw
    | discoverCellsOp =>
      simp only [applyOp, discover_cells_model]
      exact hw
  · intro fuel s s1 v ifc r h
    have hst : alookup v s1.version_to_pipeline = some r := by
      rw [get_pipelineF_inl] at h
      cases hlk : alookup v s.version_to_pipeline with
      | some pi =>
        rw [hlk] at h
        simp only at h
        injection h with h1 h2
        injection h1 with h1b
        injection h1b with h1c
        rw [← h2, ← h1c]
        exact hlk
      | none =>
        rw [hlk] at h
        cases ifc with
        | none =>
          simp only at h
          exact absurd (congrArg Prod.fst h) (by simp)
        | some c =>
          cases fuel with
          | zero =>
            simp only at h
            exact absurd (congrArg Prod.fst h) (by simp)
          | succ f =>
            simp only at h
            exact infer_step_ok_some_stored env _ s s1 v c r h
    refine ⟨hst, ?_⟩
    intro fuel2 ifc2
    rw [get_pipelineF_inl, hst]

/-- Store with version 9 memoized as a failed inference. -/
def storeMemoW : StoreState := ⟨[], [], [], [], [9], [], 0⟩

/-- The empty store. -/
def storeEmptyW : StoreState := ⟨[], [], [], [], [], [], 0⟩

/-- C6 witness: a memoized version answers null with the store untouched; a
concrete failing inference (version 9 has no parent in an empty document)
memoizes 9; removal keeps the memo; a stored success (piW at version 5)
answers identically on every later call. -/
theorem C6_inference_memoized_witness :
    (get_pipelineF envC2 3 storeMemoW (Sum.inl 9) (some (0, 0)) =
      (Except.ok none, storeMemoW)) ∧
    (9 ∈ storeMemoW.failed_infer_calls) ∧
    (9 ∈ (applyOp envC2 storeMemoW
      (StoreOp.removeVariableOp (str "myvar"))).failed_infer_calls) ∧
    (alookup 5 storeC4.version_to_pipeline = some piW ∧
     ∀ (fuel2 : Nat) (ifc2 : Option Cell),
       get_pipelineF envC4 fuel2 storeC4 (Sum.inl 5) ifc2
         = (Except.ok (some piW), storeC4)) :=
  ⟨(C6_inference_memoized envC2).1 3 storeMemoW 9 (0, 0)
     (by decide) (by decide),
   (C6_inference_memoized envC2).2.1 0 storeEmptyW storeMemoW 9 (0, 0)
     (by decide) (by decide),
   (C6_inference_memoized envC2).2.2.1 storeMemoW
     (StoreOp.removeVariableOp (str "myvar")) 9 (by decide),
   (C6_inference_memoized envC4).2.2.2 1 storeC4 storeC4 5 none piW
     (by decide)⟩

/-! ## Claim C9: the cell-map/version-map invariant -/

/-- Pairwise-distinct keys of an association list (a Python dict always has
them). -/
def NodupKeys {κ α : Type} (l : List (κ × α)) : Prop :=
  List.Pairwise (fun a b => a.1 ≠ b.1) l

theorem aset_nodup {κ α : Type} [DecidableEq κ] (k : κ) (v : α) :
    ∀ l : List (κ × α), NodupKeys l → NodupKeys (aset k v l)
  | [], _ => by simp [aset, NodupKeys]
  | (k1, v1) :: l, h => by
    obtain ⟨hh, ht⟩ := List.pairwise_cons.mp h
    by_cases he : k = k1
    · subst he
      rw [show aset k v ((k, v1) :: l) = (k, v) :: l from by simp [aset]]
      exact List.pairwise_cons.mpr ⟨hh, ht⟩
    · rw [show aset k v ((k1, v1) :: l) = (k1, v1) :: aset k v l from by
        simp [aset, he]]
      refine List.pairwise_cons.mpr ⟨?_, aset_nodup k v l ht⟩
      intro b hb
      rcases aset_mem k v l b hb with rfl | hb2
      · exact fun h2 => he h2.symm
      · exact hh b hb2

theorem aset_mem_nodup {κ α : Type} [DecidableEq κ] (k : κ) (v : α) :
    ∀ l : List (κ × α), NodupKeys l → ∀ x ∈ aset k v l,
      x = (k, v) ∨ (x ∈ l ∧ ¬ x.1 = k)
  | [], _, x, hx => Or.inl (by simpa [aset] using hx)
  | (k1, v1) :: l, h, x, hx => by
    obtain ⟨hh, ht⟩ := List.pairwise_cons.mp h
    by_cases he : k = k1
    · subst he
      rw [show aset k v ((k, v1) :: l) = (k, v) :: l from by simp [aset]] at hx
      rcases List.mem_cons.mp hx with rfl | hx2
      · exact Or.inl rfl
      · exact Or.inr ⟨List.mem_cons_of_mem _ hx2,
          fun h2 => (hh x hx2) h2.symm⟩
    · rw [show aset k v ((k1, v1) :: l) = (k1, v1) :: aset k v l from by
        simp [aset, he]] at hx
      rcases List.mem_cons.mp hx with rfl | hx2
      · exact Or.inr ⟨List.mem_cons_self _ _, fun h2 => he h2.symm⟩
      · rcases aset_mem_nodup k v l ht x hx2 with rfl | ⟨hm, hne⟩
        · exact Or.inl rfl
        · exact Or.inr ⟨List.mem_cons_of_mem _ hm, hne⟩

theorem mem_alookup {κ α : Type} [DecidableEq κ] :
    ∀ l : List (κ × α), NodupKeys l → ∀ e ∈ l, alookup e.1 l = some e.2
  | [], _, e, he => absurd he (List.not_mem_nil e)
  | (k1, v1) :: l, h, e, he => by
    obtain ⟨hh, ht⟩ := List.pairwise_cons.mp h
    rcases List.mem_cons.mp he with rfl | he2
    · simp [alookup]
    · have hne : ¬ e.1 = k1 := fun h2 => (hh e he2) h2.symm
      simp only [alookup, hne, if_false]
      exact mem_alookup l ht e he2

/-- The reachability invariant of the three pipeline maps: dict keys are
distinct, every version-map entry is stored under its own version field,
every cell of the cell-to-record map is also in the cell-to-version map with
the record's version, and — the claimed property — that version has an entry
in the version-to-record map. -/
def StoreInv (s : StoreState) : Prop :=
  NodupKeys s.cell_to_version ∧
  NodupKeys s.cell_to_pipeline ∧
  NodupKeys s.version_to_pipeline ∧
  (∀ e ∈ s.version_to_pipeline, e.2.version = e.1) ∧
  (∀ ce ∈ s.cell_to_pipeline,
    alookup ce.1 s.cell_to_version = some ce.2.version) ∧
  (∀ ce ∈ s.cell_to_pipeline,
    (alookup ce.2.version s.version_to_pipeline).isSome = true)

theorem createdProceed_maps (s : StoreState) (cell : Cell)
    (pi : PipelineInformation) :
    (createdProceed s cell pi).2.cell_to_version
        = aset cell pi.version s.cell_to_version ∧
    (createdProceed s cell pi).2.cell_to_pipeline
        = aset cell pi s.cell_to_pipeline := by
  unfold createdProceed
  cases build_recipe_ann pi.recipe pi.conn_map with
  | error e => exact ⟨rfl, rfl⟩
  | ok rs =>
    cases pi.port_map with
    | none => exact ⟨rfl, rfl⟩
    | some pm => exact ⟨rfl, rfl⟩

theorem createdProceed_inv (s : StoreState) (cell : Cell)
    (pi : PipelineInformation) (h : StoreInv s) :
    StoreInv (createdProceed s cell pi).2 := by
  obtain ⟨h1, h2, h3, h4, h5, h6⟩ := h
  unfold StoreInv
  rw [(createdProceed_maps s cell pi).1, (createdProceed_maps s cell pi).2,
    createdProceed_v2p]
  refine ⟨aset_nodup _ _ _ h1, aset_nodup _ _ _ h2, aset_nodup _ _ _ h3,
    ?_, ?_, ?_⟩
  · intro e he
    rcases aset_mem _ _ _ e he with rfl | hold
    · rfl
    · exact h4 e hold
  · intro ce hce
    rcases aset_mem_nodup _ _ _ h2 ce hce with rfl | ⟨hold, hne⟩
    · exact alookup_aset_self cell pi.version s.cell_to_version
    · rw [alookup_aset_ne cell ce.1 pi.version hne]
      exact h5 ce hold
  · intro ce hce
    rcases aset_mem_nodup _ _ _ h2 ce hce with rfl | ⟨hold, hne⟩
    · rw [alookup_aset_self]
      rfl
    · by_cases hv2 : ce.2.version = pi.version
      · rw [hv2, alookup_aset_self]
        rfl
      · rw [alookup_aset_ne pi.version ce.2.version pi hv2]
        exact h6 ce hold

theorem created_pipeline_inv (s : StoreState) (cell : Cell)
    (pi : PipelineInformation) (h : StoreInv s) :
    StoreInv (created_pipeline s cell pi).2 := by
  unfold created_pipeline
  cases hlk : alookup pi.version s.version_to_pipeline with
  | none => exact createdProceed_inv s cell pi h
  | some p =>
    by_cases he : p = pi
    · simp only [if_pos he]
      exact h
    · simp only [if_neg he]
      exact createdProceed_inv _ cell pi h

theorem addFailed_inv (s : StoreState) (v : Nat) (h : StoreInv s) :
    StoreInv (addFailed s v) := by
  unfold addFailed
  by_cases hv : v ∈ s.failed_infer_calls
  · rw [if_pos hv]
    exact h
  · rw [if_neg hv]
    exact h

theorem remove_variable_inv (s : StoreState) (varname : Str)
    (h : StoreInv s) : StoreInv (remove_variable_model s varname) := by
  obtain ⟨h1, h2, h3, h4, h5, h6⟩ := h
  unfold remove_variable_model
  refine ⟨?_, ?_, ?_, ?_, ?_, ?_⟩
  · exact List.Pairwise.sublist (List.filter_sublist _) h1
  · exact List.Pairwise.sublist (List.filter_sublist _) h2
  · exact List.Pairwise.sublist (List.filter_sublist _) h3
  · intro e he
    exact h4 e (List.mem_of_mem_filter he)
  · intro ce hce
    obtain ⟨hm, hpred⟩ := List.mem_filter.mp hce
    have hcv := h5 ce hm
    have hmem := alookup_some_mem s.cell_to_version ce.1 ce.2.version hcv
    have hnotr : ((s.version_to_pipeline.filter
        (fun e => recipeUsesVar varname e.2.recipe)).map Prod.fst).contains
          ce.2.version = false := by
      by_contra hcon
      have hcon2 : ((s.version_to_pipeline.filter
          (fun e => recipeUsesVar varname e.2.recipe)).map
            Prod.fst).contains ce.2.version = true := by
        simpa using hcon
      have hmem2 : (ce.1, ce.2.version) ∈ s.cell_to_version.filter
          (fun e => ((s.version_to_pipeline.filter
            (fun e2 => recipeUsesVar varname e2.2.recipe)).map
              Prod.fst).contains e.2) :=
        List.mem_filter.mpr ⟨hmem, hcon2⟩
      have hin : ce.1 ∈ (s.cell_to_version.filter
          (fun e => ((s.version_to_pipeline.filter
            (fun e2 => recipeUsesVar varname e2.2.recipe)).map
              Prod.fst).contains e.2)).map Prod.fst :=
        List.mem_map.mpr ⟨(ce.1, ce.2.version), hmem2, rfl⟩
      simp only [decide_eq_true_eq] at hpred
      exact hpred (by simpa using hin)
    have hsv : (ce.1, ce.2.version) ∈ s.cell_to_version.filter
        (fun e => ¬ ((s.version_to_pipeline.filter
          (fun e2 => recipeUsesVar varname e2.2.recipe)).map
            Prod.fst).contains e.2) :=
      List.mem_filter.mpr ⟨hmem, by
        simp only [decide_eq_true_eq, hnotr]
        decide⟩
    have hnodup : NodupKeys (s.cell_to_version.filter
        (fun e => ¬ ((s.version_to_pipeline.filter
          (fun e2 => recipeUsesVar varname e2.2.recipe)).map
            Prod.fst).contains e.2)) :=
      List.Pairwise.sublist (List.filter_sublist _) h1
    exact mem_alookup _ hnodup (ce.1, ce.2.version) hsv
  · intro ce hce
    obtain ⟨hm, hpred⟩ := List.mem_filter.mp hce
    have hcv := h5 ce hm
    have hmem := alookup_some_mem s.cell_to_version ce.1 ce.2.version hcv
    have hnotr : ((s.version_to_pipeline.filter
        (fun e => recipeUsesVar varname e.2.recipe)).map Prod.fst).contains
          ce.2.version = false := by
      by_contra hcon
      have hcon2 : ((s.version_to_pipeline.filter
          (fun e => recipeUsesVar varname e.2.recipe)).map
            Prod.fst).contains ce.2.version = true := by
        simpa using hcon
      have hmem2 : (ce.1, ce.2.version) ∈ s.cell_to_version.filter
          (fun e => ((s.version_to_pipeline.filter
            (fun e2 => recipeUsesVar varname e2.2.recipe)).map
              Prod.fst).contains e.2) :=
        List.mem_filter.mpr ⟨hmem, hcon2⟩
      have hin : ce.1 ∈ (s.cell_to_version.filter
          (fun e => ((s.version_to_pipeline.filter
            (fun e2 => recipeUsesVar varname e2.2.recipe)).map
              Prod.fst).contains e.2)).map Prod.fst :=
        List.mem_map.mpr ⟨(ce.1, ce.2.version), hmem2, rfl⟩
      simp only [decide_eq_true_eq] at hpred
      exact hpred (by simpa using hin)
    have h7 := h6 ce hm
    obtain ⟨pi0, hpi0⟩ := Option.isSome_iff_exists.mp h7
    have hv2pm := alookup_some_mem s.version_to_pipeline ce.2.version pi0 hpi0
    have hsv : (ce.2.version, pi0) ∈ s.version_to_pipeline.filter
        (fun e => ¬ ((s.version_to_pipeline.filter
          (fun e2 => recipeUsesVar varname e2.2.recipe)).map
            Prod.fst).contains e.1) :=
      List.mem_filter.mpr ⟨hv2pm, by
        simp only [decide_eq_true_eq, hnotr]
        decide⟩
    have hnodup : NodupKeys (s.version_to_pipeline.filter
        (fun e => ¬ ((s.version_to_pipeline.filter
          (fun e2 => recipeUsesVar varname e2.2.recipe)).map
            Prod.fst).contains e.1)) :=
      List.Pairwise.sublist (List.filter_sublist _) h3
    rw [mem_alookup _ hnodup (ce.2.version, pi0) hsv]
    rfl

theorem rename_variable_inv (s : StoreState) (old new : Str)
    (h : StoreInv s) : StoreInv (rename_variable_model s old new) := by
  obtain ⟨h1, h2, h3, h4, h5, h6⟩ := h
  unfold rename_variable_model
  cases alookup old s.varTable with
  | none => exact ⟨h1, h2, h3, h4, h5, h6⟩
  | some vi =>
    refine ⟨h1, ?_, ?_, ?_, ?_, ?_⟩
    · exact List.pairwise_map.mpr (h2.imp (fun hab => hab))
    · exact List.pairwise_map.mpr (h3.imp (fun hab => hab))
    · intro e he
      obtain ⟨e0, he0, rfl⟩ := List.mem_map.mp he
      exact h4 e0 he0
    · intro ce hce
      obtain ⟨e0, he0, rfl⟩ := List.mem_map.mp hce
      exact h5 e0 he0
    · intro ce hce
      obtain ⟨e0, he0, rfl⟩ := List.mem_map.mp hce
      rw [alookup_map_values]
      have h7 := h6 e0 he0
      obtain ⟨pi0, hpi0⟩ := Option.isSome_iff_exists.mp h7
      rw [show (renamePi old new vi.type e0.2).version = e0.2.version
        from rfl]
      rw [hpi0]
      rfl

theorem discover_fold_inv (Q : PipelineInformation → Prop) :
    ∀ (cells : List (Cell × PipelineInformation))
      (c2v : List (Cell × Nat)) (c2p : List (Cell × PipelineInformation)),
      (∀ e ∈ cells, Q e.2) →
      NodupKeys c2v → NodupKeys c2p →
      (∀ ce ∈ c2p, alookup ce.1 c2v = some ce.2.version) →
      (∀ ce ∈ c2p, Q ce.2) →
      NodupKeys (cells.foldl (fun m e => aset e.1 e.2.version m) c2v) ∧
      NodupKeys (cells.foldl (fun m e => aset e.1 e.2 m) c2p) ∧
      (∀ ce ∈ cells.foldl (fun m e => aset e.1 e.2 m) c2p,
        alookup ce.1 (cells.foldl (fun m e => aset e.1 e.2.version m) c2v)
          = some ce.2.version) ∧
      (∀ ce ∈ cells.foldl (fun m e => aset e.1 e.2 m) c2p, Q ce.2)
  | [], c2v, c2p, _, hv, hp, hpair, hq => ⟨hv, hp, hpair, hq⟩
  | e :: cells, c2v, c2p, hqs, hv, hp, hpair, hq => by
    simp only [List.foldl_cons]
    refine discover_fold_inv Q cells (aset e.1 e.2.version c2v)
      (aset e.1 e.2 c2p)
      (fun x hx => hqs x (List.mem_cons_of_mem _ hx))
      (aset_nodup _ _ _ hv) (aset_nodup _ _ _ hp) ?_ ?_
    · intro ce hce
      rcases aset_mem_nodup _ _ _ hp ce hce with rfl | ⟨hold, hne⟩
      · exact alookup_aset_self _ _ _
      · rw [alookup_aset_ne e.1 ce.1 e.2.version hne]
        exact hpair ce hold
    · intro ce hce
      rcases aset_mem_nodup _ _ _ hp ce hce with rfl | ⟨hold, _⟩
      · exact hqs e (List.mem_cons_self _ _)
      · exact hq ce hold

theorem cellsFold_values (env : VistrailEnv) (Q : PipelineInformation → Prop) :
    ∀ (l : List (Nat × PipelineInformation))
      (acc : List (Cell × PipelineInformation)),
      (∀ e ∈ l, Q e.2) → (∀ ce ∈ acc, Q ce.2) →
      ∀ ce ∈ l.foldl (fun acc e =>
          match env.locOf e.1 with
          | none => acc
          | some rc =>
            match alookup rc acc with
            | none => aset rc e.2 acc
            | some p =>
              if p.version < e.2.version then aset rc e.2 acc else acc) acc,
        Q ce.2
  | [], acc, _, hacc, ce, hce => hacc ce hce
  | e :: l, acc, hl, hacc, ce, hce => by
    simp only [List.foldl_cons] at hce
    have hQe : Q e.2 := hl e (List.mem_cons_self _ _)
    have hl2 : ∀ x ∈ l, Q x.2 := fun x hx => hl x (List.mem_cons_of_mem _ hx)
    cases hloc : env.locOf e.1 with
    | none =>
      rw [hloc] at hce
      exact cellsFold_values env Q l acc hl2 hacc ce hce
    | some rc =>
      rw [hloc] at hce
      simp only at hce
      cases hfind : alookup rc acc with
      | none =>
        rw [hfind] at hce
        refine cellsFold_values env Q l (aset rc e.2 acc) hl2 ?_ ce hce
        intro x hx
        rcases aset_mem _ _ _ x hx with rfl | hold
        · exact hQe
        · exact hacc x hold
      | some p =>
        rw [hfind] at hce
        simp only at hce
        by_cases hlt : p.version < e.2.version
        · rw [if_pos hlt] at hce
          refine cellsFold_values env Q l (aset rc e.2 acc) hl2 ?_ ce hce
          intro x hx
          rcases aset_mem _ _ _ x hx with rfl | hold
          · exact hQe
          · exact hacc x hold
        · rw [if_neg hlt] at hce
          exact cellsFold_values env Q l acc hl2 hacc ce hce

theorem discover_cells_inv (env : VistrailEnv) (s : StoreState)
    (h : StoreInv s) : StoreInv (discover_cells_model env s) := by
  obtain ⟨h1, h2, h3, h4, h5, h6⟩ := h
  unfold discover_cells_model
  have hq : ∀ e ∈ s.version_to_pipeline.foldl (fun acc e =>
      match env.locOf e.1 with
      | none => acc
      | some rc =>
        match alookup rc acc with
        | none => aset rc e.2 acc
        | some p =>
          if p.version < e.2.version then aset rc e.2 acc else acc) [],
      (alookup e.2.version s.version_to_pipeline).isSome = true := by
    refine cellsFold_values env
      (fun pi => (alookup pi.version s.version_to_pipeline).isSome = true)
      s.version_to_pipeline [] ?_ ?_
    · intro e he
      rw [h4 e he]
      exact alookup_isSome_of_mem s.version_to_pipeline e he
    · intro ce hce
      exact absurd hce (List.not_mem_nil ce)
  have hfold := discover_fold_inv
    (fun pi => (alookup pi.version s.version_to_pipeline).isSome = true)
    (s.version_to_pipeline.foldl (fun acc e =>
      match env.locOf e.1 with
      | none => acc
      | some rc =>
        match alookup rc acc with
        | none => aset rc e.2 acc
        | some p =>
          if p.version < e.2.version then aset rc e.2 acc else acc) [])
    s.cell_to_version s.cell_to_pipeline hq h1 h2 h5 h6
  exact ⟨hfold.1, hfold.2.1, h3, h4, hfold.2.2.1, hfold.2.2.2⟩

theorem infer_step_inv (env : VistrailEnv)
    (rec : StoreState → Nat ⊕ Cell → Option Cell →
      (Except PyErr (Option PipelineInformation)) × StoreState)
    (s : StoreState) (v : Nat) (cell : Cell) (h : StoreInv s)
    (hrec : ∀ s2 k2 ic2, StoreInv s2 → StoreInv (rec s2 k2 ic2).2) :
    StoreInv (infer_step env rec s v cell).2 := by
  unfold infer_step
  by_cases hm : v ∈ s.failed_infer_calls
  · rw [if_pos hm]
    exact h
  · rw [if_neg hm]
    cases hak : alookup v env.actionMap with
    | none =>
      simp only
      exact addFailed_inv s v h
    | some parentId =>
      simp only
      rcases hr : rec s (Sum.inl parentId) (some cell) with ⟨res, s2⟩
      have h2 : StoreInv s2 := by
        have h3 := hrec s (Sum.inl parentId) (some cell) h
        rwa [hr] at h3
      cases res with
      | error e => exact h2
      | ok o =>
        cases o with
        | none => exact addFailed_inv s2 v h2
        | some parentInfo =>
          simp only
          cases hpm : parentInfo.port_map with
          | none => exact h2
          | some pmap =>
            simp only
            by_cases hany : (pmap.any (fun e =>
                e.2.any (fun p => ¬ (env.modules v).contains p.1))) = true
            · rw [if_pos hany]
              exact addFailed_inv s2 v h2
            · rw [if_neg hany]
              cases hcl : connLoopA env v parentInfo.conn_map ([], [])
                  parentInfo.recipe.parameters with
              | none => exact h2
              | some nc =>
                simp only
                rcases hcp : created_pipeline s2 cell
                    ⟨v, ⟨parentInfo.recipe.plot, nc.1⟩, nc.2,
                      some pmap⟩ with ⟨res2, s3⟩
                have h4 : StoreInv s3 := by
                  have h5 := created_pipeline_inv s2 cell
                    ⟨v, ⟨parentInfo.recipe.plot, nc.1⟩, nc.2, some pmap⟩ h2
                  rwa [hcp] at h5
                cases res2 with
                | error e => exact h4
                | ok u => exact h4

theorem getF_inv (env : VistrailEnv) :
    ∀ (fuel : Nat) (s : StoreState) (k : Nat ⊕ Cell) (ifc : Option Cell),
      StoreInv s → StoreInv (get_pipelineF env fuel s k ifc).2
  | fuel, s, Sum.inr c, ifc, h => by
    simp only [get_pipelineF]
    exact h
  | 0, s, Sum.inl v, ifc, h => by
    rw [get_pipelineF_inl]
    cases hlk : alookup v s.version_to_pipeline with
    | some pi => exact h
    | none =>
      cases ifc with
      | none => exact h
      | some c => exact h
  | fuel + 1, s, Sum.inl v, ifc, h => by
    rw [get_pipelineF_inl]
    cases hlk : alookup v s.version_to_pipeline with
    | some pi => exact h
    | none =>
      cases ifc with
      | none => exact h
      | some c =>
        exact infer_step_inv env _ s v c h
          (fun s2 k2 ic2 h2 => getF_inv env fuel s2 k2 ic2 h2)

theorem loadRecipes_fold_inv (env : VistrailEnv)
    (vars : List (Str × VarInfo)) :
    ∀ (anns0 : List (Nat × Str × Str))
      (acc : List (Nat × PipelineInformation)),
      NodupKeys acc → (∀ e ∈ acc, e.2.version = e.1) →
      NodupKeys (anns0.foldl (fun v2p an =>
        if an.2.1 = RECIPE_KEY then
          match read_recipe_ann env.catalog vars an.2.2 with
          | none => v2p
          | some rc => aset an.1 ⟨an.1, rc.1, rc.2, none⟩ v2p
        else v2p) acc) ∧
      (∀ e ∈ anns0.foldl (fun v2p an =>
        if an.2.1 = RECIPE_KEY then
          match read_recipe_ann env.catalog vars an.2.2 with
          | none => v2p
          | some rc => aset an.1 ⟨an.1, rc.1, rc.2, none⟩ v2p
        else v2p) acc, e.2.version = e.1)
  | [], acc, hn, hk => ⟨hn, hk⟩
  | an :: anns0, acc, hn, hk => by
    simp only [List.foldl_cons]
    by_cases hkey : an.2.1 = RECIPE_KEY
    · rw [if_pos hkey]
      cases hrd : read_recipe_ann env.catalog vars an.2.2 with
      | none => exact loadRecipes_fold_inv env vars anns0 acc hn hk
      | some rc =>
        refine loadRecipes_fold_inv env vars anns0
          (aset an.1 ⟨an.1, rc.1, rc.2, none⟩ acc)
          (aset_nodup _ _ _ hn) ?_
        intro e he
        rcases aset_mem _ _ _ e he with rfl | hold
        · rfl
        · exact hk e hold
    · rw [if_neg hkey]
      exact loadRecipes_fold_inv env vars anns0 acc hn hk

theorem loadPortmaps_inv :
    ∀ (l : List (Nat × Str × Str)) (v2p : List (Nat × PipelineInformation))
      (anns : List (Nat × Str × Str)) (warn : Nat),
      NodupKeys v2p → (∀ e ∈ v2p, e.2.version = e.1) →
      NodupKeys (loadPortmaps l v2p anns warn).2.1 ∧
      (∀ e ∈ (loadPortmaps l v2p anns warn).2.1, e.2.version = e.1)
  | [], v2p, anns, warn, hn, hk => ⟨hn, hk⟩
  | an :: rest, v2p, anns, warn, hn, hk => by
    unfold loadPortmaps
    by_cases hkey : an.2.1 = PORTMAP_KEY
    · rw [if_pos hkey]
      cases hlk : alookup an.1 v2p with
      | none => exact ⟨hn, hk⟩
      | some pipeline =>
        simp only [pyTruthy, Bool.true_eq_false, if_false]
        cases hrd : read_portmap_ann an.2.2 with
        | none => exact loadPortmaps_inv rest v2p anns warn hn hk
        | some pm =>
          have hv : pipeline.version = an.1 :=
            hk (an.1, pipeline) (alookup_some_mem v2p an.1 pipeline hlk)
          refine loadPortmaps_inv rest
            (aset an.1 ⟨pipeline.version, pipeline.recipe,
              pipeline.conn_map, some pm⟩ v2p) anns warn
            (aset_nodup _ _ _ hn) ?_
          intro e he
          rcases aset_mem _ _ _ e he with rfl | hold
          · exact hv
          · exact hk e hold
    · rw [if_neg hkey]
      exact loadPortmaps_inv rest v2p anns warn hn hk

theorem store_init_inv (env : VistrailEnv)
    (anns0 : List (Nat × Str × Str)) :
    StoreInv (store_init env anns0).2 := by
  unfold store_init
  have hr := loadRecipes_fold_inv env (loadVariables env).1 anns0 []
    List.Pairwise.nil (fun e he => absurd he (List.not_mem_nil e))
  have hp := loadPortmaps_inv anns0
    (loadRecipes env (loadVariables env).1 anns0) anns0
    (loadVariables env).2 hr.1 hr.2
  exact ⟨List.Pairwise.nil, List.Pairwise.nil, hp.1, hp.2,
    fun ce hce => absurd hce (List.not_mem_nil ce),
    fun ce hce => absurd hce (List.not_mem_nil ce)⟩

instance StoreInv.decInst (s : StoreState) : Decidable (StoreInv s) := by
  unfold StoreInv NodupKeys
  exact inferInstance

/-- C9: after construction and along every store operation — created_pipeline,
variable removal, variable rename, get_pipeline with inference, cell
discovery — the reachability invariant holds, and it contains the claimed
property: every cell of the cell-to-record map points at a record whose
version has a matching entry in the version-to-record map. -/
theorem C9_cellmap_version_invariant (env : VistrailEnv) :
    (∀ anns0 : List (Nat × Str × Str), StoreInv (store_init env anns0).2) ∧
    (∀ (s : StoreState) (op : StoreOp),
      StoreInv s → StoreInv (applyOp env s op)) ∧
    (∀ s : StoreState, StoreInv s → ∀ ce ∈ s.cell_to_pipeline,
      (alookup ce.2.version s.version_to_pipeline).isSome = true) := by
  refine ⟨store_init_inv env, ?_, ?_⟩
  · intro s op h
    cases op with
    | createdPipelineOp cell pi => exact created_pipeline_inv s cell pi h
    | removeVariableOp varname => exact remove_variable_inv s varname h
    | renameVariableOp old new => exact rename_variable_inv s old new h
    | getPipelineOp fuel k c => exact getF_inv env fuel s k c h
    | discoverCellsOp => exact discover_cells_inv env s h
  · intro s h
    exact h.2.2.2.2.2

/-- C9 witness: the invariant holds for the concrete constructed store of the
C4 fixtures, is kept by registering piW into a cell, and yields the claimed
cell-map property there. -/
theorem C9_cellmap_version_invariant_witness :
    StoreInv (store_init envC2 [(5, RECIPE_KEY, annW)]).2 ∧
    StoreInv (applyOp envC4 storeC4
      (StoreOp.createdPipelineOp (0, 0) piW)) ∧
    (∀ ce ∈ storeC4.cell_to_pipeline,
      (alookup ce.2.version storeC4.version_to_pipeline).isSome = true) :=
  ⟨(C9_cellmap_version_invariant envC2).1 [(5, RECIPE_KEY, annW)],
   (C9_cellmap_version_invariant envC4).2.1 storeC4
     (StoreOp.createdPipelineOp (0, 0) piW) (by decide),
   (C9_cellmap_version_invariant envC4).2.2 storeC4 (by decide)⟩
